import Mathlib

/-!
Verification of the `xmlparser` tokenizer against its specification.

The input of the tokenizer is a Rust `&str`, i.e. a valid UTF-8 text; we
model it as its list of Unicode scalar values (`List Char`).  The byte
cursor of the Rust `Stream` always sits on a UTF-8 char boundary (it is
only moved by whole matched ASCII prefixes or by `char::len_utf8`), so a
stream is modelled as the pair of the already-consumed chars (`prev`, in
order) and the remaining chars (`rest`); the Rust byte position `pos`
corresponds to the UTF-8 byte length of `prev`.

Spans (`StrSpan`) are modelled by their character content; none of the
verified properties inspects numeric span offsets.
-/

namespace XmlParser

/-- error.rs `TextPos`: 1-based row/column position in the input text. -/
structure TextPos where
  row : Nat
  col : Nat
deriving DecidableEq

/-- error.rs `StreamError`. -/
inductive StreamError where
  | unexpectedEndOfStream
  | invalidName
  | nonXmlChar (c : Char) (pos : TextPos)
  | invalidChar (actual expected : Nat) (pos : TextPos)
  | invalidCharMultiple (actual : Nat) (expected : List Nat) (pos : TextPos)
  | invalidQuote (c : Nat) (pos : TextPos)
  | invalidSpace (c : Nat) (pos : TextPos)
  | invalidString (expected : List Char) (pos : TextPos)
  | invalidReference
  | invalidExternalID
  | invalidCommentData
  | invalidCommentEnd
  | invalidCharacterData
deriving DecidableEq

/-- xmlchar.rs `u8::is_xml_space` (`' ' \t \n \r`). -/
def isXmlSpaceByte (c : Nat) : Bool :=
  c == 0x20 || c == 0x09 || c == 0x0A || c == 0x0D

/-- xmlchar.rs `u8::is_xml_digit` (`[0-9]`). -/
def isXmlDigitByte (c : Nat) : Bool :=
  decide (0x30 ≤ c) && decide (c ≤ 0x39)

/-- xmlchar.rs `u8::is_xml_hex_digit` (`[0-9A-Fa-f]`). -/
def isXmlHexDigitByte (c : Nat) : Bool :=
  (decide (0x30 ≤ c) && decide (c ≤ 0x39)) ||
  (decide (0x41 ≤ c) && decide (c ≤ 0x46)) ||
  (decide (0x61 ≤ c) && decide (c ≤ 0x66))

/-- xmlchar.rs `u8::is_xml_letter` (`[A-Za-z]`). -/
def isXmlLetterByte (c : Nat) : Bool :=
  (decide (0x41 ≤ c) && decide (c ≤ 0x5A)) || (decide (0x61 ≤ c) && decide (c ≤ 0x7A))

/-- xmlchar.rs `u8::is_xml_name` (`[A-Za-z0-9:_\-.]`). -/
def isXmlNameByte (c : Nat) : Bool :=
  isXmlLetterByte c || isXmlDigitByte c ||
  c == 0x3A || c == 0x5F || c == 0x2D || c == 0x2E

/-- xmlchar.rs `char::is_xml_name_start`. -/
def isXmlNameStart (c : Char) : Bool :=
  let n := c.toNat
  if n ≤ 128 then
    isXmlLetterByte n || n == 0x3A || n == 0x5F
  else
    (decide (0xC0 ≤ n) && decide (n ≤ 0xD6)) ||
    (decide (0xD8 ≤ n) && decide (n ≤ 0xF6)) ||
    (decide (0xF8 ≤ n) && decide (n ≤ 0x2FF)) ||
    (decide (0x370 ≤ n) && decide (n ≤ 0x37D)) ||
    (decide (0x37F ≤ n) && decide (n ≤ 0x1FFF)) ||
    (decide (0x200C ≤ n) && decide (n ≤ 0x200D)) ||
    (decide (0x2070 ≤ n) && decide (n ≤ 0x218F)) ||
    (decide (0x2C00 ≤ n) && decide (n ≤ 0x2FEF)) ||
    (decide (0x3001 ≤ n) && decide (n ≤ 0xD7FF)) ||
    (decide (0xF900 ≤ n) && decide (n ≤ 0xFDCF)) ||
    (decide (0xFDF0 ≤ n) && decide (n ≤ 0xFFFD)) ||
    (decide (0x10000 ≤ n) && decide (n ≤ 0xEFFFF))

/-- xmlchar.rs `char::is_xml_name`. -/
def isXmlName (c : Char) : Bool :=
  let n := c.toNat
  if n ≤ 128 then
    isXmlNameByte n
  else
    n == 0xB7 ||
    (decide (0xC0 ≤ n) && decide (n ≤ 0xD6)) ||
    (decide (0xD8 ≤ n) && decide (n ≤ 0xF6)) ||
    (decide (0xF8 ≤ n) && decide (n ≤ 0x2FF)) ||
    (decide (0x300 ≤ n) && decide (n ≤ 0x36F)) ||
    (decide (0x370 ≤ n) && decide (n ≤ 0x37D)) ||
    (decide (0x37F ≤ n) && decide (n ≤ 0x1FFF)) ||
    (decide (0x200C ≤ n) && decide (n ≤ 0x200D)) ||
    (decide (0x203F ≤ n) && decide (n ≤ 0x2040)) ||
    (decide (0x2070 ≤ n) && decide (n ≤ 0x218F)) ||
    (decide (0x2C00 ≤ n) && decide (n ≤ 0x2FEF)) ||
    (decide (0x3001 ≤ n) && decide (n ≤ 0xD7FF)) ||
    (decide (0xF900 ≤ n) && decide (n ≤ 0xFDCF)) ||
    (decide (0xFDF0 ≤ n) && decide (n ≤ 0xFFFD)) ||
    (decide (0x10000 ≤ n) && decide (n ≤ 0xEFFFF))

/-- xmlchar.rs `char::is_xml_char`: control chars below 0x20 are allowed
only if they are XML spaces; 0xFFFE/0xFFFF are excluded; surrogates cannot
occur in a `char` at all. -/
def isXmlChar (c : Char) : Bool :=
  let n := c.toNat
  if n < 0x20 then isXmlSpaceByte n
  else if n == 0xFFFF || n == 0xFFFE then false
  else true

/-- The UTF-8 byte length of a char list (the Rust byte length of the
corresponding `&str`). -/
def utf8Len (l : List Char) : Nat :=
  (l.map Char.utf8Size).sum

/-- The first byte of the UTF-8 encoding of a char (lead bytes written as
`base + high-bits`, which coincides with the usual bitwise form).  Reading
a byte at a char boundary in Rust reads exactly this byte. -/
def utf8FirstByte (c : Char) : Nat :=
  let n := c.toNat
  if n < 0x80 then n
  else if n < 0x800 then 0xC0 + n / 0x40
  else if n < 0x10000 then 0xE0 + n / 0x1000
  else 0xF0 + n / 0x40000

/-- The full UTF-8 encoding of a char as a byte list (continuation bytes
`0x80 + six-bit group`). -/
def utf8Bytes (c : Char) : List Nat :=
  let n := c.toNat
  if n < 0x80 then [n]
  else if n < 0x800 then
    [0xC0 + n / 0x40, 0x80 + n % 0x40]
  else if n < 0x10000 then
    [0xE0 + n / 0x1000, 0x80 + n / 0x40 % 0x40, 0x80 + n % 0x40]
  else
    [0xF0 + n / 0x40000, 0x80 + n / 0x1000 % 0x40,
     0x80 + n / 0x40 % 0x40, 0x80 + n % 0x40]

/-- The UTF-8 encoding of a char list as a byte list. -/
def utf8Encode (l : List Char) : List Nat :=
  (l.map utf8Bytes).flatten

/-- bytestream.rs `calc_curr_row`: `row` starts at 1 and is incremented for
every `b'\n'` byte in `text[..end]`. -/
def calcCurrRow (bytes : List Nat) : Nat :=
  bytes.foldl (fun row c => if c == 0x0A then row + 1 else row) 1

/-- bytestream.rs `calc_curr_col` loop body: walk the chars of `text[..end]`
in reverse and count until a newline is hit. -/
def calcCurrColAux : List Char → Nat
  | [] => 1
  | c :: rest => if c == '\n' then 1 else 1 + calcCurrColAux rest

/-- bytestream.rs `calc_curr_col`. -/
def calcCurrCol (pfx : List Char) : Nat :=
  calcCurrColAux pfx.reverse

/-- bytestream.rs `gen_text_pos` at a position whose consumed prefix is
`done` (for a stream over the whole document, `end = pos` and
`text[..end]` is exactly the consumed prefix). -/
def textPosOfConsumed (done : List Char) : TextPos :=
  ⟨calcCurrRow (utf8Encode done), calcCurrCol done⟩

/-- The chars of `text` covered by the first `n` bytes; for `n` on a char
boundary this is exactly the Rust slice `text[..n]`. -/
def takeBytes : List Char → Nat → List Char
  | [], _ => []
  | c :: rest, n => if c.utf8Size ≤ n then c :: takeBytes rest (n - c.utf8Size) else []

/-- bytestream.rs `gen_text_pos_from(pos)`: clamp `pos` to the text byte
length, then compute the position over the prefix `text[..pos]`. -/
def genTextPosFrom (text : List Char) (pos : Nat) : TextPos :=
  textPosOfConsumed (takeBytes text (min pos (utf8Len text)))

/-- stream.rs `Reference`. -/
inductive Reference where
  | charRef (c : Char)
  | entityRef (name : List Char)
deriving DecidableEq

/-- The tokenizer's stream cursor (stream.rs `Stream`): `prev` are the
already-consumed chars in order, `rest` the remaining chars. -/
structure Stream where
  prev : List Char
  rest : List Char
deriving DecidableEq

/-- The `Stream::from(text)`. -/
def Stream.fromChars (text : List Char) : Stream := ⟨[], text⟩

/-- The `Stream::at_end`. -/
def Stream.atEnd (s : Stream) : Bool := s.rest.isEmpty

/-- The `Stream::jump_to_end`. -/
def Stream.jumpToEnd (s : Stream) : Stream := ⟨s.prev ++ s.rest, []⟩

/-- The `Stream::gen_text_pos` (the position of the cursor itself). -/
def Stream.genTextPos (s : Stream) : TextPos := textPosOfConsumed s.prev

/-- The `Stream::curr_byte`. -/
def Stream.currByte (s : Stream) : Except StreamError Nat :=
  match s.rest with
  | [] => .error .unexpectedEndOfStream
  | c :: _ => .ok (utf8FirstByte c)

/-- The `Stream::advance(n)` core loop: move whole chars from `rest` to `prev`
as long as their byte size fits into the remaining byte budget.  Every
call site advances by the byte length of previously matched chars, so the
budget is always consumed exactly. -/
def advanceChars : Nat → List Char → List Char → List Char × List Char
  | _, done, [] => (done, [])
  | n, done, c :: rest =>
    if c.utf8Size ≤ n then advanceChars (n - c.utf8Size) (done ++ [c]) rest
    else (done, c :: rest)

/-- The `Stream::advance(n)` (a byte count). -/
def Stream.advance (s : Stream) (n : Nat) : Stream :=
  let p := advanceChars n s.prev s.rest
  ⟨p.1, p.2⟩

/-- The `Stream::starts_with(text)`.  All patterns passed by the tokenizer are
ASCII, for which byte-prefix matching of the UTF-8 stream coincides with
char-prefix matching. -/
def Stream.startsWith (s : Stream) (pat : List Char) : Bool :=
  pat.isPrefixOf s.rest

/-- The `starts_with(&[0xEF, 0xBB, 0xBF])`: those three bytes are exactly the
UTF-8 encoding of U+FEFF, so at a char boundary they match iff the next
char is U+FEFF. -/
def Stream.startsWithBOM (s : Stream) : Bool :=
  match s.rest with
  | c :: _ => c.toNat == 0xFEFF
  | [] => false

/-- The `Stream::skip_bytes(f)` core loop.  The Rust loop advances one byte at
a time; with every predicate used by the tokenizer (ASCII comparisons and
ASCII classes) it can stop only at a char boundary, and a multi-byte char
is consumed iff all of its bytes satisfy `f`. -/
def skipBytesAux (f : Nat → Bool) : List Char → List Char → List Char × List Char
  | done, [] => (done, [])
  | done, c :: rest =>
    if (utf8Bytes c).all f then skipBytesAux f (done ++ [c]) rest
    else (done, c :: rest)

/-- The `Stream::skip_bytes(f)`. -/
def Stream.skipBytes (s : Stream) (f : Nat → Bool) : Stream :=
  let p := skipBytesAux f s.prev s.rest
  ⟨p.1, p.2⟩

/-- The `Stream::consume_bytes(f)`: skip and return the consumed slice. -/
def Stream.consumeBytes (s : Stream) (f : Nat → Bool) : List Char × Stream :=
  let s' := s.skipBytes f
  (s'.prev.drop s.prev.length, s')

/-- A plain char loop (the `for c in iter` tail of stream.rs `skip_name`):
consume chars while the predicate holds, no validation. -/
def skipCharsWhileAux (f : Char → Bool) : List Char → List Char → List Char × List Char
  | done, [] => (done, [])
  | done, c :: rest =>
    if f c then skipCharsWhileAux f (done ++ [c]) rest
    else (done, c :: rest)

/-- See `skipCharsWhileAux`. -/
def Stream.skipCharsWhile (s : Stream) (f : Char → Bool) : Stream :=
  let p := skipCharsWhileAux f s.prev s.rest
  ⟨p.1, p.2⟩

/-- Modelled from the spec: `Stream::skip_chars` as lib.rs requires it — a
fallible loop that decodes each char, validates it against the XML `Char`
production (`NonXmlChar` on failure) and otherwise consumes it while the
predicate holds.  No file under src/ contains this fallible variant
(stream.rs and bytestream.rs hold older infallible ones); spec §4.2:
"`consume_chars(pred) -> Result` … validating each char against the XML
Char production … Encountering a non-XML char yields `NonXmlChar(c, pos)`".
The predicate receives the stream positioned at the char, as in Rust. -/
def skipCharsAux (f : Stream → Char → Bool) :
    List Char → List Char → Except StreamError (List Char × List Char)
  | done, [] => .ok (done, [])
  | done, c :: rest =>
    if ¬ isXmlChar c then .error (.nonXmlChar c (textPosOfConsumed done))
    else if f ⟨done, c :: rest⟩ c then skipCharsAux f (done ++ [c]) rest
    else .ok (done, c :: rest)

/-- The `Stream::skip_chars(f)` (fallible, modelled from the spec). -/
def Stream.skipChars (s : Stream) (f : Stream → Char → Bool) :
    Except StreamError Stream :=
  match skipCharsAux f s.prev s.rest with
  | .ok p => .ok ⟨p.1, p.2⟩
  | .error e => .error e

/-- The `Stream::consume_chars(f)`: skip and return the consumed slice. -/
def Stream.consumeChars (s : Stream) (f : Stream → Char → Bool) :
    Except StreamError (List Char × Stream) :=
  match s.skipChars f with
  | .ok s' => .ok (s'.prev.drop s.prev.length, s')
  | .error e => .error e

/-- The `Stream::skip_ascii_spaces`. -/
def Stream.skipAsciiSpaces (s : Stream) : Stream :=
  s.skipBytes isXmlSpaceByte

/-- The `Stream::skip_string(text)` (error.rs payload shape: the expected
string and the position). -/
def Stream.skipString (s : Stream) (text : List Char) : Except StreamError Stream :=
  if s.startsWith text then .ok (s.advance (utf8Len text))
  else .error (.invalidString text s.genTextPos)

/-- The `Stream::consume_byte(c)`. -/
def Stream.consumeByte (s : Stream) (c : Nat) : Except StreamError Stream :=
  match s.currByte with
  | .error e => .error e
  | .ok b =>
    if b ≠ c then .error (.invalidChar b c s.genTextPos)
    else .ok (s.advance 1)

/-- bytestream.rs `try_consume_byte(c)`. -/
def Stream.tryConsumeByte (s : Stream) (c : Nat) : Bool × Stream :=
  match s.currByte with
  | .ok b => if b == c then (true, s.advance 1) else (false, s)
  | .error _ => (false, s)

/-- The `Stream::consume_quote`. -/
def Stream.consumeQuote (s : Stream) : Except StreamError (Nat × Stream) :=
  match s.currByte with
  | .error e => .error e
  | .ok c =>
    if c == 0x27 || c == 0x22 then .ok (c, s.advance 1)
    else .error (.invalidQuote c s.genTextPos)

/-- The `Stream::consume_eq` (`S? '=' S?`, ASCII spaces). -/
def Stream.consumeEq (s : Stream) : Except StreamError Stream :=
  match s.skipAsciiSpaces.consumeByte 0x3D with
  | .error e => .error e
  | .ok s' => .ok s'.skipAsciiSpaces

/-- stream.rs `skip_name`: if there is a first char it must be a
`NameStartChar` (otherwise `InvalidName`), then consume `NameChar`s. -/
def Stream.skipName (s : Stream) : Except StreamError Stream :=
  match s.rest with
  | [] => .ok s
  | c :: _ =>
    if isXmlNameStart c then .ok ((s.advance c.utf8Size).skipCharsWhile isXmlName)
    else .error .invalidName

/-- stream.rs `consume_name`: `skip_name`, then reject an empty result. -/
def Stream.consumeName (s : Stream) : Except StreamError (List Char × Stream) :=
  match s.skipName with
  | .error e => .error e
  | .ok s' =>
    let name := s'.prev.drop s.prev.length
    if name.isEmpty then .error .invalidName else .ok (name, s')

/-- stream.rs `consume_qname` scan loop: a `:` always records the splitter
(the char index of the *last* colon seen, mirroring the byte position the
Rust code stores) and is consumed; any other `NameChar` is consumed; any
other char stops the loop. -/
def qnameLoop (consumed : List Char) (splitter : Option Nat) :
    List Char → List Char × Option Nat × List Char
  | [] => (consumed, splitter, [])
  | c :: rest =>
    if c == ':' then qnameLoop (consumed ++ [c]) (some consumed.length) rest
    else if isXmlName c then qnameLoop (consumed ++ [c]) splitter rest
    else (consumed, splitter, c :: rest)

/-- stream.rs `consume_qname`: split the consumed run at the last colon
(empty prefix when there is none) and reject only an empty local part. -/
def Stream.consumeQname (s : Stream) :
    Except StreamError ((List Char × List Char) × Stream) :=
  let r := qnameLoop [] none s.rest
  let consumed := r.1
  let s' : Stream := ⟨s.prev ++ consumed, r.2.2⟩
  match r.2.1 with
  | some k =>
    let pfx := consumed.take k
    let loc := consumed.drop (k + 1)
    if loc.isEmpty then .error .invalidName else .ok ((pfx, loc), s')
  | none =>
    if consumed.isEmpty then .error .invalidName else .ok (([], consumed), s')

/-- The `u32::from_str_radix` over the consumed digit chars: fails on an empty
string and on overflow past `u32`. -/
def parseRadix (base : Nat) (ds : List Char) (digitVal : Char → Nat) :
    Except StreamError Nat :=
  if ds.isEmpty then .error .invalidReference
  else
    let n := ds.foldl (fun acc c => acc * base + digitVal c) 0
    if n < 2 ^ 32 then .ok n else .error .invalidReference

/-- The numeric value of a (hex or decimal) digit char. -/
def digitVal (c : Char) : Nat :=
  let n := c.toNat
  if n ≤ 0x39 then n - 0x30
  else if n ≤ 0x46 then n - 0x37
  else n - 0x57

/-- The `char::from_u32(n).unwrap_or('\u{FFFD}')`: surrogate halves and values
above 0x10FFFF are not Unicode scalar values and map to U+FFFD. -/
def charOrReplacement (n : Nat) : Char :=
  if n < 0xD800 ∨ (0xE000 ≤ n ∧ n < 0x110000) then Char.ofNat n
  else Char.ofNat 0xFFFD

/-- stream.rs `_consume_reference`. -/
def Stream.consumeReferenceImpl (s0 : Stream) :
    Except StreamError (Reference × Stream) := do
  let b0 ← s0.currByte
  if b0 ≠ 0x26 then throw StreamError.invalidReference else
  let s1 := s0.advance 1
  let b1 ← s1.currByte
  if b1 == 0x23 then
    let s2 := s1.advance 1
    let b2 ← s2.currByte
    let (n, s3) ←
      if b2 == 0x78 then
        let p := (s2.advance 1).consumeBytes isXmlHexDigitByte
        (parseRadix 16 p.1 digitVal).map (fun n => (n, p.2))
      else
        let p := s2.consumeBytes isXmlDigitByte
        (parseRadix 10 p.1 digitVal).map (fun n => (n, p.2))
    let c := charOrReplacement n
    if ¬ isXmlChar c then throw StreamError.invalidReference else
    let s4 ← s3.consumeByte 0x3B
    pure (Reference.charRef c, s4)
  else
    let (name, s2) ← s1.consumeName
    let r :=
      if name = "quot".toList then Reference.charRef '"'
      else if name = "amp".toList then Reference.charRef '&'
      else if name = "apos".toList then Reference.charRef (Char.ofNat 0x27)
      else if name = "lt".toList then Reference.charRef '<'
      else if name = "gt".toList then Reference.charRef '>'
      else Reference.entityRef name
    let s3 ← s2.consumeByte 0x3B
    pure (r, s3)

/-- stream.rs `consume_reference`: any inner failure becomes
`InvalidReference`. -/
def Stream.consumeReference (s : Stream) : Except StreamError (Reference × Stream) :=
  match s.consumeReferenceImpl with
  | .ok r => .ok r
  | .error _ => .error .invalidReference

/-- stream.rs `try_consume_char_reference` (the position reset is implicit:
callers keep their own stream on failure). -/
def Stream.tryConsumeCharReference (s : Stream) : Option Char :=
  match s.consumeReference with
  | .ok (.charRef ch, _) => some ch
  | _ => none

/-- stream.rs `skip_spaces` loop (reference-aware): XML space bytes are
consumed; `&` is consumed iff it is a char reference to a space byte;
anything else stops.  The loop consumes at least one char per iteration,
so `rest.length + 1` fuel never runs out. -/
def skipSpacesGo : Nat → Stream → Stream
  | 0, s => s
  | fuel + 1, s =>
    match s.rest with
    | [] => s
    | c :: _ =>
      let b := utf8FirstByte c
      if isXmlSpaceByte b then skipSpacesGo fuel (s.advance 1)
      else if b == 0x26 then
        match s.consumeReference with
        | .ok (.charRef ch, s') =>
          if ch.toNat < 255 && isXmlSpaceByte ch.toNat then skipSpacesGo fuel s'
          else s
        | _ => s
      else s

/-- stream.rs `skip_spaces`. -/
def Stream.skipSpaces (s : Stream) : Stream :=
  skipSpacesGo (s.rest.length + 1) s

/-- stream.rs `starts_with_space`. -/
def Stream.startsWithSpace (s : Stream) : Bool :=
  match s.rest with
  | [] => false
  | c :: _ =>
    let b := utf8FirstByte c
    if isXmlSpaceByte b then true
    else if b == 0x26 then
      match s.tryConsumeCharReference with
      | some v => v.toNat < 255 && isXmlSpaceByte v.toNat
      | none => false
    else false

/-- stream.rs `consume_spaces`: error unless at the end or a space comes
first, then `skip_spaces` (error payload per error.rs: the offending
byte). -/
def Stream.consumeSpaces (s : Stream) : Except StreamError Stream :=
  match s.rest with
  | [] => .ok s.skipSpaces
  | c :: _ =>
    if s.startsWithSpace then .ok s.skipSpaces
    else .error (.invalidSpace (utf8FirstByte c) s.genTextPos)

/-- lib.rs `ElementEnd`. -/
inductive ElementEnd where
  | Open
  | Close (pfx loc : List Char)
  | Empty
deriving DecidableEq

/-- lib.rs `ExternalId`. -/
inductive ExternalId where
  | System (lit : List Char)
  | Public (pubid system : List Char)
deriving DecidableEq

/-- lib.rs `EntityDefinition`. -/
inductive EntityDefinition where
  | EntityValue (v : List Char)
  | ExternalId (id : ExternalId)
deriving DecidableEq

/-- lib.rs `Token` (spans modelled by their character content). -/
inductive Token where
  | Declaration (version : List Char) (encoding : Option (List Char))
      (standalone : Option Bool) (span : List Char)
  | ProcessingInstruction (target : List Char) (content : Option (List Char))
      (span : List Char)
  | Comment (text : List Char) (span : List Char)
  | DtdStart (name : List Char) (externalId : Option ExternalId) (span : List Char)
  | EmptyDtd (name : List Char) (externalId : Option ExternalId) (span : List Char)
  | EntityDeclaration (name : List Char) (definition : EntityDefinition)
      (span : List Char)
  | DtdEnd (span : List Char)
  | ElementStart (pfx loc span : List Char)
  | Attribute (pfx loc value span : List Char)
  | ElementEnd (theEnd : ElementEnd) (span : List Char)
  | Text (text : List Char)
  | Cdata (text span : List Char)
deriving DecidableEq

/-- lib.rs `TokenType`. -/
inductive TokenType where
  | XMLDecl
  | Comment
  | PI
  | DoctypeDecl
  | ElementDecl
  | AttlistDecl
  | EntityDecl
  | NotationDecl
  | DoctypeEnd
  | ElementStart
  | ElementClose
  | Attribute
  | CDSect
  | Whitespace
  | CharData
  | Unknown
deriving DecidableEq

/-- Modelled from the spec: the `Error` type as consumed by lib.rs
(`Error::InvalidToken(TokenType, TextPos, Option<StreamError>)`,
`Error::UnknownToken(TextPos)`, `Error::UnexpectedToken(TokenType,
TextPos)`); its declaration is not under src/ — src/error.rs declares the
newer taxonomy (spec §6) in which `InvalidToken(t, pos, cause)` is split
into per-construct variants (`InvalidDeclaration` … `InvalidCharData`,
each wrapping the `StreamError` cause and the position) and
`UnexpectedToken` no longer exists. -/
inductive Error where
  | InvalidToken (t : TokenType) (pos : TextPos) (cause : Option StreamError)
  | UnknownToken (pos : TextPos)
  | UnexpectedToken (t : TokenType) (pos : TextPos)
deriving DecidableEq

/-- The `StreamError` cause carried by an error, if any. -/
def Error.cause : Error → Option StreamError
  | .InvalidToken _ _ c => c
  | _ => none

/-- lib.rs `State`. -/
inductive State where
  | Start
  | Dtd
  | AfterDtd
  | Elements
  | Attributes
  | AfterElements
  | End
deriving DecidableEq

/-- lib.rs `Tokenizer`. -/
structure Tokenizer where
  stream : Stream
  state : State
  depth : Nat
  fragmentParsing : Bool
deriving DecidableEq

/-- The `Tokenizer::from(text)`. -/
def Tokenizer.fromChars (text : List Char) : Tokenizer :=
  ⟨Stream.fromChars text, State.Start, 0, false⟩

/-- Drop the last `k` elements of a list. -/
def dropLastN (l : List Char) (k : Nat) : List Char :=
  l.take (l.length - k)

/-- The `slice_back(start)` where `start` is the position of an earlier stream
`s0` on the same text: the chars consumed since `s0`. -/
def sliceFrom (s0 s : Stream) : List Char :=
  s.prev.drop s0.prev.length

/-- The `slice_back(pos - k)` for an ASCII lead-in of `k` bytes (= `k` chars):
the last `k` consumed chars. -/
def Stream.sliceBackChars (s : Stream) (k : Nat) : List Char :=
  s.prev.drop (s.prev.length - k)

/-- The `gen_text_pos_from(pos - k)` for an ASCII lead-in of `k` bytes: the
position of the point `k` chars before the cursor. -/
def Stream.genTextPosBack (s : Stream) (k : Nat) : TextPos :=
  textPosOfConsumed (dropLastN s.prev k)

/-- The `text.contains(pat)` (substring search). -/
def containsSub : List Char → List Char → Bool
  | hay, pat =>
    match hay with
    | [] => pat.isEmpty
    | c :: rest => pat.isPrefixOf (c :: rest) || containsSub rest pat

/-- lib.rs `parse_version_info`. -/
def parseVersionInfo (s : Stream) : Except StreamError (List Char × Stream) := do
  let s := s.skipSpaces
  let s ← s.skipString "version".toList
  let s ← s.consumeEq
  let (quote, s) ← s.consumeQuote
  let s0 := s
  let s ← s.skipString "1.".toList
  let s := s.skipBytes isXmlDigitByte
  let ver := sliceFrom s0 s
  let s ← s.consumeByte quote
  pure (ver, s)

/-- lib.rs `parse_encoding_decl`. -/
def parseEncodingDecl (s : Stream) :
    Except StreamError (Option (List Char) × Stream) := do
  let s := s.skipSpaces
  match s.skipString "encoding".toList with
  | .error _ => pure (none, s)
  | .ok s =>
    let s ← s.consumeEq
    let (quote, s) ← s.consumeQuote
    let (name, s) := s.consumeBytes (fun c =>
      isXmlLetterByte c || isXmlDigitByte c || c == 0x2E || c == 0x2D || c == 0x5F)
    let s ← s.consumeByte quote
    pure (some name, s)

/-- lib.rs `parse_standalone` (`InvalidString` payload: `"yes', 'no"`). -/
def parseStandalone (s : Stream) :
    Except StreamError (Option Bool × Stream) := do
  let s := s.skipSpaces
  match s.skipString "standalone".toList with
  | .error _ => pure (none, s)
  | .ok s =>
    let s ← s.consumeEq
    let (quote, s) ← s.consumeQuote
    let s0 := s
    let (value, s) ← s.consumeName
    let flag ←
      if value = "yes".toList then pure true
      else if value = "no".toList then pure false
      else throw (StreamError.invalidString
        ("yes".toList ++ [Char.ofNat 0x27, ',', ' ', Char.ofNat 0x27] ++ "no".toList)
        s0.genTextPos)
    let s ← s.consumeByte quote
    pure (some flag, s)

/-- lib.rs `parse_declaration_impl` (`start = pos - 6`, the ASCII `<?xml `
lead-in). -/
def parseDeclarationImpl (s : Stream) : Except StreamError (Token × Stream) := do
  let startPrev := dropLastN s.prev 6
  let (version, s) ← parseVersionInfo s
  let (encoding, s) ← parseEncodingDecl s
  let (standalone, s) ← parseStandalone s
  let s := s.skipSpaces
  let s ← s.skipString "?>".toList
  let span := s.prev.drop startPrev.length
  pure (Token.Declaration version encoding standalone span, s)

/-- lib.rs `parse_declaration` (`map_err_at` with `d = -6`). -/
def parseDeclaration (s : Stream) : Except Error (Token × Stream) :=
  match parseDeclarationImpl s with
  | .ok r => .ok r
  | .error e =>
    .error (Error.InvalidToken TokenType.XMLDecl (s.genTextPosBack 6) (some e))

/-- lib.rs `parse_comment_impl` (`start = pos - 4`): consume up to `-->`,
then reject a body containing `--` or ending in `-` (the inner error kind
does not matter, the wrapper discards it). -/
def parseCommentImpl (s : Stream) : Except StreamError (Token × Stream) := do
  let startPrev := dropLastN s.prev 4
  let (text, s) ← s.consumeChars (fun st c => ¬ (c == '-' && st.startsWith "-->".toList))
  let s ← s.skipString "-->".toList
  if containsSub text "--".toList || text.getLast? == some '-' then
    throw StreamError.unexpectedEndOfStream
  else
    let span := s.prev.drop startPrev.length
    pure (Token.Comment text span, s)

/-- lib.rs `parse_comment`: any failure becomes `InvalidToken(Comment,
pos, None)` — no `StreamError` cause survives. -/
def parseComment (s : Stream) : Except Error (Token × Stream) :=
  match parseCommentImpl s with
  | .ok r => .ok r
  | .error _ =>
    .error (Error.InvalidToken TokenType.Comment (s.genTextPosBack 4) none)

/-- lib.rs `parse_pi_impl` (`start = pos - 2`). -/
def parsePiImpl (s : Stream) : Except StreamError (Token × Stream) := do
  let startPrev := dropLastN s.prev 2
  let (target, s) ← s.consumeName
  let s := s.skipSpaces
  let (content, s) ← s.consumeChars (fun st c => ¬ (c == '?' && st.startsWith "?>".toList))
  let content := if ¬ content.isEmpty then some content else none
  let s ← s.skipString "?>".toList
  let span := s.prev.drop startPrev.length
  pure (Token.ProcessingInstruction target content span, s)

/-- lib.rs `parse_pi` (`map_err_at` with `d = -2`). -/
def parsePi (s : Stream) : Except Error (Token × Stream) :=
  match parsePiImpl s with
  | .ok r => .ok r
  | .error e =>
    .error (Error.InvalidToken TokenType.PI (s.genTextPosBack 2) (some e))

/-- lib.rs `parse_external_id`. -/
def parseExternalId (s : Stream) :
    Except StreamError (Option ExternalId × Stream) := do
  if s.startsWith "SYSTEM".toList || s.startsWith "PUBLIC".toList then
    let s0 := s
    let s := s.advance 6
    let idName := sliceFrom s0 s
    let s ← s.consumeSpaces
    let (quote, s) ← s.consumeQuote
    let (literal1, s) := s.consumeBytes (fun c => c != quote)
    let s ← s.consumeByte quote
    if idName = "SYSTEM".toList then
      pure (some (ExternalId.System literal1), s)
    else
      let s ← s.consumeSpaces
      let (quote2, s) ← s.consumeQuote
      let (literal2, s) := s.consumeBytes (fun c => c != quote2)
      let s ← s.consumeByte quote2
      pure (some (ExternalId.Public literal1 literal2), s)
  else pure (none, s)

/-- lib.rs `parse_doctype_impl` (`start = pos - 9`); after the optional
ExternalID the next byte must be `[` (DtdStart) or `>` (EmptyDtd). -/
def parseDoctypeImpl (s : Stream) : Except StreamError (Token × Stream) := do
  let startPrev := dropLastN s.prev 9
  let s ← s.consumeSpaces
  let (name, s) ← s.consumeName
  let s := s.skipSpaces
  let (externalId, s) ← parseExternalId s
  let s := s.skipSpaces
  let c ← s.currByte
  if c ≠ 0x5B ∧ c ≠ 0x3E then
    throw (StreamError.invalidCharMultiple c [0x5B, 0x3E] s.genTextPos)
  else
    let s := s.advance 1
    let span := s.prev.drop startPrev.length
    if c == 0x5B then pure (Token.DtdStart name externalId span, s)
    else pure (Token.EmptyDtd name externalId span, s)

/-- lib.rs `parse_doctype` (`map_err_at` with `d = -9`). -/
def parseDoctype (s : Stream) : Except Error (Token × Stream) :=
  match parseDoctypeImpl s with
  | .ok r => .ok r
  | .error e =>
    .error (Error.InvalidToken TokenType.DoctypeDecl (s.genTextPosBack 9) (some e))

/-- lib.rs `parse_entity_def`. -/
def parseEntityDef (s : Stream) (isGe : Bool) :
    Except StreamError (EntityDefinition × Stream) := do
  let c ← s.currByte
  if c == 0x22 || c == 0x27 then
    let (quote, s) ← s.consumeQuote
    let (value, s) := s.consumeBytes (fun b => b != quote)
    let s ← s.consumeByte quote
    pure (EntityDefinition.EntityValue value, s)
  else if c == 0x53 || c == 0x50 then
    let (idOpt, s) ← parseExternalId s
    match idOpt with
    | some id =>
      if isGe then
        let s := s.skipSpaces
        if s.startsWith "NDATA".toList then
          let s := s.advance 5
          let s ← s.consumeSpaces
          let s ← s.skipName
          pure (EntityDefinition.ExternalId id, s)
        else pure (EntityDefinition.ExternalId id, s)
      else pure (EntityDefinition.ExternalId id, s)
    | none => throw StreamError.invalidExternalID
  else
    throw (StreamError.invalidCharMultiple c [0x22, 0x27, 0x53, 0x50] s.genTextPos)

/-- lib.rs `parse_entity_decl_impl` (`start = pos - 8`). -/
def parseEntityDeclImpl (s : Stream) : Except StreamError (Token × Stream) := do
  let startPrev := dropLastN s.prev 8
  let s ← s.consumeSpaces
  let pr := s.tryConsumeByte 0x25
  let (isGe, s) ←
    if pr.1 then do
      let s ← pr.2.consumeSpaces
      pure (false, s)
    else pure (true, pr.2)
  let (name, s) ← s.consumeName
  let s ← s.consumeSpaces
  let (definition, s) ← parseEntityDef s isGe
  let s := s.skipSpaces
  let s ← s.consumeByte 0x3E
  let span := s.prev.drop startPrev.length
  pure (Token.EntityDeclaration name definition span, s)

/-- lib.rs `parse_entity_decl` (`map_err_at` with `d = -8`). -/
def parseEntityDecl (s : Stream) : Except Error (Token × Stream) :=
  match parseEntityDeclImpl s with
  | .ok r => .ok r
  | .error e =>
    .error (Error.InvalidToken TokenType.EntityDecl (s.genTextPosBack 8) (some e))

/-- lib.rs `consume_decl` (skipped ELEMENT/ATTLIST/NOTATION declarations). -/
def consumeDecl (s : Stream) : Except StreamError Stream := do
  let s ← s.consumeSpaces
  let s := s.skipBytes (fun c => c != 0x3E)
  s.consumeByte 0x3E

/-- lib.rs `parse_cdata_impl` (`start = pos - 9`). -/
def parseCdataImpl (s : Stream) : Except StreamError (Token × Stream) := do
  let startPrev := dropLastN s.prev 9
  let (text, s) ← s.consumeChars (fun st c => ¬ (c == ']' && st.startsWith "]]>".toList))
  let s ← s.skipString "]]>".toList
  let span := s.prev.drop startPrev.length
  pure (Token.Cdata text span, s)

/-- lib.rs `parse_cdata` (`map_err_at` with `d = -9`). -/
def parseCdata (s : Stream) : Except Error (Token × Stream) :=
  match parseCdataImpl s with
  | .ok r => .ok r
  | .error e =>
    .error (Error.InvalidToken TokenType.CDSect (s.genTextPosBack 9) (some e))

/-- lib.rs `parse_element_start_impl` (`start = pos - 1`). -/
def parseElementStartImpl (s : Stream) : Except StreamError (Token × Stream) := do
  let startPrev := dropLastN s.prev 1
  let (qn, s) ← s.consumeQname
  let span := s.prev.drop startPrev.length
  pure (Token.ElementStart qn.1 qn.2 span, s)

/-- lib.rs `parse_element_start` (`map_err_at` with `d = -1`). -/
def parseElementStart (s : Stream) : Except Error (Token × Stream) :=
  match parseElementStartImpl s with
  | .ok r => .ok r
  | .error e =>
    .error (Error.InvalidToken TokenType.ElementStart (s.genTextPosBack 1) (some e))

/-- lib.rs `parse_close_element_impl` (`start = pos - 2`). -/
def parseCloseElementImpl (s : Stream) : Except StreamError (Token × Stream) := do
  let startPrev := dropLastN s.prev 2
  let (qn, s) ← s.consumeQname
  let s := s.skipSpaces
  let s ← s.consumeByte 0x3E
  let span := s.prev.drop startPrev.length
  pure (Token.ElementEnd (ElementEnd.Close qn.1 qn.2) span, s)

/-- lib.rs `parse_close_element` (`map_err_at` with `d = -2`). -/
def parseCloseElement (s : Stream) : Except Error (Token × Stream) :=
  match parseCloseElementImpl s with
  | .ok r => .ok r
  | .error e =>
    .error (Error.InvalidToken TokenType.ElementClose (s.genTextPosBack 2) (some e))

/-- The attribute-proper tail of lib.rs `parse_attribute` (after the
`/` / `>` dispatch): qname, `Eq`, quoted value (which must not contain
`<`), trailing space skip. -/
def parseAttributeBody (s : Stream) : Except StreamError (Token × Stream) := do
  let s0 := s
  let (qn, s) ← s.consumeQname
  let s ← s.consumeEq
  let (quote, s) ← s.consumeQuote
  let quoteC := Char.ofNat quote
  let (value, s) ← s.consumeChars (fun _ c => c != quoteC && c != '<')
  let s ← s.consumeByte quote
  let span := s.prev.drop s0.prev.length
  let s := s.skipSpaces
  pure (Token.Attribute qn.1 qn.2 value span, s)

/-- lib.rs `parse_attribute`: skip spaces, then `/>` yields Empty and `>`
yields Open; otherwise parse an attribute. -/
def parseAttribute (s : Stream) : Except StreamError (Token × Stream) :=
  let s := s.skipSpaces
  match s.currByte with
  | .ok c =>
    if c == 0x2F then
      match (s.advance 1).consumeByte 0x3E with
      | .error e => .error e
      | .ok s' =>
        let span := s'.prev.drop s.prev.length
        .ok (Token.ElementEnd ElementEnd.Empty span, s')
    else if c == 0x3E then
      let s' := s.advance 1
      let span := s'.prev.drop s.prev.length
      .ok (Token.ElementEnd ElementEnd.Open span, s')
    else parseAttributeBody s
  | .error _ => parseAttributeBody s

/-- lib.rs `parse_text_impl`: consume chars up to `<`; a body containing
`]]>` is rejected with `InvalidCharacterData`. -/
def parseTextImpl (s : Stream) : Except StreamError (Token × Stream) := do
  let (text, s) ← s.consumeChars (fun _ c => c != '<')
  -- the Rust code nests the two checks (searching for `>` first is faster)
  if text.contains '>' ∧ containsSub text "]]>".toList then
    throw StreamError.invalidCharacterData
  else
    pure (Token.Text text, s)

/-- lib.rs `parse_text` (`map_err_at` with `d = 0`). -/
def parseText (s : Stream) : Except Error (Token × Stream) :=
  match parseTextImpl s with
  | .ok r => .ok r
  | .error e =>
    .error (Error.InvalidToken TokenType.CharData s.genTextPos (some e))

/-- lib.rs `parse_token_type`: classify the next construct by its lead-in
(and consume the lead-in). -/
def parseTokenType (s : Stream) (state : State) :
    Except StreamError (TokenType × Stream) := do
  let c1 ← s.currByte
  if c1 == 0x3C then
    let s := s.advance 1
    let c2 ← s.currByte
    if c2 == 0x3F then
      if s.startsWith "?xml ".toList then pure (TokenType.XMLDecl, s.advance 5)
      else pure (TokenType.PI, s.advance 1)
    else if c2 == 0x21 then
      let s := s.advance 1
      let c3 ← s.currByte
      if c3 == 0x2D && s.startsWith "--".toList then
        pure (TokenType.Comment, s.advance 2)
      else if c3 == 0x44 && s.startsWith "DOCTYPE".toList then
        pure (TokenType.DoctypeDecl, s.advance 7)
      else if c3 == 0x45 && s.startsWith "ELEMENT".toList then
        pure (TokenType.ElementDecl, s.advance 7)
      else if c3 == 0x41 && s.startsWith "ATTLIST".toList then
        pure (TokenType.AttlistDecl, s.advance 7)
      else if c3 == 0x45 && s.startsWith "ENTITY".toList then
        pure (TokenType.EntityDecl, s.advance 6)
      else if c3 == 0x4E && s.startsWith "NOTATION".toList then
        pure (TokenType.NotationDecl, s.advance 8)
      else if c3 == 0x5B && s.startsWith "[CDATA[".toList then
        pure (TokenType.CDSect, s.advance 7)
      else pure (TokenType.Unknown, s)
    else if c2 == 0x2F then pure (TokenType.ElementClose, s.advance 1)
    else pure (TokenType.ElementStart, s)
  else if c1 == 0x5D && state == State.Dtd && s.startsWith "]>".toList then
    pure (TokenType.DoctypeEnd, s.advance 2)
  else
    match state with
    | State.Start | State.AfterDtd | State.AfterElements | State.Dtd =>
      if s.startsWithSpace then pure (TokenType.Whitespace, s)
      else pure (TokenType.Unknown, s)
    | State.Elements => pure (TokenType.CharData, s)
    | _ => pure (TokenType.Unknown, s)

/-- lib.rs `gen_err!`: `UnknownToken` for an unrecognized lead-in,
`UnexpectedToken` for a recognized one that is illegal in this state. -/
def genErr (tt : TokenType) (pos : TextPos) : Error :=
  if tt == TokenType.Unknown then Error.UnknownToken pos
  else Error.UnexpectedToken tt pos

/-- Package a parser result as a `parse_next_impl` return value. -/
def wrapResult (r : Except Error (Token × Stream)) (s : Stream) :
    Option (Except Error Token) × Stream :=
  match r with
  | .ok (t, s') => (some (.ok t), s')
  | .error e => (some (.error e), s)

/-- lib.rs `parse_next_impl`.  The tail recursion (whitespace skipping and
dropped DTD declarations) always consumes at least one char, so
`rest.length + 1` fuel suffices (`parseNextGo_total` below); the outer
`none` marks fuel exhaustion and never occurs at that fuel. -/
def parseNextGo : Nat → Stream → State → Option (Option (Except Error Token) × Stream)
  | 0, _, _ => none
  | fuel + 1, sIn, state =>
    if sIn.atEnd then some (none, sIn)
    else
      -- `start = s.pos()`, captured before the BOM skip
      let sAt := sIn
      let s := if sIn.prev.isEmpty && sIn.startsWithBOM then sIn.advance 3 else sIn
      let startPos := textPosOfConsumed sAt.prev
      match state with
      | State.Start =>
        match parseTokenType s state with
        | .error _ => some (some (.error (Error.UnknownToken startPos)), s)
        | .ok (tt, s) =>
          match tt with
          | TokenType.XMLDecl =>
            -- the XML declaration is allowed only at the start of the document
            if sAt.prev.isEmpty then some (wrapResult (parseDeclaration s) s)
            else some (some (.error (genErr tt startPos)), s)
          | TokenType.Comment => some (wrapResult (parseComment s) s)
          | TokenType.PI => some (wrapResult (parsePi s) s)
          | TokenType.DoctypeDecl => some (wrapResult (parseDoctype s) s)
          | TokenType.ElementStart => some (wrapResult (parseElementStart s) s)
          | TokenType.Whitespace => parseNextGo fuel s.skipSpaces state
          | _ => some (some (.error (genErr tt startPos)), s)
      | State.Dtd =>
        match parseTokenType s state with
        | .error _ => some (some (.error (Error.UnknownToken startPos)), s)
        | .ok (tt, s) =>
          match tt with
          | TokenType.ElementDecl | TokenType.NotationDecl | TokenType.AttlistDecl =>
            match consumeDecl s with
            | .error _ => some (some (.error (genErr tt startPos)), s)
            | .ok s' => parseNextGo fuel s' state
          | TokenType.EntityDecl => some (wrapResult (parseEntityDecl s) s)
          | TokenType.Comment => some (wrapResult (parseComment s) s)
          | TokenType.PI => some (wrapResult (parsePi s) s)
          | TokenType.DoctypeEnd =>
            some (some (.ok (Token.DtdEnd (s.sliceBackChars 2))), s)
          | TokenType.Whitespace => parseNextGo fuel s.skipSpaces state
          | _ => some (some (.error (genErr tt startPos)), s)
      | State.AfterDtd =>
        match parseTokenType s state with
        | .error _ => some (some (.error (Error.UnknownToken startPos)), s)
        | .ok (tt, s) =>
          match tt with
          | TokenType.Comment => some (wrapResult (parseComment s) s)
          | TokenType.PI => some (wrapResult (parsePi s) s)
          | TokenType.ElementStart => some (wrapResult (parseElementStart s) s)
          | TokenType.Whitespace => parseNextGo fuel s.skipSpaces state
          | _ => some (some (.error (genErr tt startPos)), s)
      | State.Elements =>
        match parseTokenType s state with
        | .error _ => some (some (.error (Error.UnknownToken startPos)), s)
        | .ok (tt, s) =>
          match tt with
          | TokenType.ElementStart => some (wrapResult (parseElementStart s) s)
          | TokenType.ElementClose => some (wrapResult (parseCloseElement s) s)
          | TokenType.CDSect => some (wrapResult (parseCdata s) s)
          | TokenType.PI => some (wrapResult (parsePi s) s)
          | TokenType.Comment => some (wrapResult (parseComment s) s)
          | TokenType.CharData => some (wrapResult (parseText s) s)
          | _ => some (some (.error (genErr tt startPos)), s)
      | State.Attributes =>
        match parseAttribute s with
        | .ok (t, s') => some (some (.ok t), s')
        | .error e =>
          some (some (.error (Error.InvalidToken TokenType.Attribute startPos (some e))), s)
      | State.AfterElements =>
        match parseTokenType s state with
        | .error _ => some (some (.error (Error.UnknownToken startPos)), s)
        | .ok (tt, s) =>
          match tt with
          | TokenType.Comment => some (wrapResult (parseComment s) s)
          | TokenType.PI => some (wrapResult (parsePi s) s)
          | TokenType.Whitespace => parseNextGo fuel s.skipSpaces state
          | _ => some (some (.error (genErr tt startPos)), s)
      | State.End => some (none, s)

/-- lib.rs `parse_next_impl` at sufficient fuel. -/
def parseNextImpl (s : Stream) (state : State) : Option (Except Error Token) × Stream :=
  (parseNextGo (s.rest.length + 1) s state).getD (none, s)

/-- lib.rs `Iterator::next` state update on an `Ok` token. -/
def Tokenizer.updateState (t : Tokenizer) (tok : Token) : Tokenizer :=
  match tok with
  | Token.ElementStart _ _ _ => { t with state := State.Attributes }
  | Token.ElementEnd e _ =>
    let depth :=
      match e with
      | ElementEnd.Open => t.depth + 1
      | ElementEnd.Close _ _ => if t.depth > 0 then t.depth - 1 else t.depth
      | ElementEnd.Empty => t.depth
    let st :=
      if depth == 0 && ¬ t.fragmentParsing then State.AfterElements
      else State.Elements
    { t with depth := depth, state := st }
  | Token.DtdStart _ _ _ => { t with state := State.Dtd }
  | Token.EmptyDtd _ _ _ => { t with state := State.AfterDtd }
  | Token.DtdEnd _ => { t with state := State.AfterDtd }
  | _ => t

/-- lib.rs `Iterator::next` (one pull). -/
def Tokenizer.next (t : Tokenizer) : Option (Except Error Token) × Tokenizer :=
  if t.stream.atEnd || t.state == State.End then (none, t)
  else
    let r := parseNextImpl t.stream t.state
    match r.1 with
    | some (.ok tok) =>
      (some (.ok tok), Tokenizer.updateState { t with stream := r.2 } tok)
    | some (.error e) =>
      (some (.error e), { t with stream := r.2.jumpToEnd, state := State.End })
    | none => (none, { t with stream := r.2 })

/-- The tokenizer after `n` pulls. -/
def Tokenizer.afterPulls : Tokenizer → Nat → Tokenizer
  | t, 0 => t
  | t, n + 1 => (t.next.2).afterPulls n

/-- The result of the `(n+1)`-th pull. -/
def Tokenizer.pullAt (t : Tokenizer) (n : Nat) : Option (Except Error Token) :=
  ((t.afterPulls n).next).1

/-! ## Stream lemmas -/

/-- The colon-splitter invariant of the `consume_qname` loop: the recorded
index marks the last colon of the consumed run. -/
def SplitInv (c : List Char) : Option Nat → Prop
  | none => ':' ∉ c
  | some k => c.take k ++ ':' :: c.drop (k + 1) = c ∧ ':' ∉ c.drop (k + 1)


/-- Holds when `s'` is `s` with some chars `d` moved from `rest` to `prev`. -/
def Consumes (s s' : Stream) : Prop :=
  ∃ d, s'.prev = s.prev ++ d ∧ s.rest = d ++ s'.rest

theorem Consumes.refl (s : Stream) : Consumes s s :=
  ⟨[], by simp⟩

theorem Consumes.trans {a b c : Stream} (h1 : Consumes a b) (h2 : Consumes b c) :
    Consumes a c := by
  obtain ⟨d1, hp1, hr1⟩ := h1
  obtain ⟨d2, hp2, hr2⟩ := h2
  exact ⟨d1 ++ d2, by simp [hp2, hp1], by simp [hr1, hr2]⟩

theorem Consumes.rest_le {s s' : Stream} (h : Consumes s s') :
    s'.rest.length ≤ s.rest.length := by
  obtain ⟨d, _, hr⟩ := h
  simp [hr]

theorem Consumes.rest_lt {s s' : Stream} (h : Consumes s s')
    (hne : s'.prev ≠ s.prev) : s'.rest.length < s.rest.length := by
  obtain ⟨d, hp, hr⟩ := h
  cases d with
  | nil => simp [hp] at hne
  | cons c cs => simp [hr]; omega

theorem Consumes.sliceFrom_eq {s s' : Stream} (d : List Char)
    (hp : s'.prev = s.prev ++ d) : sliceFrom s s' = d := by
  simp [sliceFrom, hp]

theorem utf8Size_pos (c : Char) : 1 ≤ c.utf8Size := by
  simp only [Char.utf8Size]
  repeat' split
  all_goals omega

theorem utf8FirstByte_ascii {c : Char} (h : c.toNat < 0x80) :
    utf8FirstByte c = c.toNat := by
  simp [utf8FirstByte, h]

theorem utf8FirstByte_ge {c : Char} (hc : 0x80 ≤ c.toNat) :
    0xC0 ≤ utf8FirstByte c := by
  unfold utf8FirstByte
  dsimp only
  rw [if_neg (by omega)]
  by_cases h2 : c.toNat < 0x800
  · rw [if_pos h2]; omega
  · rw [if_neg h2]
    by_cases h3 : c.toNat < 0x10000
    · rw [if_pos h3]; omega
    · rw [if_neg h3]; omega

theorem utf8FirstByte_lt_imp {c : Char} (h : utf8FirstByte c < 0xC0) :
    c.toNat < 0x80 := by
  by_contra hc
  push_neg at hc
  exact absurd h (Nat.not_lt.mpr (utf8FirstByte_ge hc))

theorem utf8Size_eq_one_of_ascii {c : Char} (h : c.toNat < 0x80) :
    c.utf8Size = 1 := by
  have hv : c.val ≤ (0x7F : UInt32) := by
    show c.val.toNat ≤ (0x7F : UInt32).toNat
    have h2 : ((0x7F : UInt32)).toNat = 127 := rfl
    have h3 : c.val.toNat = c.toNat := rfl
    omega
  simp [Char.utf8Size, hv]

theorem advanceChars_spec (r : List Char) :
    ∀ n p, ∃ d, (advanceChars n p r).1 = p ++ d ∧ r = d ++ (advanceChars n p r).2 := by
  induction r with
  | nil => intro n p; exact ⟨[], by simp [advanceChars]⟩
  | cons c rest ih =>
    intro n p
    by_cases h : c.utf8Size ≤ n
    · obtain ⟨d, hp, hr⟩ := ih (n - c.utf8Size) (p ++ [c])
      refine ⟨c :: d, ?_, ?_⟩
      · simpa [advanceChars, h] using hp
      · simp only [advanceChars, if_pos h]
        simpa using hr
    · exact ⟨[], by simp [advanceChars, h]⟩

theorem advance_consumes (s : Stream) (n : Nat) : Consumes s (s.advance n) := by
  obtain ⟨d, hp, hr⟩ := advanceChars_spec s.rest n s.prev
  exact ⟨d, hp, hr⟩

theorem advance_strict {s : Stream} {c : Char} {r : List Char} {n : Nat}
    (hr : s.rest = c :: r) (hc : c.utf8Size ≤ n) :
    (s.advance n).rest.length < s.rest.length := by
  obtain ⟨d, _, hrec⟩ := advanceChars_spec r (n - c.utf8Size) (s.prev ++ [c])
  have hstep : (s.advance n).rest = (advanceChars (n - c.utf8Size) (s.prev ++ [c]) r).2 := by
    simp [Stream.advance, hr, advanceChars, hc]
  have hlen := congrArg List.length hrec
  simp only [List.length_append] at hlen
  rw [hstep, hr]
  simp only [List.length_cons]
  omega

theorem bind_ok_iff {ε α β : Type} {x : Except ε α} {f : α → Except ε β} {b : β} :
    (x >>= f) = .ok b ↔ ∃ a, x = .ok a ∧ f a = .ok b := by
  cases x with
  | ok a => simp [Bind.bind, Except.bind]
  | error e => simp [Bind.bind, Except.bind]

theorem map_ok_iff {ε α β : Type} {x : Except ε α} {f : α → β} {b : β} :
    (x.map f) = .ok b ↔ ∃ a, x = .ok a ∧ f a = b := by
  cases x with
  | ok a => simp [Except.map]
  | error e => simp [Except.map]

theorem pure_ok {ε α : Type} {a b : α} :
    ((pure a : Except ε α) = .ok b) ↔ a = b := by
  simp [pure, Except.pure]

theorem throw_ne_ok {ε α : Type} {e : ε} {b : α} :
    ((throw e : Except ε α) = .ok b) ↔ False := by
  simp [throw, throwThe, MonadExceptOf.throw]

theorem skipBytesAux_spec (f : Nat → Bool) (r : List Char) :
    ∀ p, ∃ d, (skipBytesAux f p r).1 = p ++ d ∧ r = d ++ (skipBytesAux f p r).2 := by
  induction r with
  | nil => intro p; exact ⟨[], by simp [skipBytesAux]⟩
  | cons c rest ih =>
    intro p
    by_cases h : (utf8Bytes c).all f
    · obtain ⟨d, hp, hr⟩ := ih (p ++ [c])
      refine ⟨c :: d, ?_, ?_⟩
      · simpa [skipBytesAux, h] using hp
      · simp only [skipBytesAux, if_pos h]
        simpa using hr
    · exact ⟨[], by simp [skipBytesAux, h]⟩

theorem skipBytes_consumes (s : Stream) (f : Nat → Bool) :
    Consumes s (s.skipBytes f) := by
  obtain ⟨d, hp, hr⟩ := skipBytesAux_spec f s.rest s.prev
  exact ⟨d, hp, hr⟩

theorem consumeBytes_consumes (s : Stream) (f : Nat → Bool) :
    Consumes s (s.consumeBytes f).2 :=
  skipBytes_consumes s f

theorem skipCharsWhileAux_spec (f : Char → Bool) (r : List Char) :
    ∀ p, ∃ d, (skipCharsWhileAux f p r).1 = p ++ d ∧
      r = d ++ (skipCharsWhileAux f p r).2 := by
  induction r with
  | nil => intro p; exact ⟨[], by simp [skipCharsWhileAux]⟩
  | cons c rest ih =>
    intro p
    by_cases h : f c
    · obtain ⟨d, hp, hr⟩ := ih (p ++ [c])
      refine ⟨c :: d, ?_, ?_⟩
      · simpa [skipCharsWhileAux, h] using hp
      · simp only [skipCharsWhileAux, if_pos h]
        simpa using hr
    · exact ⟨[], by simp [skipCharsWhileAux, h]⟩

theorem skipCharsWhile_consumes (s : Stream) (f : Char → Bool) :
    Consumes s (s.skipCharsWhile f) := by
  obtain ⟨d, hp, hr⟩ := skipCharsWhileAux_spec f s.rest s.prev
  exact ⟨d, hp, hr⟩

theorem skipCharsAux_spec (f : Stream → Char → Bool) (r : List Char) :
    ∀ p q, skipCharsAux f p r = .ok q →
      ∃ d, q.1 = p ++ d ∧ r = d ++ q.2 := by
  induction r with
  | nil =>
    intro p q h
    simp [skipCharsAux] at h
    exact ⟨[], by simp [← h]⟩
  | cons c rest ih =>
    intro p q h
    simp only [skipCharsAux] at h
    split at h
    · exact absurd h (by simp)
    · split at h
      · obtain ⟨d, hp, hr⟩ := ih (p ++ [c]) q h
        exact ⟨c :: d, by simpa using hp, by simpa using hr⟩
      · simp at h
        exact ⟨[], by simp [← h]⟩

theorem skipChars_consumes {s s' : Stream} {f : Stream → Char → Bool}
    (h : s.skipChars f = .ok s') : Consumes s s' := by
  simp only [Stream.skipChars] at h
  split at h
  · rename_i q hq
    obtain ⟨d, hp, hr⟩ := skipCharsAux_spec f s.rest s.prev q hq
    cases h
    exact ⟨d, hp, hr⟩
  · exact absurd h (by simp)

theorem consumeChars_consumes {s s' : Stream} {f : Stream → Char → Bool}
    {text : List Char} (h : s.consumeChars f = .ok (text, s')) :
    Consumes s s' ∧ text = sliceFrom s s' := by
  simp only [Stream.consumeChars] at h
  split at h
  · rename_i s2 hs2
    simp only [Except.ok.injEq, Prod.mk.injEq] at h
    obtain ⟨ht, hs⟩ := h
    subst hs
    refine ⟨skipChars_consumes hs2, ?_⟩
    simp [sliceFrom, ← ht]
  · exact absurd h (by simp)

theorem skipString_consumes {s s' : Stream} {pat : List Char}
    (h : s.skipString pat = .ok s') : Consumes s s' := by
  simp only [Stream.skipString] at h
  split at h
  · cases h
    exact advance_consumes s (utf8Len pat)
  · exact absurd h (by simp)

theorem skipString_strict {s s' : Stream} {c : Char} {pat : List Char}
    (h : s.skipString (c :: pat) = .ok s') (hc : c.toNat < 0x80) :
    s'.rest.length < s.rest.length := by
  simp only [Stream.skipString] at h
  split at h
  · cases h
    rename_i hpre
    simp only [Stream.startsWith, List.isPrefixOf_iff_prefix] at hpre
    obtain ⟨t, ht⟩ := hpre
    refine advance_strict (show s.rest = c :: (pat ++ t) from by simp [← ht]) ?_
    · have h1 := utf8Size_eq_one_of_ascii hc
      have h2 : 1 ≤ utf8Len (c :: pat) := by
        simp [utf8Len]
        omega
      omega
  · exact absurd h (by simp)

theorem consumeByte_consumes {s s' : Stream} {c : Nat}
    (h : s.consumeByte c = .ok s') : Consumes s s' := by
  simp only [Stream.consumeByte] at h
  split at h
  · exact absurd h (by simp)
  · split at h
    · exact absurd h (by simp)
    · cases h
      exact advance_consumes s 1

theorem consumeByte_strict {s s' : Stream} {c : Nat}
    (h : s.consumeByte c = .ok s') (hc : c < 0x80) :
    s'.rest.length < s.rest.length := by
  simp only [Stream.consumeByte] at h
  split at h
  · exact absurd h (by simp)
  · rename_i b hb
    split at h
    · exact absurd h (by simp)
    · rename_i hbc
      cases h
      simp only [Stream.currByte] at hb
      cases hrest : s.rest with
      | nil => rw [hrest] at hb; simp at hb
      | cons c0 r0 =>
        rw [hrest] at hb
        simp only [Except.ok.injEq] at hb
        push_neg at hbc
        have hcc : c0.toNat < 0x80 := by
          apply utf8FirstByte_lt_imp
          omega
        have hstep := advance_strict hrest (by rw [utf8Size_eq_one_of_ascii hcc])
        rw [hrest] at hstep
        exact hstep

theorem tryConsumeByte_consumes (s : Stream) (c : Nat) :
    Consumes s (s.tryConsumeByte c).2 := by
  simp only [Stream.tryConsumeByte]
  split
  · split
    · exact advance_consumes s 1
    · exact Consumes.refl s
  · exact Consumes.refl s

theorem consumeQuote_consumes {s : Stream} {q : Nat} {s' : Stream}
    (h : s.consumeQuote = .ok (q, s')) :
    Consumes s s' ∧ s'.rest.length < s.rest.length ∧ (q = 0x27 ∨ q = 0x22) := by
  simp only [Stream.consumeQuote] at h
  split at h
  · exact absurd h (by simp)
  · rename_i b hb
    split at h
    · rename_i hq
      simp only [Except.ok.injEq, Prod.mk.injEq] at h
      obtain ⟨hq2, hs⟩ := h
      subst hq2 hs
      simp only [Stream.currByte] at hb
      simp at hq
      cases hrest : s.rest with
      | nil => rw [hrest] at hb; simp at hb
      | cons c0 r0 =>
        rw [hrest] at hb
        simp only [Except.ok.injEq] at hb
        refine ⟨advance_consumes s 1, ?_, ?_⟩
        · have hcc : c0.toNat < 0x80 := by
            apply utf8FirstByte_lt_imp
            rcases hq with hq | hq <;> omega
          have hstep := advance_strict hrest (by rw [utf8Size_eq_one_of_ascii hcc])
          rw [hrest] at hstep
          exact hstep
        · exact hq
    · exact absurd h (by simp)

theorem skipAsciiSpaces_consumes (s : Stream) : Consumes s s.skipAsciiSpaces :=
  skipBytes_consumes s isXmlSpaceByte

theorem consumeEq_consumes {s s' : Stream} (h : s.consumeEq = .ok s') :
    Consumes s s' := by
  simp only [Stream.consumeEq] at h
  split at h
  · exact absurd h (by simp)
  · rename_i s2 hs2
    cases h
    exact ((skipAsciiSpaces_consumes s).trans (consumeByte_consumes hs2)).trans
      (skipAsciiSpaces_consumes s2)

theorem skipName_consumes {s s' : Stream} (h : s.skipName = .ok s') :
    Consumes s s' := by
  simp only [Stream.skipName] at h
  split at h
  · cases h; exact Consumes.refl s
  · split at h
    · cases h
      exact (advance_consumes s _).trans (skipCharsWhile_consumes _ _)
    · exact absurd h (by simp)

theorem Consumes.rest_lt_of_delta {s s' : Stream} {d : List Char}
    (hr : s.rest = d ++ s'.rest) (hd : d ≠ []) :
    s'.rest.length < s.rest.length := by
  cases d with
  | nil => simp at hd
  | cons c cs => simp [hr]; omega

theorem consumeName_consumes {s : Stream} {name : List Char} {s' : Stream}
    (h : s.consumeName = .ok (name, s')) :
    Consumes s s' ∧ name = sliceFrom s s' ∧ name ≠ [] ∧
      s'.rest.length < s.rest.length := by
  simp only [Stream.consumeName] at h
  split at h
  · exact absurd h (by simp)
  · rename_i s2 hs2
    split at h
    · exact absurd h (by simp)
    · rename_i hne
      simp only [Except.ok.injEq, Prod.mk.injEq] at h
      obtain ⟨hn, hs⟩ := h
      subst hs
      obtain ⟨d, hp, hr⟩ := skipName_consumes hs2
      have hcons : Consumes s s2 := ⟨d, hp, hr⟩
      have hslice : sliceFrom s s2 = d := Consumes.sliceFrom_eq d hp
      have hname : name = d := by
        rw [← hn]
        exact hslice
      have hnn : name ≠ [] := by
        intro hnil
        rw [← hn] at hnil
        rw [hnil] at hne
        simp at hne
      refine ⟨hcons, by rw [hslice, hname], hnn, ?_⟩
      exact Consumes.rest_lt_of_delta hr (by rw [← hname]; exact hnn)

theorem qnameLoop_spec (r : List Char) :
    ∀ consumed sp, ∃ d, (qnameLoop consumed sp r).1 = consumed ++ d ∧
      r = d ++ (qnameLoop consumed sp r).2.2 := by
  induction r with
  | nil => intro consumed sp; exact ⟨[], by simp [qnameLoop]⟩
  | cons c rest ih =>
    intro consumed sp
    by_cases h1 : c == ':'
    · obtain ⟨d, hp, hr⟩ := ih (consumed ++ [c]) (some consumed.length)
      refine ⟨c :: d, ?_, ?_⟩
      · simpa [qnameLoop, h1] using hp
      · simp only [qnameLoop, if_pos h1]
        simpa using hr
    · by_cases h2 : isXmlName c
      · obtain ⟨d, hp, hr⟩ := ih (consumed ++ [c]) sp
        refine ⟨c :: d, ?_, ?_⟩
        · simpa [qnameLoop, h1, h2] using hp
        · simp only [qnameLoop, if_neg h1, if_pos h2]
          simpa using hr
      · exact ⟨[], by simp [qnameLoop, h1, h2]⟩

theorem consumeQname_consumes {s : Stream} {pfx loc : List Char} {s' : Stream}
    (h : s.consumeQname = .ok ((pfx, loc), s')) :
    Consumes s s' ∧ s'.rest.length < s.rest.length := by
  obtain ⟨d, hp, hr⟩ := qnameLoop_spec s.rest [] none
  simp only [List.nil_append] at hp
  rw [← hp] at hr
  simp only [Stream.consumeQname] at h
  split at h
  · rename_i k hk
    split at h
    · exact absurd h (by simp)
    · rename_i hloc
      simp only [Except.ok.injEq, Prod.mk.injEq] at h
      obtain ⟨⟨hpe, hle⟩, hse⟩ := h
      rw [← hse]
      have hnil : (qnameLoop [] none s.rest).1 ≠ [] := by
        intro hn
        rw [hn] at hloc
        simp at hloc
      exact ⟨⟨(qnameLoop [] none s.rest).1, rfl, hr⟩,
        Consumes.rest_lt_of_delta hr hnil⟩
  · split at h
    · exact absurd h (by simp)
    · rename_i hloc
      simp only [Except.ok.injEq, Prod.mk.injEq] at h
      obtain ⟨⟨hpe, hle⟩, hse⟩ := h
      rw [← hse]
      have hnil : (qnameLoop [] none s.rest).1 ≠ [] := by
        intro hn
        rw [hn] at hloc
        simp at hloc
      exact ⟨⟨(qnameLoop [] none s.rest).1, rfl, hr⟩,
        Consumes.rest_lt_of_delta hr hnil⟩

theorem consumeReferenceImpl_consumes {s : Stream} {r : Reference} {s' : Stream}
    (h : s.consumeReferenceImpl = .ok (r, s')) :
    Consumes s s' ∧ s'.rest.length < s.rest.length := by
  rw [Stream.consumeReferenceImpl] at h
  cases hb0 : s.currByte with
  | error e => rw [hb0] at h; simp [Bind.bind, Except.bind] at h
  | ok b0 =>
    rw [hb0] at h
    simp only [Bind.bind, Except.bind] at h
    split at h
    · -- b0 ≠ 0x26: throw
      simp [throw, throwThe, MonadExceptOf.throw] at h
    · rename_i hb26
      push_neg at hb26
      have hstrict1 : (s.advance 1).rest.length < s.rest.length := by
        simp only [Stream.currByte] at hb0
        cases hrest : s.rest with
        | nil => rw [hrest] at hb0; simp at hb0
        | cons c0 r0 =>
          rw [hrest] at hb0
          simp only [Except.ok.injEq] at hb0
          have hcc : c0.toNat < 0x80 := utf8FirstByte_lt_imp (by omega)
          have hstep := advance_strict hrest (by rw [utf8Size_eq_one_of_ascii hcc])
          rw [hrest] at hstep
          exact hstep
      have hcons1 := advance_consumes s 1
      cases hb1 : (s.advance 1).currByte with
      | error e => rw [hb1] at h; simp at h
      | ok b1 =>
        rw [hb1] at h
        simp only at h
        split at h
        · -- numeric reference
          cases hb2 : ((s.advance 1).advance 1).currByte with
          | error e => rw [hb2] at h; simp at h
          | ok b2 =>
            rw [hb2] at h
            simp only at h
            have hconsPre : Consumes s ((s.advance 1).advance 1) :=
              hcons1.trans (advance_consumes _ 1)
            split at h
            · -- hex
              cases hpr : parseRadix 16 ((((s.advance 1).advance 1).advance 1).consumeBytes isXmlHexDigitByte).1 digitVal with
              | error e => rw [hpr] at h; simp [Except.map] at h
              | ok n =>
                rw [hpr] at h
                simp only [Except.map] at h
                split at h
                · simp [throw, throwThe, MonadExceptOf.throw] at h
                · cases hs4 : ((((s.advance 1).advance 1).advance 1).consumeBytes isXmlHexDigitByte).2.consumeByte 59 with
                  | error e => rw [hs4] at h; simp at h
                  | ok s4 =>
                    rw [hs4] at h
                    simp only [pure, Except.pure, Except.ok.injEq, Prod.mk.injEq] at h
                    obtain ⟨-, hse⟩ := h
                    subst hse
                    have hc : Consumes s s4 :=
                      ((hconsPre.trans (advance_consumes _ 1)).trans
                        (consumeBytes_consumes _ _)).trans (consumeByte_consumes hs4)
                    refine ⟨hc, ?_⟩
                    have h2 := (((advance_consumes ((s.advance 1)) 1).trans
                      ((advance_consumes _ 1).trans
                        (consumeBytes_consumes _ _))).trans (consumeByte_consumes hs4)).rest_le
                    omega
            · -- decimal
              cases hpr : parseRadix 10 (((s.advance 1).advance 1).consumeBytes isXmlDigitByte).1 digitVal with
              | error e => rw [hpr] at h; simp [Except.map] at h
              | ok n =>
                rw [hpr] at h
                simp only [Except.map] at h
                split at h
                · simp [throw, throwThe, MonadExceptOf.throw] at h
                · cases hs4 : (((s.advance 1).advance 1).consumeBytes isXmlDigitByte).2.consumeByte 59 with
                  | error e => rw [hs4] at h; simp at h
                  | ok s4 =>
                    rw [hs4] at h
                    simp only [pure, Except.pure, Except.ok.injEq, Prod.mk.injEq] at h
                    obtain ⟨-, hse⟩ := h
                    subst hse
                    have hc : Consumes s s4 :=
                      (hconsPre.trans (consumeBytes_consumes _ _)).trans
                        (consumeByte_consumes hs4)
                    refine ⟨hc, ?_⟩
                    have h2 := (((advance_consumes ((s.advance 1)) 1).trans
                      (consumeBytes_consumes _ _)).trans (consumeByte_consumes hs4)).rest_le
                    omega
        · -- named reference
          cases hname : (s.advance 1).consumeName with
          | error e => rw [hname] at h; simp at h
          | ok p =>
            rw [hname] at h
            simp only at h
            cases hs3 : p.2.consumeByte 59 with
            | error e => rw [hs3] at h; simp at h
            | ok s3 =>
              rw [hs3] at h
              simp only [pure, Except.pure, Except.ok.injEq, Prod.mk.injEq] at h
              obtain ⟨-, hse⟩ := h
              subst hse
              obtain ⟨hc2, -, -, -⟩ := consumeName_consumes
                (show (s.advance 1).consumeName = .ok (p.1, p.2) from by rw [hname])
              have hc3 := consumeByte_consumes hs3
              refine ⟨hcons1.trans (hc2.trans hc3), ?_⟩
              have h2 := (hc2.trans hc3).rest_le
              omega

theorem consumeReference_consumes {s : Stream} {r : Reference} {s' : Stream}
    (h : s.consumeReference = .ok (r, s')) :
    Consumes s s' ∧ s'.rest.length < s.rest.length := by
  simp only [Stream.consumeReference] at h
  split at h
  · rename_i p hp
    cases h
    exact consumeReferenceImpl_consumes hp
  · exact absurd h (by simp)

theorem skipSpacesGo_consumes (fuel : Nat) :
    ∀ s, Consumes s (skipSpacesGo fuel s) := by
  induction fuel with
  | zero => intro s; exact Consumes.refl s
  | succ fuel ih =>
    intro s
    simp only [skipSpacesGo]
    split
    · exact Consumes.refl s
    · split
      · exact (advance_consumes s 1).trans (ih _)
      · split
        · cases hcr : s.consumeReference with
          | error e =>
            exact Consumes.refl s
          | ok p =>
            match p with
            | (Reference.charRef ch, s2) =>
              by_cases hcond : (decide (ch.toNat < 255) && isXmlSpaceByte ch.toNat) = true
              · simp only [hcond, if_true]
                exact (consumeReference_consumes hcr).1.trans (ih _)
              · simp only [hcond, if_false]
                exact Consumes.refl s
            | (Reference.entityRef name, s2) =>
              exact Consumes.refl s
        · exact Consumes.refl s

theorem skipSpaces_consumes (s : Stream) : Consumes s s.skipSpaces :=
  skipSpacesGo_consumes _ s

theorem isXmlSpaceByte_lt {b : Nat} (h : isXmlSpaceByte b = true) : b < 0x80 := by
  simp [isXmlSpaceByte] at h
  rcases h with h | h | h | h <;> omega

theorem skipSpaces_strict {s : Stream} (h : s.startsWithSpace = true) :
    s.skipSpaces.rest.length < s.rest.length := by
  cases hrest : s.rest with
  | nil => rw [Stream.startsWithSpace, hrest] at h; simp at h
  | cons c rest0 =>
    have hfuel : s.rest.length + 1 = (rest0.length + 1) + 1 := by rw [hrest]; simp
    obtain ⟨k, hk⟩ : ∃ k, rest0.length + 1 = k := ⟨_, rfl⟩
    rw [Stream.skipSpaces, hfuel, hk]
    simp only [Stream.startsWithSpace, hrest] at h
    simp only [skipSpacesGo, hrest]
    by_cases hsp : isXmlSpaceByte (utf8FirstByte c)
    · rw [if_pos hsp]
      have hcc : c.toNat < 0x80 := utf8FirstByte_lt_imp (by
        have := isXmlSpaceByte_lt hsp
        omega)
      have h1 := advance_strict hrest (by rw [utf8Size_eq_one_of_ascii hcc])
      have h2 := (skipSpacesGo_consumes k (s.advance 1)).rest_le
      rw [hrest] at h1
      omega
    · rw [if_neg hsp]
      rw [if_neg hsp] at h
      split at h
      · rename_i hamp
        split at h
        · rename_i v hv
          simp only [Stream.tryConsumeCharReference] at hv
          cases hcr : s.consumeReference with
          | ok p =>
            rw [hcr] at hv
            rw [if_pos hamp]
            match p, hv with
            | (Reference.charRef ch, s2), hv =>
              simp only [Option.some.injEq] at hv
              subst hv
              simp only [h, if_true]
              have h1 := (consumeReference_consumes hcr).2
              have h2 := (skipSpacesGo_consumes k s2).rest_le
              rw [hrest] at h1
              omega
            | (Reference.entityRef name, s2), hv =>
              exact Option.noConfusion hv
          | error e =>
            rw [hcr] at hv
            exact Option.noConfusion hv
        · simp at h
      · simp at h



theorem consumeSpaces_consumes {s s' : Stream} (h : s.consumeSpaces = .ok s') :
    Consumes s s' := by
  simp only [Stream.consumeSpaces] at h
  split at h
  · cases h; exact skipSpaces_consumes s
  · split at h
    · cases h; exact skipSpaces_consumes s
    · exact absurd h (by simp)

theorem parseVersionInfo_consumes {s : Stream} {v : List Char} {s' : Stream}
    (h : parseVersionInfo s = .ok (v, s')) : Consumes s s' := by
  rw [parseVersionInfo] at h
  simp only [Bind.bind, Except.bind] at h
  cases h1 : s.skipSpaces.skipString "version".toList with
  | error e => rw [h1] at h; exact absurd h (by simp)
  | ok s1 =>
    rw [h1] at h
    simp only at h
    cases h2 : s1.consumeEq with
    | error e => rw [h2] at h; exact absurd h (by simp)
    | ok s2 =>
      rw [h2] at h
      simp only at h
      cases h3 : s2.consumeQuote with
      | error e => rw [h3] at h; exact absurd h (by simp)
      | ok p =>
        obtain ⟨q, s3⟩ := p
        rw [h3] at h
        simp only at h
        cases h4 : s3.skipString "1.".toList with
        | error e => rw [h4] at h; exact absurd h (by simp)
        | ok s4 =>
          rw [h4] at h
          simp only at h
          cases h5 : (s4.skipBytes isXmlDigitByte).consumeByte q with
          | error e => rw [h5] at h; exact absurd h (by simp)
          | ok s5 =>
            rw [h5] at h
            simp only [pure, Except.pure, Except.ok.injEq, Prod.mk.injEq] at h
            obtain ⟨-, hse⟩ := h
            subst hse
            exact (((((((skipSpaces_consumes s).trans (skipString_consumes h1)).trans
              (consumeEq_consumes h2)).trans (consumeQuote_consumes h3).1).trans
              (skipString_consumes h4)).trans
              (skipBytes_consumes s4 isXmlDigitByte)).trans (consumeByte_consumes h5))

theorem parseEncodingDecl_consumes {s : Stream} {enc : Option (List Char)} {s' : Stream}
    (h : parseEncodingDecl s = .ok (enc, s')) : Consumes s s' := by
  rw [parseEncodingDecl] at h
  simp only [Bind.bind, Except.bind] at h
  cases h1 : s.skipSpaces.skipString "encoding".toList with
  | error e =>
    rw [h1] at h
    simp only [pure, Except.pure, Except.ok.injEq, Prod.mk.injEq] at h
    obtain ⟨-, hse⟩ := h
    subst hse
    exact skipSpaces_consumes s
  | ok s1 =>
    rw [h1] at h
    simp only at h
    cases h2 : s1.consumeEq with
    | error e => rw [h2] at h; exact absurd h (by simp)
    | ok s2 =>
      rw [h2] at h
      simp only at h
      cases h3 : s2.consumeQuote with
      | error e => rw [h3] at h; exact absurd h (by simp)
      | ok p =>
        obtain ⟨q, s3⟩ := p
        rw [h3] at h
        simp only at h
        cases h4 : (s3.consumeBytes fun c =>
            isXmlLetterByte c || isXmlDigitByte c || c == 0x2E || c == 0x2D || c == 0x5F).2.consumeByte q with
        | error e => rw [h4] at h; exact absurd h (by simp)
        | ok s4 =>
          rw [h4] at h
          simp only [pure, Except.pure, Except.ok.injEq, Prod.mk.injEq] at h
          obtain ⟨-, hse⟩ := h
          subst hse
          exact (((((skipSpaces_consumes s).trans (skipString_consumes h1)).trans
            (consumeEq_consumes h2)).trans (consumeQuote_consumes h3).1).trans
            (consumeBytes_consumes s3 _)).trans (consumeByte_consumes h4)

theorem parseStandalone_consumes {s : Stream} {sd : Option Bool} {s' : Stream}
    (h : parseStandalone s = .ok (sd, s')) : Consumes s s' := by
  rw [parseStandalone] at h
  simp only [Bind.bind, Except.bind] at h
  cases h1 : s.skipSpaces.skipString "standalone".toList with
  | error e =>
    rw [h1] at h
    simp only [pure, Except.pure, Except.ok.injEq, Prod.mk.injEq] at h
    obtain ⟨-, hse⟩ := h
    subst hse
    exact skipSpaces_consumes s
  | ok s1 =>
    rw [h1] at h
    simp only at h
    cases h2 : s1.consumeEq with
    | error e => rw [h2] at h; exact absurd h (by simp)
    | ok s2 =>
      rw [h2] at h
      simp only at h
      cases h3 : s2.consumeQuote with
      | error e => rw [h3] at h; exact absurd h (by simp)
      | ok p =>
        obtain ⟨q, s3⟩ := p
        rw [h3] at h
        simp only at h
        cases h4 : s3.consumeName with
        | error e => rw [h4] at h; exact absurd h (by simp)
        | ok p2 =>
          obtain ⟨value, s4⟩ := p2
          rw [h4] at h
          simp only at h
          have hrest : Consumes s s4 :=
            ((((skipSpaces_consumes s).trans (skipString_consumes h1)).trans
              (consumeEq_consumes h2)).trans (consumeQuote_consumes h3).1).trans
              (consumeName_consumes h4).1
          split at h
          · cases h5 : s4.consumeByte q with
            | error e => rw [h5] at h; simp [pure, Except.pure] at h
            | ok s5 =>
              rw [h5] at h
              simp only [pure, Except.pure, Except.ok.injEq, Prod.mk.injEq] at h
              obtain ⟨-, hse⟩ := h
              subst hse
              exact hrest.trans (consumeByte_consumes h5)
          · split at h
            · cases h5 : s4.consumeByte q with
              | error e => rw [h5] at h; simp [pure, Except.pure] at h
              | ok s5 =>
                rw [h5] at h
                simp only [pure, Except.pure, Except.ok.injEq, Prod.mk.injEq] at h
                obtain ⟨-, hse⟩ := h
                subst hse
                exact hrest.trans (consumeByte_consumes h5)
            · simp [throw, throwThe, MonadExceptOf.throw] at h

theorem parseDeclarationImpl_consumes {s : Stream} {t : Token} {s' : Stream}
    (h : parseDeclarationImpl s = .ok (t, s')) : Consumes s s' := by
  rw [parseDeclarationImpl] at h
  simp only [Bind.bind, Except.bind] at h
  cases h1 : parseVersionInfo s with
  | error e => rw [h1] at h; exact absurd h (by simp)
  | ok p1 =>
    obtain ⟨ver, s1⟩ := p1
    rw [h1] at h
    simp only at h
    cases h2 : parseEncodingDecl s1 with
    | error e => rw [h2] at h; exact absurd h (by simp)
    | ok p2 =>
      obtain ⟨enc, s2⟩ := p2
      rw [h2] at h
      simp only at h
      cases h3 : parseStandalone s2 with
      | error e => rw [h3] at h; exact absurd h (by simp)
      | ok p3 =>
        obtain ⟨sd, s3⟩ := p3
        rw [h3] at h
        simp only at h
        cases h4 : s3.skipSpaces.skipString "?>".toList with
        | error e => rw [h4] at h; exact absurd h (by simp)
        | ok s4 =>
          rw [h4] at h
          simp only [pure, Except.pure, Except.ok.injEq, Prod.mk.injEq] at h
          obtain ⟨-, hse⟩ := h
          subst hse
          exact ((((parseVersionInfo_consumes h1).trans
            (parseEncodingDecl_consumes h2)).trans
            (parseStandalone_consumes h3)).trans (skipSpaces_consumes s3)).trans
            (skipString_consumes h4)

theorem parseExternalId_consumes {s : Stream} {eid : Option ExternalId} {s' : Stream}
    (h : parseExternalId s = .ok (eid, s')) : Consumes s s' := by
  rw [parseExternalId] at h
  simp only [Bind.bind, Except.bind] at h
  split at h
  · cases h1 : (s.advance 6).consumeSpaces with
    | error e => rw [h1] at h; exact absurd h (by simp)
    | ok s1 =>
      rw [h1] at h
      simp only at h
      cases h2 : s1.consumeQuote with
      | error e => rw [h2] at h; exact absurd h (by simp)
      | ok p =>
        obtain ⟨q, s2⟩ := p
        rw [h2] at h
        simp only at h
        cases h3 : (s2.consumeBytes fun c => c != q).2.consumeByte q with
        | error e => rw [h3] at h; exact absurd h (by simp)
        | ok s3 =>
          rw [h3] at h
          simp only at h
          have hpre : Consumes s s3 :=
            ((((advance_consumes s 6).trans (consumeSpaces_consumes h1)).trans
              (consumeQuote_consumes h2).1).trans (consumeBytes_consumes s2 _)).trans
              (consumeByte_consumes h3)
          split at h
          · simp only [pure, Except.pure, Except.ok.injEq, Prod.mk.injEq] at h
            obtain ⟨-, hse⟩ := h
            subst hse
            exact hpre
          · cases h4 : s3.consumeSpaces with
            | error e => rw [h4] at h; exact absurd h (by simp)
            | ok s4 =>
              rw [h4] at h
              simp only at h
              cases h5 : s4.consumeQuote with
              | error e => rw [h5] at h; exact absurd h (by simp)
              | ok p2 =>
                obtain ⟨q2, s5⟩ := p2
                rw [h5] at h
                simp only at h
                cases h6 : (s5.consumeBytes fun c => c != q2).2.consumeByte q2 with
                | error e => rw [h6] at h; exact absurd h (by simp)
                | ok s6 =>
                  rw [h6] at h
                  simp only [pure, Except.pure, Except.ok.injEq, Prod.mk.injEq] at h
                  obtain ⟨-, hse⟩ := h
                  subst hse
                  exact (((hpre.trans (consumeSpaces_consumes h4)).trans
                    (consumeQuote_consumes h5).1).trans
                    (consumeBytes_consumes s5 _)).trans (consumeByte_consumes h6)
  · simp only [pure, Except.pure, Except.ok.injEq, Prod.mk.injEq] at h
    obtain ⟨-, hse⟩ := h
    subst hse
    exact Consumes.refl s

theorem consumeDecl_consumes {s s' : Stream} (h : consumeDecl s = .ok s') :
    Consumes s s' := by
  rw [consumeDecl] at h
  simp only [Bind.bind, Except.bind] at h
  cases h1 : s.consumeSpaces with
  | error e => rw [h1] at h; exact absurd h (by simp)
  | ok s1 =>
    rw [h1] at h
    simp only at h
    exact ((consumeSpaces_consumes h1).trans
      (skipBytes_consumes s1 _)).trans (consumeByte_consumes h)

theorem parseCommentImpl_consumes {s : Stream} {t : Token} {s' : Stream}
    (h : parseCommentImpl s = .ok (t, s')) : Consumes s s' := by
  rw [parseCommentImpl] at h
  simp only [Bind.bind, Except.bind] at h
  cases h1 : s.consumeChars (fun st c => ¬ (c == '-' && st.startsWith "-->".toList)) with
  | error e => rw [h1] at h; exact absurd h (by simp)
  | ok p =>
    obtain ⟨text, s1⟩ := p
    rw [h1] at h
    simp only at h
    cases h2 : s1.skipString "-->".toList with
    | error e => rw [h2] at h; exact absurd h (by simp)
    | ok s2 =>
      rw [h2] at h
      simp only at h
      split at h
      · simp only [throw, throwThe, MonadExceptOf.throw] at h
        exact absurd h (by simp)
      · simp only [pure, Except.pure, Except.ok.injEq, Prod.mk.injEq] at h
        obtain ⟨-, hse⟩ := h
        subst hse
        exact ((consumeChars_consumes h1).1).trans (skipString_consumes h2)

theorem parsePiImpl_consumes {s : Stream} {t : Token} {s' : Stream}
    (h : parsePiImpl s = .ok (t, s')) : Consumes s s' := by
  rw [parsePiImpl] at h
  simp only [Bind.bind, Except.bind] at h
  cases h1 : s.consumeName with
  | error e => rw [h1] at h; exact absurd h (by simp)
  | ok p =>
    obtain ⟨target, s1⟩ := p
    rw [h1] at h
    simp only at h
    cases h2 : s1.skipSpaces.consumeChars (fun st c => ¬ (c == '?' && st.startsWith "?>".toList)) with
    | error e => rw [h2] at h; exact absurd h (by simp)
    | ok p2 =>
      obtain ⟨content, s2⟩ := p2
      rw [h2] at h
      simp only at h
      cases h3 : s2.skipString "?>".toList with
      | error e => rw [h3] at h; exact absurd h (by simp)
      | ok s3 =>
        rw [h3] at h
        simp only [pure, Except.pure, Except.ok.injEq, Prod.mk.injEq] at h
        obtain ⟨-, hse⟩ := h
        subst hse
        exact (((consumeName_consumes h1).1.trans (skipSpaces_consumes s1)).trans
          (consumeChars_consumes h2).1).trans (skipString_consumes h3)

theorem parseDoctypeImpl_consumes {s : Stream} {t : Token} {s' : Stream}
    (h : parseDoctypeImpl s = .ok (t, s')) : Consumes s s' := by
  rw [parseDoctypeImpl] at h
  simp only [Bind.bind, Except.bind] at h
  cases h1 : s.consumeSpaces with
  | error e => rw [h1] at h; exact absurd h (by simp)
  | ok s1 =>
    rw [h1] at h
    simp only at h
    cases h2 : s1.consumeName with
    | error e => rw [h2] at h; exact absurd h (by simp)
    | ok p =>
      obtain ⟨name, s2⟩ := p
      rw [h2] at h
      simp only at h
      cases h3 : parseExternalId s2.skipSpaces with
      | error e => rw [h3] at h; exact absurd h (by simp)
      | ok p2 =>
        obtain ⟨eid, s3⟩ := p2
        rw [h3] at h
        simp only at h
        cases h4 : s3.skipSpaces.currByte with
        | error e => rw [h4] at h; exact absurd h (by simp)
        | ok b =>
          rw [h4] at h
          simp only at h
          have hpre : Consumes s (s3.skipSpaces.advance 1) :=
            (((((consumeSpaces_consumes h1).trans (consumeName_consumes h2).1).trans
              (skipSpaces_consumes s2)).trans (parseExternalId_consumes h3)).trans
              (skipSpaces_consumes s3)).trans (advance_consumes _ 1)
          split at h
          · simp [throw, throwThe, MonadExceptOf.throw] at h
          · split at h
            · simp only [pure, Except.pure, Except.ok.injEq, Prod.mk.injEq] at h
              obtain ⟨-, hse⟩ := h
              subst hse
              exact hpre
            · simp only [pure, Except.pure, Except.ok.injEq, Prod.mk.injEq] at h
              obtain ⟨-, hse⟩ := h
              subst hse
              exact hpre

theorem parseEntityDef_consumes {s : Stream} {d : EntityDefinition} {s' : Stream}
    (h : parseEntityDef s isGe = .ok (d, s')) : Consumes s s' := by
  rw [parseEntityDef] at h
  simp only [Bind.bind, Except.bind] at h
  cases h0 : s.currByte with
  | error e => rw [h0] at h; exact absurd h (by simp)
  | ok b =>
    rw [h0] at h
    simp only at h
    split at h
    · -- quoted EntityValue
      cases h1 : s.consumeQuote with
      | error e => rw [h1] at h; exact absurd h (by simp)
      | ok p =>
        obtain ⟨q, s1⟩ := p
        rw [h1] at h
        simp only at h
        cases h2 : (s1.consumeBytes fun c => c != q).2.consumeByte q with
        | error e => rw [h2] at h; exact absurd h (by simp)
        | ok s2 =>
          rw [h2] at h
          simp only [pure, Except.pure, Except.ok.injEq, Prod.mk.injEq] at h
          obtain ⟨-, hse⟩ := h
          subst hse
          exact ((consumeQuote_consumes h1).1.trans
            (consumeBytes_consumes s1 _)).trans (consumeByte_consumes h2)
    · split at h
      · -- ExternalID
        cases h1 : parseExternalId s with
        | error e => rw [h1] at h; exact absurd h (by simp)
        | ok p =>
          obtain ⟨idOpt, s1⟩ := p
          rw [h1] at h
          simp only at h
          match idOpt, h with
          | some id, h =>
            have hc1 := parseExternalId_consumes h1
            simp only at h
            split at h
            · split at h
              · cases h2 : (s1.skipSpaces.advance 5).consumeSpaces with
                | error e => rw [h2] at h; exact absurd h (by simp)
                | ok s2 =>
                  rw [h2] at h
                  simp only at h
                  cases h3 : s2.skipName with
                  | error e => rw [h3] at h; exact absurd h (by simp)
                  | ok s3 =>
                    rw [h3] at h
                    simp only [pure, Except.pure, Except.ok.injEq, Prod.mk.injEq] at h
                    obtain ⟨-, hse⟩ := h
                    subst hse
                    exact ((((hc1.trans (skipSpaces_consumes s1)).trans
                      (advance_consumes _ 5)).trans (consumeSpaces_consumes h2)).trans
                      (skipName_consumes h3))
              · simp only [pure, Except.pure, Except.ok.injEq, Prod.mk.injEq] at h
                obtain ⟨-, hse⟩ := h
                subst hse
                exact hc1.trans (skipSpaces_consumes s1)
            · simp only [pure, Except.pure, Except.ok.injEq, Prod.mk.injEq] at h
              obtain ⟨-, hse⟩ := h
              subst hse
              exact hc1
          | none, h =>
            simp [throw, throwThe, MonadExceptOf.throw] at h
      · simp [throw, throwThe, MonadExceptOf.throw] at h

theorem parseEntityDeclImpl_consumes {s : Stream} {t : Token} {s' : Stream}
    (h : parseEntityDeclImpl s = .ok (t, s')) : Consumes s s' := by
  rw [parseEntityDeclImpl] at h
  simp only [Bind.bind, Except.bind] at h
  cases h1 : s.consumeSpaces with
  | error e => rw [h1] at h; exact absurd h (by simp)
  | ok s1 =>
    rw [h1] at h
    simp only at h
    have hc1 := consumeSpaces_consumes h1
    have hctry := tryConsumeByte_consumes s1 0x25
    -- the ``let (isGe, s) ← if ...`` step
    split at h
    · cases h2 : (s1.tryConsumeByte 0x25).2.consumeSpaces with
      | error e => rw [h2] at h; simp [pure, Except.pure] at h
      | ok s2 =>
        rw [h2] at h
        simp only [pure, Except.pure] at h
        have hpre : Consumes s s2 :=
          (hc1.trans hctry).trans (consumeSpaces_consumes h2)
        cases h3 : s2.consumeName with
        | error e => rw [h3] at h; exact absurd h (by simp)
        | ok p =>
          obtain ⟨name, s3⟩ := p
          rw [h3] at h
          simp only at h
          cases h4 : s3.consumeSpaces with
          | error e => rw [h4] at h; exact absurd h (by simp)
          | ok s4 =>
            rw [h4] at h
            simp only at h
            cases h5 : parseEntityDef s4 false with
            | error e => rw [h5] at h; exact absurd h (by simp)
            | ok p2 =>
              obtain ⟨defn, s5⟩ := p2
              rw [h5] at h
              simp only at h
              cases h6 : s5.skipSpaces.consumeByte 0x3E with
              | error e => rw [h6] at h; exact absurd h (by simp)
              | ok s6 =>
                rw [h6] at h
                simp only [pure, Except.pure, Except.ok.injEq, Prod.mk.injEq] at h
                obtain ⟨-, hse⟩ := h
                subst hse
                exact ((((hpre.trans (consumeName_consumes h3).1).trans
                  (consumeSpaces_consumes h4)).trans
                  (parseEntityDef_consumes h5)).trans
                  (skipSpaces_consumes s5)).trans (consumeByte_consumes h6)
    · simp only [pure, Except.pure] at h
      have hpre : Consumes s (s1.tryConsumeByte 0x25).2 := hc1.trans hctry
      cases h3 : (s1.tryConsumeByte 0x25).2.consumeName with
      | error e => rw [h3] at h; exact absurd h (by simp)
      | ok p =>
        obtain ⟨name, s3⟩ := p
        rw [h3] at h
        simp only at h
        cases h4 : s3.consumeSpaces with
        | error e => rw [h4] at h; exact absurd h (by simp)
        | ok s4 =>
          rw [h4] at h
          simp only at h
          cases h5 : parseEntityDef s4 true with
          | error e => rw [h5] at h; exact absurd h (by simp)
          | ok p2 =>
            obtain ⟨defn, s5⟩ := p2
            rw [h5] at h
            simp only at h
            cases h6 : s5.skipSpaces.consumeByte 0x3E with
            | error e => rw [h6] at h; exact absurd h (by simp)
            | ok s6 =>
              rw [h6] at h
              simp only [pure, Except.pure, Except.ok.injEq, Prod.mk.injEq] at h
              obtain ⟨-, hse⟩ := h
              subst hse
              exact ((((hpre.trans (consumeName_consumes h3).1).trans
                (consumeSpaces_consumes h4)).trans
                (parseEntityDef_consumes h5)).trans
                (skipSpaces_consumes s5)).trans (consumeByte_consumes h6)

theorem parseCdataImpl_consumes {s : Stream} {t : Token} {s' : Stream}
    (h : parseCdataImpl s = .ok (t, s')) : Consumes s s' := by
  rw [parseCdataImpl] at h
  simp only [Bind.bind, Except.bind] at h
  cases h1 : s.consumeChars (fun st c => ¬ (c == ']' && st.startsWith "]]>".toList)) with
  | error e => rw [h1] at h; exact absurd h (by simp)
  | ok p =>
    obtain ⟨text, s1⟩ := p
    rw [h1] at h
    simp only at h
    cases h2 : s1.skipString "]]>".toList with
    | error e => rw [h2] at h; exact absurd h (by simp)
    | ok s2 =>
      rw [h2] at h
      simp only [pure, Except.pure, Except.ok.injEq, Prod.mk.injEq] at h
      obtain ⟨-, hse⟩ := h
      subst hse
      exact (consumeChars_consumes h1).1.trans (skipString_consumes h2)

theorem parseElementStartImpl_consumes {s : Stream} {t : Token} {s' : Stream}
    (h : parseElementStartImpl s = .ok (t, s')) : Consumes s s' := by
  rw [parseElementStartImpl] at h
  simp only [Bind.bind, Except.bind] at h
  cases h1 : s.consumeQname with
  | error e => rw [h1] at h; exact absurd h (by simp)
  | ok p =>
    obtain ⟨qn, s1⟩ := p
    obtain ⟨pfx, loc⟩ := qn
    rw [h1] at h
    simp only [pure, Except.pure, Except.ok.injEq, Prod.mk.injEq] at h
    obtain ⟨-, hse⟩ := h
    subst hse
    exact (consumeQname_consumes h1).1

theorem parseCloseElementImpl_consumes {s : Stream} {t : Token} {s' : Stream}
    (h : parseCloseElementImpl s = .ok (t, s')) : Consumes s s' := by
  rw [parseCloseElementImpl] at h
  simp only [Bind.bind, Except.bind] at h
  cases h1 : s.consumeQname with
  | error e => rw [h1] at h; exact absurd h (by simp)
  | ok p =>
    obtain ⟨qn, s1⟩ := p
    obtain ⟨pfx, loc⟩ := qn
    rw [h1] at h
    simp only at h
    cases h2 : s1.skipSpaces.consumeByte 0x3E with
    | error e => rw [h2] at h; exact absurd h (by simp)
    | ok s2 =>
      rw [h2] at h
      simp only [pure, Except.pure, Except.ok.injEq, Prod.mk.injEq] at h
      obtain ⟨-, hse⟩ := h
      subst hse
      exact ((consumeQname_consumes h1).1.trans
        (skipSpaces_consumes s1)).trans (consumeByte_consumes h2)

theorem skipCharsAux_progress {f : Stream → Char → Bool} {p : List Char} {c : Char}
    {r : List Char} {q : List Char × List Char}
    (h : skipCharsAux f p (c :: r) = .ok q)
    (hf : f ⟨p, c :: r⟩ c = true) : q.2.length < (c :: r).length := by
  simp only [skipCharsAux] at h
  by_cases hx : isXmlChar c
  · rw [if_neg (by simp [hx]), if_pos hf] at h
    obtain ⟨d, hp, hr⟩ := skipCharsAux_spec f r (p ++ [c]) q h
    have := congrArg List.length hr
    simp only [List.length_append, List.length_cons] at *
    omega
  · rw [if_pos (by simp [hx])] at h
    exact absurd h (by simp)

theorem consumeChars_strict {s : Stream} {f : Stream → Char → Bool}
    {text : List Char} {s' : Stream} {c : Char} {r : List Char}
    (h : s.consumeChars f = .ok (text, s')) (hrest : s.rest = c :: r)
    (hf : f s c = true) : s'.rest.length < s.rest.length := by
  have hseta : s = ⟨s.prev, c :: r⟩ := by cases s; simp_all
  simp only [Stream.consumeChars] at h
  split at h
  · rename_i s2 hs2
    simp only [Except.ok.injEq, Prod.mk.injEq] at h
    obtain ⟨-, hse⟩ := h
    subst hse
    simp only [Stream.skipChars] at hs2
    split at hs2
    · rename_i q hq
      simp only [Except.ok.injEq] at hs2
      subst hs2
      rw [hrest] at hq
      have hq2 : f ⟨s.prev, c :: r⟩ c = true := by rw [← hseta]; exact hf
      have hpr := skipCharsAux_progress hq hq2
      rw [hrest]
      simpa using hpr
    · exact absurd hs2 (by simp)
  · exact absurd h (by simp)

theorem parseTextImpl_consumes {s : Stream} {t : Token} {s' : Stream}
    (h : parseTextImpl s = .ok (t, s')) :
    Consumes s s' ∧
      (∀ c r, s.rest = c :: r → utf8FirstByte c ≠ 0x3C →
        s'.rest.length < s.rest.length) := by
  rw [parseTextImpl] at h
  simp only [Bind.bind, Except.bind] at h
  cases h1 : s.consumeChars (fun _ c => c != '<') with
  | error e => rw [h1] at h; exact absurd h (by simp)
  | ok p =>
    obtain ⟨text, s1⟩ := p
    rw [h1] at h
    simp only at h
    split at h
    · simp [throw, throwThe, MonadExceptOf.throw] at h
    · simp only [pure, Except.pure, Except.ok.injEq, Prod.mk.injEq] at h
      obtain ⟨-, hse⟩ := h
      subst hse
      refine ⟨(consumeChars_consumes h1).1, ?_⟩
      intro c r hrest hlt
      have hne : c ≠ '<' := by
        intro he
        subst he
        exact hlt (by simp [utf8FirstByte])
      exact consumeChars_strict h1 hrest (by simpa using hne)

theorem parseAttributeBody_strict {s : Stream} {t : Token} {s' : Stream}
    (h : parseAttributeBody s = .ok (t, s')) :
    Consumes s s' ∧ s'.rest.length < s.rest.length := by
  rw [parseAttributeBody] at h
  simp only [Bind.bind, Except.bind] at h
  cases h1 : s.consumeQname with
  | error e => rw [h1] at h; exact absurd h (by simp)
  | ok p =>
    obtain ⟨qn, s1⟩ := p
    obtain ⟨pfx, loc⟩ := qn
    rw [h1] at h
    simp only at h
    cases h2 : s1.consumeEq with
    | error e => rw [h2] at h; exact absurd h (by simp)
    | ok s2 =>
      rw [h2] at h
      simp only at h
      cases h3 : s2.consumeQuote with
      | error e => rw [h3] at h; exact absurd h (by simp)
      | ok p2 =>
        obtain ⟨q, s3⟩ := p2
        rw [h3] at h
        simp only at h
        cases h4 : s3.consumeChars (fun _ c => c != Char.ofNat q && c != '<') with
        | error e => rw [h4] at h; exact absurd h (by simp)
        | ok p3 =>
          obtain ⟨value, s4⟩ := p3
          rw [h4] at h
          simp only at h
          cases h5 : s4.consumeByte q with
          | error e => rw [h5] at h; exact absurd h (by simp)
          | ok s5 =>
            rw [h5] at h
            simp only [pure, Except.pure, Except.ok.injEq, Prod.mk.injEq] at h
            obtain ⟨-, hse⟩ := h
            subst hse
            have hq := consumeQname_consumes h1
            have hrest2 : Consumes s1 s5.skipSpaces :=
              ((((consumeEq_consumes h2).trans (consumeQuote_consumes h3).1).trans
                (consumeChars_consumes h4).1).trans (consumeByte_consumes h5)).trans
                (skipSpaces_consumes s5)
            refine ⟨hq.1.trans hrest2, ?_⟩
            have := hrest2.rest_le
            omega

theorem parseAttribute_strict {s : Stream} {t : Token} {s' : Stream}
    (h : parseAttribute s = .ok (t, s')) :
    Consumes s s' ∧ s'.rest.length < s.rest.length := by
  rw [parseAttribute] at h
  have hsp := skipSpaces_consumes s
  have hsple := hsp.rest_le
  cases h0 : s.skipSpaces.currByte with
  | error e =>
    rw [h0] at h
    simp only at h
    have := parseAttributeBody_strict h
    exact ⟨hsp.trans this.1, by omega⟩
  | ok b =>
    rw [h0] at h
    simp only at h
    split at h
    · -- b == 0x2F
      cases h1 : (s.skipSpaces.advance 1).consumeByte 0x3E with
      | error e => rw [h1] at h; exact absurd h (by simp)
      | ok s1 =>
        rw [h1] at h
        simp only [Except.ok.injEq, Prod.mk.injEq] at h
        obtain ⟨-, hse⟩ := h
        subst hse
        have hcb := consumeByte_consumes h1
        have hstrict : (s.skipSpaces.advance 1).rest.length < s.skipSpaces.rest.length := by
          simp only [Stream.currByte] at h0
          cases hrest : s.skipSpaces.rest with
          | nil => rw [hrest] at h0; simp at h0
          | cons c0 r0 =>
            rw [hrest] at h0
            simp only [Except.ok.injEq] at h0
            rename_i hb
            simp only [Nat.beq_eq_true_eq] at hb
            have hcc : c0.toNat < 0x80 := utf8FirstByte_lt_imp (by omega)
            have hstep := advance_strict hrest (by rw [utf8Size_eq_one_of_ascii hcc])
            rw [hrest] at hstep
            exact hstep
        refine ⟨(hsp.trans (advance_consumes _ 1)).trans hcb, ?_⟩
        have := hcb.rest_le
        omega
    · split at h
      · -- b == 0x3E
        simp only [Except.ok.injEq, Prod.mk.injEq] at h
        obtain ⟨-, hse⟩ := h
        subst hse
        have hstrict : (s.skipSpaces.advance 1).rest.length < s.skipSpaces.rest.length := by
          simp only [Stream.currByte] at h0
          cases hrest : s.skipSpaces.rest with
          | nil => rw [hrest] at h0; simp at h0
          | cons c0 r0 =>
            rw [hrest] at h0
            simp only [Except.ok.injEq] at h0
            rename_i hbne hb
            simp only [Nat.beq_eq_true_eq] at hb
            have hcc : c0.toNat < 0x80 := utf8FirstByte_lt_imp (by omega)
            have hstep := advance_strict hrest (by rw [utf8Size_eq_one_of_ascii hcc])
            rw [hrest] at hstep
            exact hstep
        exact ⟨hsp.trans (advance_consumes _ 1), by omega⟩
      · have := parseAttributeBody_strict h
        exact ⟨hsp.trans this.1, by omega⟩

theorem currByte_ok_elim {s : Stream} {b : Nat} (h : s.currByte = .ok b) :
    ∃ c r, s.rest = c :: r ∧ utf8FirstByte c = b := by
  simp only [Stream.currByte] at h
  cases hrest : s.rest with
  | nil => rw [hrest] at h; simp at h
  | cons c0 r0 =>
    rw [hrest] at h
    simp only [Except.ok.injEq] at h
    exact ⟨c0, r0, rfl, h⟩

theorem currByte_ascii_strict {s : Stream} {b : Nat}
    (h0 : s.currByte = .ok b) (hb : b < 0x80) {n : Nat} (hn : 1 ≤ n) :
    (s.advance n).rest.length < s.rest.length := by
  obtain ⟨c0, r0, hrest, hfb⟩ := currByte_ok_elim h0
  have hcc : c0.toNat < 0x80 := utf8FirstByte_lt_imp (by omega)
  exact advance_strict hrest (by rw [utf8Size_eq_one_of_ascii hcc]; omega)

theorem startsWith_advance_strict {s : Stream} {c : Char} {pat : List Char} {n : Nat}
    (hsw : s.startsWith (c :: pat) = true) (hc : c.toNat < 0x80) (hn : 1 ≤ n) :
    (s.advance n).rest.length < s.rest.length := by
  simp only [Stream.startsWith, List.isPrefixOf_iff_prefix] at hsw
  obtain ⟨t, ht⟩ := hsw
  exact advance_strict (show s.rest = c :: (pat ++ t) from by simp [← ht])
    (by rw [utf8Size_eq_one_of_ascii hc]; omega)

theorem startsWith_advance_strict2 (c : Char) (n : Nat) {s : Stream} {pat : List Char}
    (hsw : s.startsWith pat = true) (hh : pat.head? = some c)
    (hc : c.toNat < 0x80) (hn : 1 ≤ n) :
    (s.advance n).rest.length < s.rest.length := by
  cases pat with
  | nil => simp at hh
  | cons c0 p0 =>
    simp only [List.head?, Option.some.injEq] at hh
    subst hh
    exact startsWith_advance_strict hsw hc hn

set_option maxHeartbeats 2000000 in
theorem parseTokenType_spec {s : Stream} {st : State} {tt : TokenType} {s' : Stream}
    (h : parseTokenType s st = .ok (tt, s')) :
    Consumes s s' ∧
    (tt = TokenType.Whitespace → s' = s ∧ s.startsWithSpace = true) ∧
    (tt = TokenType.CharData → s' = s ∧ ∃ c r, s.rest = c :: r ∧ utf8FirstByte c ≠ 0x3C) ∧
    (tt ≠ TokenType.Whitespace → tt ≠ TokenType.CharData → tt ≠ TokenType.Unknown →
      s'.rest.length < s.rest.length) := by
  delta parseTokenType at h
  simp only [Bind.bind, Except.bind] at h
  cases h0 : s.currByte with
  | error e => rw [h0] at h; exact absurd h (by simp)
  | ok b0 =>
    rw [h0] at h
    simp only at h
    have hle1 := (advance_consumes s 1).rest_le
    split at h
    · -- b0 == 0x3C : a construct
      rename_i hb0
      simp only [beq_iff_eq] at hb0
      have hstrict1 : (s.advance 1).rest.length < s.rest.length :=
        currByte_ascii_strict h0 (by omega) (le_refl 1)
      cases h1 : (s.advance 1).currByte with
      | error e => rw [h1] at h; exact absurd h (by simp)
      | ok b1 =>
        rw [h1] at h
        simp only at h
        have hle2 := (advance_consumes (s.advance 1) 1).rest_le
        split at h
        · -- b1 == 0x3F : declaration or PI
          rename_i hb1
          simp only [beq_iff_eq] at hb1
          split at h
          · rename_i hsw
            simp only [pure, Except.pure, Except.ok.injEq, Prod.mk.injEq] at h
            obtain ⟨htt, hse⟩ := h
            subst htt hse
            refine ⟨(advance_consumes s 1).trans (advance_consumes _ 5),
              by simp, by simp, ?_⟩
            intro _ _ _
            have h5 := startsWith_advance_strict2 (Char.ofNat 0x3F) 5 hsw
              (by decide) (by decide) (by omega)
            omega
          · simp only [pure, Except.pure, Except.ok.injEq, Prod.mk.injEq] at h
            obtain ⟨htt, hse⟩ := h
            subst htt hse
            refine ⟨(advance_consumes s 1).trans (advance_consumes _ 1),
              by simp, by simp, ?_⟩
            intro _ _ _
            have h5 := currByte_ascii_strict h1 (by omega) (le_refl 1)
            omega
        · split at h
          · -- b1 == 0x21 : bang constructs
            rename_i hb1
            simp only [beq_iff_eq] at hb1
            have hstrict2 : ((s.advance 1).advance 1).rest.length <
                (s.advance 1).rest.length :=
              currByte_ascii_strict h1 (by omega) (le_refl 1)
            cases h2 : ((s.advance 1).advance 1).currByte with
            | error e => rw [h2] at h; exact absurd h (by simp)
            | ok b2 =>
              rw [h2] at h
              simp only at h
              have hbase : Consumes s ((s.advance 1).advance 1) :=
                (advance_consumes s 1).trans (advance_consumes _ 1)
              split at h
              · rename_i hcond
                simp only [Bool.and_eq_true] at hcond
                simp only [pure, Except.pure, Except.ok.injEq, Prod.mk.injEq] at h
                obtain ⟨htt, hse⟩ := h
                subst htt hse
                refine ⟨hbase.trans (advance_consumes _ 2), by simp, by simp, ?_⟩
                intro _ _ _
                have h5 := startsWith_advance_strict2 (Char.ofNat 0x2D) 2 hcond.2
                  (by decide) (by decide) (by omega)
                omega
              · split at h
                · rename_i hcond
                  simp only [Bool.and_eq_true] at hcond
                  simp only [pure, Except.pure, Except.ok.injEq, Prod.mk.injEq] at h
                  obtain ⟨htt, hse⟩ := h
                  subst htt hse
                  refine ⟨hbase.trans (advance_consumes _ 7), by simp, by simp, ?_⟩
                  intro _ _ _
                  have h5 := startsWith_advance_strict2 (Char.ofNat 0x44) 7 hcond.2
                    (by decide) (by decide) (by omega)
                  omega
                · split at h
                  · rename_i hcond
                    simp only [Bool.and_eq_true] at hcond
                    simp only [pure, Except.pure, Except.ok.injEq, Prod.mk.injEq] at h
                    obtain ⟨htt, hse⟩ := h
                    subst htt hse
                    refine ⟨hbase.trans (advance_consumes _ 7), by simp, by simp, ?_⟩
                    intro _ _ _
                    have h5 := startsWith_advance_strict2 (Char.ofNat 0x45) 7 hcond.2
                      (by decide) (by decide) (by omega)
                    omega
                  · split at h
                    · rename_i hcond
                      simp only [Bool.and_eq_true] at hcond
                      simp only [pure, Except.pure, Except.ok.injEq, Prod.mk.injEq] at h
                      obtain ⟨htt, hse⟩ := h
                      subst htt hse
                      refine ⟨hbase.trans (advance_consumes _ 7), by simp, by simp, ?_⟩
                      intro _ _ _
                      have h5 := startsWith_advance_strict2 (Char.ofNat 0x41) 7 hcond.2
                        (by decide) (by decide) (by omega)
                      omega
                    · split at h
                      · rename_i hcond
                        simp only [Bool.and_eq_true] at hcond
                        simp only [pure, Except.pure, Except.ok.injEq, Prod.mk.injEq] at h
                        obtain ⟨htt, hse⟩ := h
                        subst htt hse
                        refine ⟨hbase.trans (advance_consumes _ 6), by simp, by simp, ?_⟩
                        intro _ _ _
                        have h5 := startsWith_advance_strict2 (Char.ofNat 0x45) 6 hcond.2
                          (by decide) (by decide) (by omega)
                        omega
                      · split at h
                        · rename_i hcond
                          simp only [Bool.and_eq_true] at hcond
                          simp only [pure, Except.pure, Except.ok.injEq, Prod.mk.injEq] at h
                          obtain ⟨htt, hse⟩ := h
                          subst htt hse
                          refine ⟨hbase.trans (advance_consumes _ 8), by simp, by simp, ?_⟩
                          intro _ _ _
                          have h5 := startsWith_advance_strict2 (Char.ofNat 0x4E) 8 hcond.2
                            (by decide) (by decide) (by omega)
                          omega
                        · split at h
                          · rename_i hcond
                            simp only [Bool.and_eq_true] at hcond
                            simp only [pure, Except.pure, Except.ok.injEq, Prod.mk.injEq] at h
                            obtain ⟨htt, hse⟩ := h
                            subst htt hse
                            refine ⟨hbase.trans (advance_consumes _ 7), by simp, by simp, ?_⟩
                            intro _ _ _
                            have h5 := startsWith_advance_strict2 (Char.ofNat 0x5B) 7 hcond.2
                              (by decide) (by decide) (by omega)
                            omega
                          · simp only [pure, Except.pure, Except.ok.injEq, Prod.mk.injEq] at h
                            obtain ⟨htt, hse⟩ := h
                            subst htt hse
                            exact ⟨hbase, by simp, by simp, by simp⟩
          · split at h
            · -- b1 == 0x2F : close element
              rename_i hb1 hb1f
              simp only [beq_iff_eq] at hb1f
              simp only [pure, Except.pure, Except.ok.injEq, Prod.mk.injEq] at h
              obtain ⟨htt, hse⟩ := h
              subst htt hse
              refine ⟨(advance_consumes s 1).trans (advance_consumes _ 1),
                by simp, by simp, ?_⟩
              intro _ _ _
              have h5 := currByte_ascii_strict h1 (by omega) (le_refl 1)
              omega
            · -- element start
              simp only [pure, Except.pure, Except.ok.injEq, Prod.mk.injEq] at h
              obtain ⟨htt, hse⟩ := h
              subst htt hse
              exact ⟨advance_consumes s 1, by simp, by simp, fun _ _ _ => hstrict1⟩
    · split at h
      · -- doctype end
        rename_i hcond
        simp only [Bool.and_eq_true] at hcond
        simp only [pure, Except.pure, Except.ok.injEq, Prod.mk.injEq] at h
        obtain ⟨htt, hse⟩ := h
        subst htt hse
        refine ⟨advance_consumes s 2, by simp, by simp, ?_⟩
        intro _ _ _
        exact startsWith_advance_strict2 (Char.ofNat 0x5D) 2 hcond.2
          (by decide) (by decide) (by omega)
      · -- fallthrough: state-dependent classification
        rename_i hb0ne hcond
        cases st <;> simp only at h
        case Elements =>
          simp only [pure, Except.pure, Except.ok.injEq, Prod.mk.injEq] at h
          obtain ⟨htt, hse⟩ := h
          subst htt hse
          refine ⟨Consumes.refl s, by simp, ?_, by simp⟩
          intro _
          obtain ⟨c, r, hrest, hfb⟩ := currByte_ok_elim h0
          refine ⟨rfl, c, r, hrest, ?_⟩
          simp only [beq_iff_eq] at hb0ne
          omega
        case Attributes =>
          simp only [pure, Except.pure, Except.ok.injEq, Prod.mk.injEq] at h
          obtain ⟨htt, hse⟩ := h
          subst htt hse
          exact ⟨Consumes.refl s, by simp, by simp, by simp⟩
        case End =>
          simp only [pure, Except.pure, Except.ok.injEq, Prod.mk.injEq] at h
          obtain ⟨htt, hse⟩ := h
          subst htt hse
          exact ⟨Consumes.refl s, by simp, by simp, by simp⟩
        case Start =>
          split at h
          · rename_i hsp
            simp only [pure, Except.pure, Except.ok.injEq, Prod.mk.injEq] at h
            obtain ⟨htt, hse⟩ := h
            subst htt hse
            exact ⟨Consumes.refl s, fun _ => ⟨rfl, hsp⟩, by simp, by simp⟩
          · simp only [pure, Except.pure, Except.ok.injEq, Prod.mk.injEq] at h
            obtain ⟨htt, hse⟩ := h
            subst htt hse
            exact ⟨Consumes.refl s, by simp, by simp, by simp⟩
        case Dtd =>
          split at h
          · rename_i hsp
            simp only [pure, Except.pure, Except.ok.injEq, Prod.mk.injEq] at h
            obtain ⟨htt, hse⟩ := h
            subst htt hse
            exact ⟨Consumes.refl s, fun _ => ⟨rfl, hsp⟩, by simp, by simp⟩
          · simp only [pure, Except.pure, Except.ok.injEq, Prod.mk.injEq] at h
            obtain ⟨htt, hse⟩ := h
            subst htt hse
            exact ⟨Consumes.refl s, by simp, by simp, by simp⟩
        case AfterDtd =>
          split at h
          · rename_i hsp
            simp only [pure, Except.pure, Except.ok.injEq, Prod.mk.injEq] at h
            obtain ⟨htt, hse⟩ := h
            subst htt hse
            exact ⟨Consumes.refl s, fun _ => ⟨rfl, hsp⟩, by simp, by simp⟩
          · simp only [pure, Except.pure, Except.ok.injEq, Prod.mk.injEq] at h
            obtain ⟨htt, hse⟩ := h
            subst htt hse
            exact ⟨Consumes.refl s, by simp, by simp, by simp⟩
        case AfterElements =>
          split at h
          · rename_i hsp
            simp only [pure, Except.pure, Except.ok.injEq, Prod.mk.injEq] at h
            obtain ⟨htt, hse⟩ := h
            subst htt hse
            exact ⟨Consumes.refl s, fun _ => ⟨rfl, hsp⟩, by simp, by simp⟩
          · simp only [pure, Except.pure, Except.ok.injEq, Prod.mk.injEq] at h
            obtain ⟨htt, hse⟩ := h
            subst htt hse
            exact ⟨Consumes.refl s, by simp, by simp, by simp⟩
/-- The `parseDeclaration` succeeds exactly when `parseDeclarationImpl` does, with the same payload. -/
theorem parseDeclaration_ok {s : Stream} {t : Token} {s2 : Stream}
    (h : parseDeclaration s = .ok (t, s2)) : parseDeclarationImpl s = .ok (t, s2) := by
  rw [parseDeclaration] at h
  split at h
  · rename_i r heq
    simp only [Except.ok.injEq] at h
    subst h
    exact heq
  · exact absurd h (by simp)

/-- The `parseComment` succeeds exactly when `parseCommentImpl` does, with the same payload. -/
theorem parseComment_ok {s : Stream} {t : Token} {s2 : Stream}
    (h : parseComment s = .ok (t, s2)) : parseCommentImpl s = .ok (t, s2) := by
  rw [parseComment] at h
  split at h
  · rename_i r heq
    simp only [Except.ok.injEq] at h
    subst h
    exact heq
  · exact absurd h (by simp)

/-- The `parsePi` succeeds exactly when `parsePiImpl` does, with the same payload. -/
theorem parsePi_ok {s : Stream} {t : Token} {s2 : Stream}
    (h : parsePi s = .ok (t, s2)) : parsePiImpl s = .ok (t, s2) := by
  rw [parsePi] at h
  split at h
  · rename_i r heq
    simp only [Except.ok.injEq] at h
    subst h
    exact heq
  · exact absurd h (by simp)

/-- The `parseDoctype` succeeds exactly when `parseDoctypeImpl` does, with the same payload. -/
theorem parseDoctype_ok {s : Stream} {t : Token} {s2 : Stream}
    (h : parseDoctype s = .ok (t, s2)) : parseDoctypeImpl s = .ok (t, s2) := by
  rw [parseDoctype] at h
  split at h
  · rename_i r heq
    simp only [Except.ok.injEq] at h
    subst h
    exact heq
  · exact absurd h (by simp)

/-- The `parseEntityDecl` succeeds exactly when `parseEntityDeclImpl` does, with the same payload. -/
theorem parseEntityDecl_ok {s : Stream} {t : Token} {s2 : Stream}
    (h : parseEntityDecl s = .ok (t, s2)) : parseEntityDeclImpl s = .ok (t, s2) := by
  rw [parseEntityDecl] at h
  split at h
  · rename_i r heq
    simp only [Except.ok.injEq] at h
    subst h
    exact heq
  · exact absurd h (by simp)

/-- The `parseCdata` succeeds exactly when `parseCdataImpl` does, with the same payload. -/
theorem parseCdata_ok {s : Stream} {t : Token} {s2 : Stream}
    (h : parseCdata s = .ok (t, s2)) : parseCdataImpl s = .ok (t, s2) := by
  rw [parseCdata] at h
  split at h
  · rename_i r heq
    simp only [Except.ok.injEq] at h
    subst h
    exact heq
  · exact absurd h (by simp)

/-- The `parseElementStart` succeeds exactly when `parseElementStartImpl` does, with the same payload. -/
theorem parseElementStart_ok {s : Stream} {t : Token} {s2 : Stream}
    (h : parseElementStart s = .ok (t, s2)) : parseElementStartImpl s = .ok (t, s2) := by
  rw [parseElementStart] at h
  split at h
  · rename_i r heq
    simp only [Except.ok.injEq] at h
    subst h
    exact heq
  · exact absurd h (by simp)

/-- The `parseCloseElement` succeeds exactly when `parseCloseElementImpl` does, with the same payload. -/
theorem parseCloseElement_ok {s : Stream} {t : Token} {s2 : Stream}
    (h : parseCloseElement s = .ok (t, s2)) : parseCloseElementImpl s = .ok (t, s2) := by
  rw [parseCloseElement] at h
  split at h
  · rename_i r heq
    simp only [Except.ok.injEq] at h
    subst h
    exact heq
  · exact absurd h (by simp)

/-- The `parseText` succeeds exactly when `parseTextImpl` does, with the same payload. -/
theorem parseText_ok {s : Stream} {t : Token} {s2 : Stream}
    (h : parseText s = .ok (t, s2)) : parseTextImpl s = .ok (t, s2) := by
  rw [parseText] at h
  split at h
  · rename_i r heq
    simp only [Except.ok.injEq] at h
    subst h
    exact heq
  · exact absurd h (by simp)

/-- A `wrapResult` dispatch leaf of `parse_next_impl`: if the parser makes
strict progress on success, the packaged result satisfies the pull
invariants. -/
theorem wrapResult_leaf {sIn sT : Stream} {r : Except Error (Token × Stream)}
    (hcons : Consumes sIn sT)
    (hprog : ∀ tok s3, r = Except.ok (tok, s3) →
      Consumes sIn s3 ∧ s3.rest.length < sIn.rest.length) :
    ∃ out s2,
      (some (wrapResult r sT) : Option (Option (Except Error Token) × Stream)) =
        some (out, s2) ∧
      Consumes sIn s2 ∧
      (∀ tok, out = some (Except.ok tok) → s2.rest.length < sIn.rest.length) ∧
      (out = none → s2.atEnd = true) := by
  cases r with
  | ok p =>
    obtain ⟨tok, s3⟩ := p
    obtain ⟨hc, hlt⟩ := hprog tok s3 rfl
    refine ⟨some (.ok tok), s3, rfl, hc, ?_, by simp⟩
    intro tok2 htok
    simp only [Option.some.injEq, Except.ok.injEq] at htok
    exact hlt
  | error e =>
    exact ⟨some (.error e), sT, rfl, hcons, by simp, by simp⟩

set_option maxHeartbeats 2000000 in
/-- The `parse_next_impl` at sufficient fuel always yields a result; a token
pull strictly shrinks the unread input, and a `none` pull means the input
is exhausted. -/
theorem parseNextGo_spec : ∀ (fuel : Nat) (s : Stream) (st : State), st ≠ State.End →
    s.rest.length < fuel →
    ∃ out s2, parseNextGo fuel s st = some (out, s2) ∧
      Consumes s s2 ∧
      (∀ tok, out = some (Except.ok tok) → s2.rest.length < s.rest.length) ∧
      (out = none → s2.atEnd = true) := by
  intro fuel
  induction fuel with
  | zero => intro s st _ hlt; omega
  | succ fuel ih =>
    intro sIn st hst hfuel
    rw [parseNextGo]
    by_cases hAE : sIn.atEnd = true
    · simp only [if_pos hAE]
      exact ⟨none, sIn, rfl, Consumes.refl sIn, by simp, fun _ => hAE⟩
    · simp only [if_neg hAE]
      generalize hsB :
        (if (sIn.prev.isEmpty && sIn.startsWithBOM) = true then sIn.advance 3 else sIn) = sB
      have hBOM : Consumes sIn sB := by
        rw [← hsB]
        split
        · exact advance_consumes sIn 3
        · exact Consumes.refl sIn
      have hBle := hBOM.rest_le
      cases st with
    | End => exact absurd rfl hst
    | Start =>
      simp only []
      cases htt : parseTokenType sB State.Start with
      | error e =>
        exact ⟨_, _, rfl, hBOM, by simp, by simp⟩
      | ok p =>
        obtain ⟨tt, sT⟩ := p
        obtain ⟨hcTT, hWS, hCD, hSTRICT⟩ := parseTokenType_spec htt
        simp only []
        cases tt with
        | XMLDecl =>
          simp only []
          have hstrict := hSTRICT (by simp) (by simp) (by simp)
          by_cases hfirst : sIn.prev.isEmpty = true
          · simp only [if_pos hfirst]
            refine wrapResult_leaf (hBOM.trans hcTT) ?_
            intro tok s3 hok
            have hc3 := parseDeclarationImpl_consumes (parseDeclaration_ok hok)
            have hle3 := hc3.rest_le
            exact ⟨(hBOM.trans hcTT).trans hc3, by omega⟩
          · simp only [if_neg hfirst]
            exact ⟨_, _, rfl, hBOM.trans hcTT, by simp, by simp⟩
        | Comment =>
          simp only []
          have hstrict := hSTRICT (by simp) (by simp) (by simp)
          refine wrapResult_leaf (hBOM.trans hcTT) ?_
          intro tok s3 hok
          have hc3 := parseCommentImpl_consumes (parseComment_ok hok)
          have hle3 := hc3.rest_le
          exact ⟨(hBOM.trans hcTT).trans hc3, by omega⟩
        | PI =>
          simp only []
          have hstrict := hSTRICT (by simp) (by simp) (by simp)
          refine wrapResult_leaf (hBOM.trans hcTT) ?_
          intro tok s3 hok
          have hc3 := parsePiImpl_consumes (parsePi_ok hok)
          have hle3 := hc3.rest_le
          exact ⟨(hBOM.trans hcTT).trans hc3, by omega⟩
        | DoctypeDecl =>
          simp only []
          have hstrict := hSTRICT (by simp) (by simp) (by simp)
          refine wrapResult_leaf (hBOM.trans hcTT) ?_
          intro tok s3 hok
          have hc3 := parseDoctypeImpl_consumes (parseDoctype_ok hok)
          have hle3 := hc3.rest_le
          exact ⟨(hBOM.trans hcTT).trans hc3, by omega⟩
        | ElementDecl =>
          simp only []
          exact ⟨_, _, rfl, hBOM.trans hcTT, by simp, by simp⟩
        | AttlistDecl =>
          simp only []
          exact ⟨_, _, rfl, hBOM.trans hcTT, by simp, by simp⟩
        | EntityDecl =>
          simp only []
          exact ⟨_, _, rfl, hBOM.trans hcTT, by simp, by simp⟩
        | NotationDecl =>
          simp only []
          exact ⟨_, _, rfl, hBOM.trans hcTT, by simp, by simp⟩
        | DoctypeEnd =>
          simp only []
          exact ⟨_, _, rfl, hBOM.trans hcTT, by simp, by simp⟩
        | ElementStart =>
          simp only []
          have hstrict := hSTRICT (by simp) (by simp) (by simp)
          refine wrapResult_leaf (hBOM.trans hcTT) ?_
          intro tok s3 hok
          have hc3 := parseElementStartImpl_consumes (parseElementStart_ok hok)
          have hle3 := hc3.rest_le
          exact ⟨(hBOM.trans hcTT).trans hc3, by omega⟩
        | ElementClose =>
          simp only []
          exact ⟨_, _, rfl, hBOM.trans hcTT, by simp, by simp⟩
        | Attribute =>
          simp only []
          exact ⟨_, _, rfl, hBOM.trans hcTT, by simp, by simp⟩
        | CDSect =>
          simp only []
          exact ⟨_, _, rfl, hBOM.trans hcTT, by simp, by simp⟩
        | Whitespace =>
          simp only []
          obtain ⟨hTeq, hsp⟩ := hWS rfl
          subst hTeq
          have hss := skipSpaces_strict hsp
          obtain ⟨out, s2, heq, hc, hprog, hnone⟩ :=
            ih sT.skipSpaces State.Start (by decide) (by omega)
          refine ⟨out, s2, heq, (hBOM.trans (skipSpaces_consumes sT)).trans hc, ?_, hnone⟩
          intro tok htok
          have := hprog tok htok
          omega
        | CharData =>
          simp only []
          exact ⟨_, _, rfl, hBOM.trans hcTT, by simp, by simp⟩
        | Unknown =>
          simp only []
          exact ⟨_, _, rfl, hBOM.trans hcTT, by simp, by simp⟩
    | Dtd =>
      simp only []
      cases htt : parseTokenType sB State.Dtd with
      | error e =>
        exact ⟨_, _, rfl, hBOM, by simp, by simp⟩
      | ok p =>
        obtain ⟨tt, sT⟩ := p
        obtain ⟨hcTT, hWS, hCD, hSTRICT⟩ := parseTokenType_spec htt
        simp only []
        cases tt with
        | XMLDecl =>
          simp only []
          exact ⟨_, _, rfl, hBOM.trans hcTT, by simp, by simp⟩
        | Comment =>
          simp only []
          have hstrict := hSTRICT (by simp) (by simp) (by simp)
          refine wrapResult_leaf (hBOM.trans hcTT) ?_
          intro tok s3 hok
          have hc3 := parseCommentImpl_consumes (parseComment_ok hok)
          have hle3 := hc3.rest_le
          exact ⟨(hBOM.trans hcTT).trans hc3, by omega⟩
        | PI =>
          simp only []
          have hstrict := hSTRICT (by simp) (by simp) (by simp)
          refine wrapResult_leaf (hBOM.trans hcTT) ?_
          intro tok s3 hok
          have hc3 := parsePiImpl_consumes (parsePi_ok hok)
          have hle3 := hc3.rest_le
          exact ⟨(hBOM.trans hcTT).trans hc3, by omega⟩
        | DoctypeDecl =>
          simp only []
          exact ⟨_, _, rfl, hBOM.trans hcTT, by simp, by simp⟩
        | ElementDecl =>
          simp only []
          have hstrict := hSTRICT (by simp) (by simp) (by simp)
          cases hcd : consumeDecl sT with
          | error e => exact ⟨_, _, rfl, hBOM.trans hcTT, by simp, by simp⟩
          | ok sD =>
            have hcdc := consumeDecl_consumes hcd
            have hcdle := hcdc.rest_le
            obtain ⟨out, s2, heq, hc, hprog, hnone⟩ :=
              ih sD State.Dtd (by decide) (by omega)
            refine ⟨out, s2, heq, ((hBOM.trans hcTT).trans hcdc).trans hc, ?_, hnone⟩
            intro tok htok
            have := hprog tok htok
            omega
        | AttlistDecl =>
          simp only []
          have hstrict := hSTRICT (by simp) (by simp) (by simp)
          cases hcd : consumeDecl sT with
          | error e => exact ⟨_, _, rfl, hBOM.trans hcTT, by simp, by simp⟩
          | ok sD =>
            have hcdc := consumeDecl_consumes hcd
            have hcdle := hcdc.rest_le
            obtain ⟨out, s2, heq, hc, hprog, hnone⟩ :=
              ih sD State.Dtd (by decide) (by omega)
            refine ⟨out, s2, heq, ((hBOM.trans hcTT).trans hcdc).trans hc, ?_, hnone⟩
            intro tok htok
            have := hprog tok htok
            omega
        | EntityDecl =>
          simp only []
          have hstrict := hSTRICT (by simp) (by simp) (by simp)
          refine wrapResult_leaf (hBOM.trans hcTT) ?_
          intro tok s3 hok
          have hc3 := parseEntityDeclImpl_consumes (parseEntityDecl_ok hok)
          have hle3 := hc3.rest_le
          exact ⟨(hBOM.trans hcTT).trans hc3, by omega⟩
        | NotationDecl =>
          simp only []
          have hstrict := hSTRICT (by simp) (by simp) (by simp)
          cases hcd : consumeDecl sT with
          | error e => exact ⟨_, _, rfl, hBOM.trans hcTT, by simp, by simp⟩
          | ok sD =>
            have hcdc := consumeDecl_consumes hcd
            have hcdle := hcdc.rest_le
            obtain ⟨out, s2, heq, hc, hprog, hnone⟩ :=
              ih sD State.Dtd (by decide) (by omega)
            refine ⟨out, s2, heq, ((hBOM.trans hcTT).trans hcdc).trans hc, ?_, hnone⟩
            intro tok htok
            have := hprog tok htok
            omega
        | DoctypeEnd =>
          simp only []
          have hstrict := hSTRICT (by simp) (by simp) (by simp)
          refine ⟨_, _, rfl, hBOM.trans hcTT, ?_, by simp⟩
          intro tok htok
          omega
        | ElementStart =>
          simp only []
          exact ⟨_, _, rfl, hBOM.trans hcTT, by simp, by simp⟩
        | ElementClose =>
          simp only []
          exact ⟨_, _, rfl, hBOM.trans hcTT, by simp, by simp⟩
        | Attribute =>
          simp only []
          exact ⟨_, _, rfl, hBOM.trans hcTT, by simp, by simp⟩
        | CDSect =>
          simp only []
          exact ⟨_, _, rfl, hBOM.trans hcTT, by simp, by simp⟩
        | Whitespace =>
          simp only []
          obtain ⟨hTeq, hsp⟩ := hWS rfl
          subst hTeq
          have hss := skipSpaces_strict hsp
          obtain ⟨out, s2, heq, hc, hprog, hnone⟩ :=
            ih sT.skipSpaces State.Dtd (by decide) (by omega)
          refine ⟨out, s2, heq, (hBOM.trans (skipSpaces_consumes sT)).trans hc, ?_, hnone⟩
          intro tok htok
          have := hprog tok htok
          omega
        | CharData =>
          simp only []
          exact ⟨_, _, rfl, hBOM.trans hcTT, by simp, by simp⟩
        | Unknown =>
          simp only []
          exact ⟨_, _, rfl, hBOM.trans hcTT, by simp, by simp⟩
    | AfterDtd =>
      simp only []
      cases htt : parseTokenType sB State.AfterDtd with
      | error e =>
        exact ⟨_, _, rfl, hBOM, by simp, by simp⟩
      | ok p =>
        obtain ⟨tt, sT⟩ := p
        obtain ⟨hcTT, hWS, hCD, hSTRICT⟩ := parseTokenType_spec htt
        simp only []
        cases tt with
        | XMLDecl =>
          simp only []
          exact ⟨_, _, rfl, hBOM.trans hcTT, by simp, by simp⟩
        | Comment =>
          simp only []
          have hstrict := hSTRICT (by simp) (by simp) (by simp)
          refine wrapResult_leaf (hBOM.trans hcTT) ?_
          intro tok s3 hok
          have hc3 := parseCommentImpl_consumes (parseComment_ok hok)
          have hle3 := hc3.rest_le
          exact ⟨(hBOM.trans hcTT).trans hc3, by omega⟩
        | PI =>
          simp only []
          have hstrict := hSTRICT (by simp) (by simp) (by simp)
          refine wrapResult_leaf (hBOM.trans hcTT) ?_
          intro tok s3 hok
          have hc3 := parsePiImpl_consumes (parsePi_ok hok)
          have hle3 := hc3.rest_le
          exact ⟨(hBOM.trans hcTT).trans hc3, by omega⟩
        | DoctypeDecl =>
          simp only []
          exact ⟨_, _, rfl, hBOM.trans hcTT, by simp, by simp⟩
        | ElementDecl =>
          simp only []
          exact ⟨_, _, rfl, hBOM.trans hcTT, by simp, by simp⟩
        | AttlistDecl =>
          simp only []
          exact ⟨_, _, rfl, hBOM.trans hcTT, by simp, by simp⟩
        | EntityDecl =>
          simp only []
          exact ⟨_, _, rfl, hBOM.trans hcTT, by simp, by simp⟩
        | NotationDecl =>
          simp only []
          exact ⟨_, _, rfl, hBOM.trans hcTT, by simp, by simp⟩
        | DoctypeEnd =>
          simp only []
          exact ⟨_, _, rfl, hBOM.trans hcTT, by simp, by simp⟩
        | ElementStart =>
          simp only []
          have hstrict := hSTRICT (by simp) (by simp) (by simp)
          refine wrapResult_leaf (hBOM.trans hcTT) ?_
          intro tok s3 hok
          have hc3 := parseElementStartImpl_consumes (parseElementStart_ok hok)
          have hle3 := hc3.rest_le
          exact ⟨(hBOM.trans hcTT).trans hc3, by omega⟩
        | ElementClose =>
          simp only []
          exact ⟨_, _, rfl, hBOM.trans hcTT, by simp, by simp⟩
        | Attribute =>
          simp only []
          exact ⟨_, _, rfl, hBOM.trans hcTT, by simp, by simp⟩
        | CDSect =>
          simp only []
          exact ⟨_, _, rfl, hBOM.trans hcTT, by simp, by simp⟩
        | Whitespace =>
          simp only []
          obtain ⟨hTeq, hsp⟩ := hWS rfl
          subst hTeq
          have hss := skipSpaces_strict hsp
          obtain ⟨out, s2, heq, hc, hprog, hnone⟩ :=
            ih sT.skipSpaces State.AfterDtd (by decide) (by omega)
          refine ⟨out, s2, heq, (hBOM.trans (skipSpaces_consumes sT)).trans hc, ?_, hnone⟩
          intro tok htok
          have := hprog tok htok
          omega
        | CharData =>
          simp only []
          exact ⟨_, _, rfl, hBOM.trans hcTT, by simp, by simp⟩
        | Unknown =>
          simp only []
          exact ⟨_, _, rfl, hBOM.trans hcTT, by simp, by simp⟩
    | Elements =>
      simp only []
      cases htt : parseTokenType sB State.Elements with
      | error e =>
        exact ⟨_, _, rfl, hBOM, by simp, by simp⟩
      | ok p =>
        obtain ⟨tt, sT⟩ := p
        obtain ⟨hcTT, hWS, hCD, hSTRICT⟩ := parseTokenType_spec htt
        simp only []
        cases tt with
        | XMLDecl =>
          simp only []
          exact ⟨_, _, rfl, hBOM.trans hcTT, by simp, by simp⟩
        | Comment =>
          simp only []
          have hstrict := hSTRICT (by simp) (by simp) (by simp)
          refine wrapResult_leaf (hBOM.trans hcTT) ?_
          intro tok s3 hok
          have hc3 := parseCommentImpl_consumes (parseComment_ok hok)
          have hle3 := hc3.rest_le
          exact ⟨(hBOM.trans hcTT).trans hc3, by omega⟩
        | PI =>
          simp only []
          have hstrict := hSTRICT (by simp) (by simp) (by simp)
          refine wrapResult_leaf (hBOM.trans hcTT) ?_
          intro tok s3 hok
          have hc3 := parsePiImpl_consumes (parsePi_ok hok)
          have hle3 := hc3.rest_le
          exact ⟨(hBOM.trans hcTT).trans hc3, by omega⟩
        | DoctypeDecl =>
          simp only []
          exact ⟨_, _, rfl, hBOM.trans hcTT, by simp, by simp⟩
        | ElementDecl =>
          simp only []
          exact ⟨_, _, rfl, hBOM.trans hcTT, by simp, by simp⟩
        | AttlistDecl =>
          simp only []
          exact ⟨_, _, rfl, hBOM.trans hcTT, by simp, by simp⟩
        | EntityDecl =>
          simp only []
          exact ⟨_, _, rfl, hBOM.trans hcTT, by simp, by simp⟩
        | NotationDecl =>
          simp only []
          exact ⟨_, _, rfl, hBOM.trans hcTT, by simp, by simp⟩
        | DoctypeEnd =>
          simp only []
          exact ⟨_, _, rfl, hBOM.trans hcTT, by simp, by simp⟩
        | ElementStart =>
          simp only []
          have hstrict := hSTRICT (by simp) (by simp) (by simp)
          refine wrapResult_leaf (hBOM.trans hcTT) ?_
          intro tok s3 hok
          have hc3 := parseElementStartImpl_consumes (parseElementStart_ok hok)
          have hle3 := hc3.rest_le
          exact ⟨(hBOM.trans hcTT).trans hc3, by omega⟩
        | ElementClose =>
          simp only []
          have hstrict := hSTRICT (by simp) (by simp) (by simp)
          refine wrapResult_leaf (hBOM.trans hcTT) ?_
          intro tok s3 hok
          have hc3 := parseCloseElementImpl_consumes (parseCloseElement_ok hok)
          have hle3 := hc3.rest_le
          exact ⟨(hBOM.trans hcTT).trans hc3, by omega⟩
        | Attribute =>
          simp only []
          exact ⟨_, _, rfl, hBOM.trans hcTT, by simp, by simp⟩
        | CDSect =>
          simp only []
          have hstrict := hSTRICT (by simp) (by simp) (by simp)
          refine wrapResult_leaf (hBOM.trans hcTT) ?_
          intro tok s3 hok
          have hc3 := parseCdataImpl_consumes (parseCdata_ok hok)
          have hle3 := hc3.rest_le
          exact ⟨(hBOM.trans hcTT).trans hc3, by omega⟩
        | Whitespace =>
          simp only []
          exact ⟨_, _, rfl, hBOM.trans hcTT, by simp, by simp⟩
        | CharData =>
          simp only []
          obtain ⟨hTeq, c, r, hrest, hfb⟩ := hCD rfl
          subst hTeq
          refine wrapResult_leaf (hBOM.trans hcTT) ?_
          intro tok s3 hok
          have hc3 := parseTextImpl_consumes (parseText_ok hok)
          have hlt3 := hc3.2 c r hrest hfb
          exact ⟨(hBOM.trans hcTT).trans hc3.1, by omega⟩
        | Unknown =>
          simp only []
          exact ⟨_, _, rfl, hBOM.trans hcTT, by simp, by simp⟩
    | Attributes =>
      simp only []
      cases hpa : parseAttribute sB with
      | ok p =>
        obtain ⟨t, s2⟩ := p
        obtain ⟨hc, hlt⟩ := parseAttribute_strict hpa
        refine ⟨some (.ok t), s2, rfl, hBOM.trans hc, ?_, by simp⟩
        intro tok htok
        simp only [Option.some.injEq, Except.ok.injEq] at htok
        omega
      | error e =>
        exact ⟨_, _, rfl, hBOM, by simp, by simp⟩
    | AfterElements =>
      simp only []
      cases htt : parseTokenType sB State.AfterElements with
      | error e =>
        exact ⟨_, _, rfl, hBOM, by simp, by simp⟩
      | ok p =>
        obtain ⟨tt, sT⟩ := p
        obtain ⟨hcTT, hWS, hCD, hSTRICT⟩ := parseTokenType_spec htt
        simp only []
        cases tt with
        | XMLDecl =>
          simp only []
          exact ⟨_, _, rfl, hBOM.trans hcTT, by simp, by simp⟩
        | Comment =>
          simp only []
          have hstrict := hSTRICT (by simp) (by simp) (by simp)
          refine wrapResult_leaf (hBOM.trans hcTT) ?_
          intro tok s3 hok
          have hc3 := parseCommentImpl_consumes (parseComment_ok hok)
          have hle3 := hc3.rest_le
          exact ⟨(hBOM.trans hcTT).trans hc3, by omega⟩
        | PI =>
          simp only []
          have hstrict := hSTRICT (by simp) (by simp) (by simp)
          refine wrapResult_leaf (hBOM.trans hcTT) ?_
          intro tok s3 hok
          have hc3 := parsePiImpl_consumes (parsePi_ok hok)
          have hle3 := hc3.rest_le
          exact ⟨(hBOM.trans hcTT).trans hc3, by omega⟩
        | DoctypeDecl =>
          simp only []
          exact ⟨_, _, rfl, hBOM.trans hcTT, by simp, by simp⟩
        | ElementDecl =>
          simp only []
          exact ⟨_, _, rfl, hBOM.trans hcTT, by simp, by simp⟩
        | AttlistDecl =>
          simp only []
          exact ⟨_, _, rfl, hBOM.trans hcTT, by simp, by simp⟩
        | EntityDecl =>
          simp only []
          exact ⟨_, _, rfl, hBOM.trans hcTT, by simp, by simp⟩
        | NotationDecl =>
          simp only []
          exact ⟨_, _, rfl, hBOM.trans hcTT, by simp, by simp⟩
        | DoctypeEnd =>
          simp only []
          exact ⟨_, _, rfl, hBOM.trans hcTT, by simp, by simp⟩
        | ElementStart =>
          simp only []
          exact ⟨_, _, rfl, hBOM.trans hcTT, by simp, by simp⟩
        | ElementClose =>
          simp only []
          exact ⟨_, _, rfl, hBOM.trans hcTT, by simp, by simp⟩
        | Attribute =>
          simp only []
          exact ⟨_, _, rfl, hBOM.trans hcTT, by simp, by simp⟩
        | CDSect =>
          simp only []
          exact ⟨_, _, rfl, hBOM.trans hcTT, by simp, by simp⟩
        | Whitespace =>
          simp only []
          obtain ⟨hTeq, hsp⟩ := hWS rfl
          subst hTeq
          have hss := skipSpaces_strict hsp
          obtain ⟨out, s2, heq, hc, hprog, hnone⟩ :=
            ih sT.skipSpaces State.AfterElements (by decide) (by omega)
          refine ⟨out, s2, heq, (hBOM.trans (skipSpaces_consumes sT)).trans hc, ?_, hnone⟩
          intro tok htok
          have := hprog tok htok
          omega
        | CharData =>
          simp only []
          exact ⟨_, _, rfl, hBOM.trans hcTT, by simp, by simp⟩
        | Unknown =>
          simp only []
          exact ⟨_, _, rfl, hBOM.trans hcTT, by simp, by simp⟩

/-- The `parse_next_impl` result invariants at the `Tokenizer.next` call site. -/
theorem parseNextImpl_spec (s : Stream) {st : State} (hst : st ≠ State.End) :
    Consumes s (parseNextImpl s st).2 ∧
    (∀ tok, (parseNextImpl s st).1 = some (Except.ok tok) →
      (parseNextImpl s st).2.rest.length < s.rest.length) ∧
    ((parseNextImpl s st).1 = none → (parseNextImpl s st).2.atEnd = true) := by
  obtain ⟨out, s2, heq, hc, hp, hn⟩ :=
    parseNextGo_spec (s.rest.length + 1) s st hst (by omega)
  rw [parseNextImpl, heq]
  exact ⟨hc, hp, hn⟩

/-- The `Iterator::next` never moves the stream when recording a token's
state transition. -/
theorem Tokenizer.updateState_stream (t : Tokenizer) (tok : Token) :
    (Tokenizer.updateState t tok).stream = t.stream := by
  cases tok <;> rfl

/-- One pull of an exhausted-or-finished tokenizer is `none`, and a pull
never resurrects an exhausted tokenizer: with at most `n` unread chars
(or in the `End` state), the pull after `n` more pulls is `none`. -/
theorem pullAt_none : ∀ (n : Nat) (t : Tokenizer),
    t.stream.rest.length ≤ n ∨ t.state = State.End →
    Tokenizer.pullAt t n = none := by
  intro n
  induction n with
  | zero =>
    intro t h
    have hguard : (t.stream.atEnd || t.state == State.End) = true := by
      rcases h with h | h
      · have hr : t.stream.rest = [] := List.length_eq_zero.mp (Nat.le_zero.mp h)
        simp [Stream.atEnd, hr]
      · simp [h]
    show (t.next).1 = none
    rw [Tokenizer.next, if_pos hguard]
  | succ n ih =>
    intro t h
    show Tokenizer.pullAt t.next.2 n = none
    by_cases hguard : (t.stream.atEnd || t.state == State.End) = true
    · have hnext : t.next = (none, t) := by rw [Tokenizer.next, if_pos hguard]
      rw [hnext]
      apply ih
      simp only [Bool.or_eq_true, beq_iff_eq] at hguard
      rcases hguard with hg | hg
      · left
        have hr : t.stream.rest = [] := by
          simpa [Stream.atEnd, List.isEmpty_iff] using hg
        simp [hr]
      · right; exact hg
    · have hstne : t.state ≠ State.End := by
        intro hE; exact hguard (by simp [hE])
      obtain ⟨hc, hp, hn⟩ := parseNextImpl_spec t.stream hstne
      rw [Tokenizer.next, if_neg hguard]
      simp only []
      cases hr : (parseNextImpl t.stream t.state).1 with
      | none =>
        apply ih
        left
        have hend := hn hr
        have : (parseNextImpl t.stream t.state).2.rest = [] := by
          simpa [Stream.atEnd, List.isEmpty_iff] using hend
        simp [this]
      | some exc =>
        cases exc with
        | ok tok =>
          apply ih
          left
          rw [Tokenizer.updateState_stream]
          have hlt := hp tok hr
          rcases h with h | h
          · simp only []
            omega
          · exact absurd h hstne
        | error e =>
          apply ih
          right
          rfl

/-- C1: for every UTF-8 input, repeatedly pulling tokens from a
`Tokenizer` built over it terminates: the iterator returns `none` after a
finite number of pulls bounded by the length of the input (every pull past
that length is `none`). -/
theorem C1_termination (text : List Char) (n : Nat) (h : text.length ≤ n) :
    (Tokenizer.fromChars text).pullAt n = none :=
  pullAt_none n (Tokenizer.fromChars text) (Or.inl h)

theorem C1_termination_witness :
    ("<a/>".toList.length ≤ 4) ∧ (Tokenizer.fromChars "<a/>".toList).pullAt 4 = none :=
  ⟨by decide, C1_termination "<a/>".toList 4 (by decide)⟩

/-- Peeling one pull from the right of `afterPulls`. -/
theorem Tokenizer.afterPulls_succ_right (t : Tokenizer) (n : Nat) :
    Tokenizer.afterPulls t (n + 1) = (Tokenizer.afterPulls t n).next.2 := by
  induction n generalizing t with
  | zero => rfl
  | succ n ih =>
    show Tokenizer.afterPulls t.next.2 (n + 1) = _
    rw [ih]
    rfl

/-- A pull that surfaces an error leaves the tokenizer in the `End` state. -/
theorem Tokenizer.next_error_end {t : Tokenizer} {e : Error}
    (h : t.next.1 = some (Except.error e)) : t.next.2.state = State.End := by
  by_cases hguard : (t.stream.atEnd || t.state == State.End) = true
  · rw [Tokenizer.next, if_pos hguard] at h
    exact absurd h (by simp)
  · rw [Tokenizer.next, if_neg hguard] at h ⊢
    simp only [] at h ⊢
    cases hr : (parseNextImpl t.stream t.state).1 with
    | none =>
      rw [hr] at h
      simp at h
    | some exc =>
      cases exc with
      | ok tok =>
        rw [hr] at h
        simp at h
      | error e2 => rfl

/-- Pulls compose: the pull after `a + b` pulls is the pull after `b`
pulls of the tokenizer advanced by `a` pulls. -/
theorem pullAt_add (t : Tokenizer) (a b : Nat) :
    Tokenizer.pullAt t (a + b) = Tokenizer.pullAt (Tokenizer.afterPulls t a) b := by
  induction a generalizing t with
  | zero =>
    rw [Nat.zero_add]
    rfl
  | succ a ih =>
    have hcomm : a + 1 + b = (a + b) + 1 := by omega
    rw [hcomm]
    show Tokenizer.pullAt t.next.2 (a + b) = _
    rw [ih]
    rfl

/-- C2: once a pull of the tokenizer has returned an error, every
subsequent pull returns `none`. -/
theorem C2_error_terminal (text : List Char) (n m : Nat) (e : Error)
    (h : (Tokenizer.fromChars text).pullAt n = some (Except.error e))
    (hnm : n < m) :
    (Tokenizer.fromChars text).pullAt m = none := by
  obtain ⟨k, rfl⟩ : ∃ k, m = (n + 1) + k := ⟨m - (n + 1), by omega⟩
  rw [pullAt_add]
  apply pullAt_none
  right
  rw [Tokenizer.afterPulls_succ_right]
  exact Tokenizer.next_error_end h

theorem C2_error_terminal_witness :
    (Tokenizer.fromChars "?".toList).pullAt 0 =
      some (Except.error (Error.UnknownToken ⟨1, 1⟩)) ∧
    0 < 1 ∧
    (Tokenizer.fromChars "?".toList).pullAt 1 = none :=
  ⟨rfl, by decide,
    C2_error_terminal "?".toList 0 1 (Error.UnknownToken ⟨1, 1⟩) rfl (by decide)⟩

/-- An ASCII-whitespace first char makes `starts_with_space` true. -/
theorem startsWithSpace_of_ws {s : Stream} {c : Char} {r : List Char}
    (hrest : s.rest = c :: r)
    (hws : c = ' ' ∨ c = '\t' ∨ c = '\n' ∨ c = '\r') :
    s.startsWithSpace = true := by
  have hb : isXmlSpaceByte (utf8FirstByte c) = true := by
    rcases hws with rfl | rfl | rfl | rfl <;> decide
  rw [Stream.startsWithSpace, hrest]
  simp only [hb, if_true]

/-- On a stream whose next char is ASCII whitespace, in the `Start` state
`parse_token_type` yields `Whitespace` and does not move. -/
theorem parseTokenType_ws {s : Stream} {c : Char} {r : List Char}
    (hrest : s.rest = c :: r)
    (hws : c = ' ' ∨ c = '\t' ∨ c = '\n' ∨ c = '\r') :
    parseTokenType s State.Start = .ok (TokenType.Whitespace, s) := by
  have hcb : s.currByte = .ok (utf8FirstByte c) := by
    rw [Stream.currByte, hrest]
  have hne60 : (utf8FirstByte c == 60) = false := by
    rcases hws with rfl | rfl | rfl | rfl <;> decide
  have hne93 : (utf8FirstByte c == 93) = false := by
    rcases hws with rfl | rfl | rfl | rfl <;> decide
  have hsw := startsWithSpace_of_ws hrest hws
  delta parseTokenType
  simp only [Bind.bind, Except.bind, hcb, hne60, hne93, hsw, Bool.false_and, Bool.and_false,
    Bool.false_eq_true, if_false, if_true, pure, Except.pure]

/-- On an all-whitespace stream, `parse_next_impl` in the `Start` state
recurses through the whitespace and returns no token. -/
theorem parseNextGo_ws : ∀ (fuel : Nat) (s : Stream),
    (∀ c ∈ s.rest, c = ' ' ∨ c = '\t' ∨ c = '\n' ∨ c = '\r') →
    s.rest.length < fuel →
    ∃ s2, parseNextGo fuel s State.Start = some (none, s2) := by
  intro fuel
  induction fuel with
  | zero => intro s _ h; omega
  | succ fuel ih =>
    intro sIn hws hfuel
    rw [parseNextGo]
    by_cases hAE : sIn.atEnd = true
    · exact ⟨sIn, by simp [hAE]⟩
    · obtain ⟨c, r, hr⟩ : ∃ c r, sIn.rest = c :: r := by
        cases hrr : sIn.rest with
        | nil => exact absurd (by simp [Stream.atEnd, hrr]) hAE
        | cons c r => exact ⟨c, r, rfl⟩
      have hwc := hws c (by rw [hr]; exact List.mem_cons_self c r)
      have hbom : (sIn.prev.isEmpty && sIn.startsWithBOM) = false := by
        have hB : sIn.startsWithBOM = false := by
          rw [Stream.startsWithBOM, hr]
          rcases hwc with rfl | rfl | rfl | rfl <;> rfl
        simp [hB]
      have htt := parseTokenType_ws hr hwc
      have hsw := startsWithSpace_of_ws hr hwc
      have hss := skipSpaces_strict hsw
      have hmem : ∀ x ∈ sIn.skipSpaces.rest, x = ' ' ∨ x = '\t' ∨ x = '\n' ∨ x = '\r' := by
        obtain ⟨d, hp, hrw⟩ := skipSpaces_consumes sIn
        intro x hx
        exact hws x (by rw [hrw]; exact List.mem_append_right d hx)
      obtain ⟨s2, hgo⟩ := ih sIn.skipSpaces hmem (by omega)
      refine ⟨s2, ?_⟩
      simp only [if_neg hAE, hbom, Bool.false_eq_true, if_false, htt]
      exact hgo

/-- C10: a document-mode tokenizer over an input of only ASCII whitespace
never emits a token or an error: every pull returns `none`. -/
theorem C10_whitespace_only (text : List Char) (n : Nat)
    (h : ∀ c ∈ text, c = ' ' ∨ c = '\t' ∨ c = '\n' ∨ c = '\r') :
    (Tokenizer.fromChars text).pullAt n = none := by
  by_cases hAE : (Tokenizer.fromChars text).stream.atEnd = true
  · apply pullAt_none
    left
    have hre : (Tokenizer.fromChars text).stream.rest = [] := by
      simpa [Stream.atEnd, List.isEmpty_iff] using hAE
    simp [hre]
  · have hguard :
        ((Tokenizer.fromChars text).stream.atEnd ||
          (Tokenizer.fromChars text).state == State.End) = true → False := by
      intro hg
      simp only [Bool.or_eq_true, beq_iff_eq] at hg
      rcases hg with hg | hg
      · exact hAE hg
      · exact absurd (show State.Start = State.End from hg) (by decide)
    obtain ⟨s2, hgo⟩ :=
      parseNextGo_ws ((Stream.fromChars text).rest.length + 1) (Stream.fromChars text)
        h (by omega)
    have himpl :
        parseNextImpl (Tokenizer.fromChars text).stream (Tokenizer.fromChars text).state =
          (none, s2) := by
      show parseNextImpl (Stream.fromChars text) State.Start = (none, s2)
      rw [parseNextImpl, hgo]
      rfl
    have hstne : (Tokenizer.fromChars text).state ≠ State.End := by
      show State.Start ≠ State.End
      decide
    obtain ⟨hc, hp, hn⟩ := parseNextImpl_spec (Tokenizer.fromChars text).stream hstne
    have hs2end : s2.atEnd = true := by
      have := hn (by rw [himpl])
      rwa [himpl] at this
    cases n with
    | zero =>
      show (Tokenizer.fromChars text).next.1 = none
      rw [Tokenizer.next, if_neg hguard]
      simp only []
      rw [himpl]
    | succ n =>
      show Tokenizer.pullAt (Tokenizer.fromChars text).next.2 n = none
      have hnext2 : (Tokenizer.fromChars text).next.2 =
          { Tokenizer.fromChars text with stream := s2 } := by
        rw [Tokenizer.next, if_neg hguard]
        simp only []
        rw [himpl]
      rw [hnext2]
      apply pullAt_none
      left
      have hre : s2.rest = [] := by
        simpa [Stream.atEnd, List.isEmpty_iff] using hs2end
      simp [hre]

theorem C10_whitespace_only_witness :
    (∀ c ∈ "  \t\n\r ".toList, c = ' ' ∨ c = '\t' ∨ c = '\n' ∨ c = '\r') ∧
    (Tokenizer.fromChars "  \t\n\r ".toList).pullAt 0 = none :=
  ⟨by decide, C10_whitespace_only "  \t\n\r ".toList 0 (by decide)⟩

/-- An `ok` result of `parseDeclarationImpl` carries a `Declaration` token. -/
theorem parseDeclarationImpl_ok_shape {s : Stream} {t : Token} {s2 : Stream}
    (h : parseDeclarationImpl s = .ok (t, s2)) :
    ∃ v enc sd sp, t = Token.Declaration v enc sd sp := by
  rw [parseDeclarationImpl] at h
  simp only [Bind.bind, Except.bind] at h
  repeat' split at h
  all_goals try exact absurd h (by simp)
  all_goals
    (simp only [pure, Except.pure, Except.ok.injEq, Prod.mk.injEq] at h
     exact ⟨_, _, _, _, h.1.symm⟩)

/-- An `ok` result of `parsePiImpl` carries a `ProcessingInstruction` token. -/
theorem parsePiImpl_ok_shape {s : Stream} {t : Token} {s2 : Stream}
    (h : parsePiImpl s = .ok (t, s2)) :
    ∃ a b c, t = Token.ProcessingInstruction a b c := by
  rw [parsePiImpl] at h
  simp only [Bind.bind, Except.bind] at h
  repeat' split at h
  all_goals try exact absurd h (by simp)
  all_goals
    (simp only [pure, Except.pure, Except.ok.injEq, Prod.mk.injEq] at h
     exact ⟨_, _, _, h.1.symm⟩)

/-- An `ok` result of `parseDoctypeImpl` carries a `DtdStart` or `EmptyDtd` token. -/
theorem parseDoctypeImpl_ok_shape {s : Stream} {t : Token} {s2 : Stream}
    (h : parseDoctypeImpl s = .ok (t, s2)) :
    (∃ n e sp, t = Token.DtdStart n e sp) ∨ (∃ n e sp, t = Token.EmptyDtd n e sp) := by
  rw [parseDoctypeImpl] at h
  simp only [Bind.bind, Except.bind] at h
  repeat' split at h
  all_goals try exact absurd h (by simp)
  all_goals
    simp only [pure, Except.pure, Except.ok.injEq, Prod.mk.injEq] at h
  all_goals
    first
    | exact Or.inl ⟨_, _, _, h.1.symm⟩
    | exact Or.inr ⟨_, _, _, h.1.symm⟩

/-- An `ok` result of `parseEntityDeclImpl` carries a `EntityDeclaration` token. -/
theorem parseEntityDeclImpl_ok_shape {s : Stream} {t : Token} {s2 : Stream}
    (h : parseEntityDeclImpl s = .ok (t, s2)) :
    ∃ n d sp, t = Token.EntityDeclaration n d sp := by
  rw [parseEntityDeclImpl] at h
  simp only [Bind.bind, Except.bind] at h
  repeat' split at h
  all_goals try exact absurd h (by simp)
  all_goals
    (simp only [pure, Except.pure, Except.ok.injEq, Prod.mk.injEq] at h
     exact ⟨_, _, _, h.1.symm⟩)

/-- An `ok` result of `parseCdataImpl` carries a `Cdata` token. -/
theorem parseCdataImpl_ok_shape {s : Stream} {t : Token} {s2 : Stream}
    (h : parseCdataImpl s = .ok (t, s2)) :
    ∃ a b, t = Token.Cdata a b := by
  rw [parseCdataImpl] at h
  simp only [Bind.bind, Except.bind] at h
  repeat' split at h
  all_goals try exact absurd h (by simp)
  all_goals
    (simp only [pure, Except.pure, Except.ok.injEq, Prod.mk.injEq] at h
     exact ⟨_, _, h.1.symm⟩)

/-- An `ok` result of `parseElementStartImpl` carries a `ElementStart` token. -/
theorem parseElementStartImpl_ok_shape {s : Stream} {t : Token} {s2 : Stream}
    (h : parseElementStartImpl s = .ok (t, s2)) :
    ∃ a b c, t = Token.ElementStart a b c := by
  rw [parseElementStartImpl] at h
  simp only [Bind.bind, Except.bind] at h
  repeat' split at h
  all_goals try exact absurd h (by simp)
  all_goals
    (simp only [pure, Except.pure, Except.ok.injEq, Prod.mk.injEq] at h
     exact ⟨_, _, _, h.1.symm⟩)

/-- An `ok` result of `parseCloseElementImpl` carries a `ElementEnd` token. -/
theorem parseCloseElementImpl_ok_shape {s : Stream} {t : Token} {s2 : Stream}
    (h : parseCloseElementImpl s = .ok (t, s2)) :
    ∃ e sp, t = Token.ElementEnd e sp := by
  rw [parseCloseElementImpl] at h
  simp only [Bind.bind, Except.bind] at h
  repeat' split at h
  all_goals try exact absurd h (by simp)
  all_goals
    (simp only [pure, Except.pure, Except.ok.injEq, Prod.mk.injEq] at h
     exact ⟨_, _, h.1.symm⟩)

/-- An `ok` result of `parseAttributeBody` is an `Attribute` token. -/
theorem parseAttributeBody_ok_shape {s : Stream} {t : Token} {s2 : Stream}
    (h : parseAttributeBody s = .ok (t, s2)) :
    ∃ a b c d, t = Token.Attribute a b c d := by
  rw [parseAttributeBody] at h
  simp only [Bind.bind, Except.bind] at h
  repeat' split at h
  all_goals try exact absurd h (by simp)
  all_goals
    (simp only [pure, Except.pure, Except.ok.injEq, Prod.mk.injEq] at h
     exact ⟨_, _, _, _, h.1.symm⟩)

/-- An `ok` result of `parseAttribute` is an `Attribute` or `ElementEnd`. -/
theorem parseAttribute_ok_shape {s : Stream} {t : Token} {s2 : Stream}
    (h : parseAttribute s = .ok (t, s2)) :
    (∃ a b c d, t = Token.Attribute a b c d) ∨ (∃ e sp, t = Token.ElementEnd e sp) := by
  rw [parseAttribute] at h
  simp only [] at h
  cases h0 : s.skipSpaces.currByte with
  | error e =>
    rw [h0] at h
    simp only [] at h
    obtain ⟨a, b, c, d, ht⟩ := parseAttributeBody_ok_shape h
    exact Or.inl ⟨a, b, c, d, ht⟩
  | ok b0 =>
    rw [h0] at h
    simp only [] at h
    split at h
    · split at h
      · exact absurd h (by simp)
      · simp only [Except.ok.injEq, Prod.mk.injEq] at h
        exact Or.inr ⟨_, _, h.1.symm⟩
    · split at h
      · simp only [Except.ok.injEq, Prod.mk.injEq] at h
        exact Or.inr ⟨_, _, h.1.symm⟩
      · obtain ⟨a, b, c, d, ht⟩ := parseAttributeBody_ok_shape h
        exact Or.inl ⟨a, b, c, d, ht⟩

/-- A body containing the substring `]]>` contains the byte `>`. -/
theorem contains_gt_of_containsSub {text : List Char}
    (h : containsSub text "]]>".toList = true) : text.contains '>' = true := by
  induction text with
  | nil => simp [containsSub] at h
  | cons c rest ih =>
    rw [containsSub] at h
    simp only [Bool.or_eq_true] at h
    rcases h with h | h
    · rw [List.isPrefixOf_iff_prefix] at h
      obtain ⟨tail, htl⟩ := h
      rw [← htl]
      simp only [List.contains_iff_exists_mem_beq]
      exact ⟨'>', by simp [String.toList], by decide⟩
    · have hr := ih h
      simp only [List.contains_iff_exists_mem_beq] at hr ⊢
      obtain ⟨a, ha, hb⟩ := hr
      exact ⟨a, List.mem_cons_of_mem c ha, hb⟩

/-- An `ok` result of `parseCommentImpl` carries a `Comment` token whose
text has no `--` and does not end in `-`. -/
theorem parseCommentImpl_ok_shape {s : Stream} {t : Token} {s2 : Stream}
    (h : parseCommentImpl s = .ok (t, s2)) :
    ∃ body span, t = Token.Comment body span ∧
      containsSub body "--".toList = false ∧ body.getLast? ≠ some '-' := by
  rw [parseCommentImpl] at h
  simp only [Bind.bind, Except.bind] at h
  repeat' split at h
  all_goals try exact absurd h (by simp)
  rename_i hguard
  simp only [Bool.or_eq_true, not_or, Bool.not_eq_true, beq_eq_false_iff_ne] at hguard
  simp only [pure, Except.pure, Except.ok.injEq, Prod.mk.injEq] at h
  exact ⟨_, _, h.1.symm, hguard.1, hguard.2⟩

/-- An `ok` result of `parseTextImpl` carries a `Text` token whose text
has no `]]>`. -/
theorem parseTextImpl_ok_shape {s : Stream} {t : Token} {s2 : Stream}
    (h : parseTextImpl s = .ok (t, s2)) :
    ∃ body, t = Token.Text body ∧ containsSub body "]]>".toList = false := by
  rw [parseTextImpl] at h
  simp only [Bind.bind, Except.bind] at h
  repeat' split at h
  all_goals try exact absurd h (by simp)
  rename_i hguard
  simp only [pure, Except.pure, Except.ok.injEq, Prod.mk.injEq] at h
  refine ⟨_, h.1.symm, ?_⟩
  rcases hcs : containsSub _ "]]>".toList with _ | _
  · rfl
  · exact absurd ⟨contains_gt_of_containsSub hcs, hcs⟩ hguard

set_option maxHeartbeats 2000000 in
/-- Every `Ok` token that `parse_next_impl` emits satisfies the comment
and text body invariants: a `Comment` body has no `--` and no trailing
`-`, a `Text` body has no `]]>`. -/
theorem parseNextGo_token_shape : ∀ (fuel : Nat) (s : Stream) (st : State)
    (out : Option (Except Error Token)) (s2 : Stream) (tok : Token),
    parseNextGo fuel s st = some (out, s2) → out = some (Except.ok tok) →
    (∀ body span, tok = Token.Comment body span →
      containsSub body "--".toList = false ∧ body.getLast? ≠ some '-') ∧
    (∀ body, tok = Token.Text body → containsSub body "]]>".toList = false) := by
  intro fuel
  induction fuel with
  | zero =>
    intro s st out s2 tok h _
    rw [parseNextGo] at h
    exact absurd h (by simp)
  | succ fuel ih =>
    intro sIn st out s2 tok h hout
    rw [parseNextGo] at h
    split at h
    · simp only [Option.some.injEq, Prod.mk.injEq] at h
      rw [← h.1] at hout
      exact absurd hout (by simp)
    · simp only [] at h
      revert h
      generalize hsB :
        (if (sIn.prev.isEmpty && sIn.startsWithBOM) = true then sIn.advance 3 else sIn) = sB
      intro h
      cases st with
    | Start =>
      simp only [] at h
      cases htt : parseTokenType sB State.Start with
      | error e =>
        rw [htt] at h
        simp only [Option.some.injEq, Prod.mk.injEq] at h
        rw [← h.1] at hout
        exact absurd hout (by simp)
      | ok p =>
        obtain ⟨tt, sT⟩ := p
        rw [htt] at h
        simp only [] at h
        cases tt with
        | XMLDecl =>
          simp only [] at h
          split at h
          · cases hpc : parseDeclaration sT with
            | error e =>
              rw [hpc] at h
              simp only [wrapResult, Option.some.injEq, Prod.mk.injEq] at h
              rw [← h.1] at hout
              exact absurd hout (by simp)
            | ok p =>
              obtain ⟨t2, s3⟩ := p
              rw [hpc] at h
              simp only [wrapResult, Option.some.injEq, Prod.mk.injEq] at h
              rw [← h.1] at hout
              simp only [Option.some.injEq, Except.ok.injEq] at hout
              subst hout
              obtain ⟨a, b, c, d, hsh⟩ := parseDeclarationImpl_ok_shape (parseDeclaration_ok hpc)
              subst hsh
              exact ⟨fun _ _ h2 => by simp at h2, fun _ h2 => by simp at h2⟩
          · simp only [Option.some.injEq, Prod.mk.injEq] at h
            rw [← h.1] at hout
            exact absurd hout (by simp)
        | Comment =>
          simp only [] at h
          cases hpc : parseComment sT with
          | error e =>
            rw [hpc] at h
            simp only [wrapResult, Option.some.injEq, Prod.mk.injEq] at h
            rw [← h.1] at hout
            exact absurd hout (by simp)
          | ok p =>
            obtain ⟨t2, s3⟩ := p
            rw [hpc] at h
            simp only [wrapResult, Option.some.injEq, Prod.mk.injEq] at h
            rw [← h.1] at hout
            simp only [Option.some.injEq, Except.ok.injEq] at hout
            subst hout
            obtain ⟨body, span, hsh, hnodd, hnend⟩ :=
              parseCommentImpl_ok_shape (parseComment_ok hpc)
            subst hsh
            refine ⟨?_, fun _ h2 => by simp at h2⟩
            intro body2 span2 h2
            simp only [Token.Comment.injEq] at h2
            obtain ⟨hb, -⟩ := h2
            subst hb
            exact ⟨hnodd, hnend⟩
        | PI =>
          simp only [] at h
          cases hpc : parsePi sT with
          | error e =>
            rw [hpc] at h
            simp only [wrapResult, Option.some.injEq, Prod.mk.injEq] at h
            rw [← h.1] at hout
            exact absurd hout (by simp)
          | ok p =>
            obtain ⟨t2, s3⟩ := p
            rw [hpc] at h
            simp only [wrapResult, Option.some.injEq, Prod.mk.injEq] at h
            rw [← h.1] at hout
            simp only [Option.some.injEq, Except.ok.injEq] at hout
            subst hout
            obtain ⟨a, b, c, hsh⟩ := parsePiImpl_ok_shape (parsePi_ok hpc)
            subst hsh
            exact ⟨fun _ _ h2 => by simp at h2, fun _ h2 => by simp at h2⟩
        | DoctypeDecl =>
          simp only [] at h
          cases hpc : parseDoctype sT with
          | error e =>
            rw [hpc] at h
            simp only [wrapResult, Option.some.injEq, Prod.mk.injEq] at h
            rw [← h.1] at hout
            exact absurd hout (by simp)
          | ok p =>
            obtain ⟨t2, s3⟩ := p
            rw [hpc] at h
            simp only [wrapResult, Option.some.injEq, Prod.mk.injEq] at h
            rw [← h.1] at hout
            simp only [Option.some.injEq, Except.ok.injEq] at hout
            subst hout
            rcases parseDoctypeImpl_ok_shape (parseDoctype_ok hpc) with
              ⟨a, b, c, hsh⟩ | ⟨a, b, c, hsh⟩ <;>
              (subst hsh
               exact ⟨fun _ _ h2 => by simp at h2, fun _ h2 => by simp at h2⟩)
        | ElementDecl =>
          simp only [Option.some.injEq, Prod.mk.injEq] at h
          rw [← h.1] at hout
          exact absurd hout (by simp)
        | AttlistDecl =>
          simp only [Option.some.injEq, Prod.mk.injEq] at h
          rw [← h.1] at hout
          exact absurd hout (by simp)
        | EntityDecl =>
          simp only [Option.some.injEq, Prod.mk.injEq] at h
          rw [← h.1] at hout
          exact absurd hout (by simp)
        | NotationDecl =>
          simp only [Option.some.injEq, Prod.mk.injEq] at h
          rw [← h.1] at hout
          exact absurd hout (by simp)
        | DoctypeEnd =>
          simp only [Option.some.injEq, Prod.mk.injEq] at h
          rw [← h.1] at hout
          exact absurd hout (by simp)
        | ElementStart =>
          simp only [] at h
          cases hpc : parseElementStart sT with
          | error e =>
            rw [hpc] at h
            simp only [wrapResult, Option.some.injEq, Prod.mk.injEq] at h
            rw [← h.1] at hout
            exact absurd hout (by simp)
          | ok p =>
            obtain ⟨t2, s3⟩ := p
            rw [hpc] at h
            simp only [wrapResult, Option.some.injEq, Prod.mk.injEq] at h
            rw [← h.1] at hout
            simp only [Option.some.injEq, Except.ok.injEq] at hout
            subst hout
            obtain ⟨a, b, c, hsh⟩ := parseElementStartImpl_ok_shape (parseElementStart_ok hpc)
            subst hsh
            exact ⟨fun _ _ h2 => by simp at h2, fun _ h2 => by simp at h2⟩
        | ElementClose =>
          simp only [Option.some.injEq, Prod.mk.injEq] at h
          rw [← h.1] at hout
          exact absurd hout (by simp)
        | Attribute =>
          simp only [Option.some.injEq, Prod.mk.injEq] at h
          rw [← h.1] at hout
          exact absurd hout (by simp)
        | CDSect =>
          simp only [Option.some.injEq, Prod.mk.injEq] at h
          rw [← h.1] at hout
          exact absurd hout (by simp)
        | Whitespace =>
          simp only [] at h
          exact ih sT.skipSpaces State.Start out s2 tok h hout
        | CharData =>
          simp only [Option.some.injEq, Prod.mk.injEq] at h
          rw [← h.1] at hout
          exact absurd hout (by simp)
        | Unknown =>
          simp only [Option.some.injEq, Prod.mk.injEq] at h
          rw [← h.1] at hout
          exact absurd hout (by simp)
    | Dtd =>
      simp only [] at h
      cases htt : parseTokenType sB State.Dtd with
      | error e =>
        rw [htt] at h
        simp only [Option.some.injEq, Prod.mk.injEq] at h
        rw [← h.1] at hout
        exact absurd hout (by simp)
      | ok p =>
        obtain ⟨tt, sT⟩ := p
        rw [htt] at h
        simp only [] at h
        cases tt with
        | XMLDecl =>
          simp only [Option.some.injEq, Prod.mk.injEq] at h
          rw [← h.1] at hout
          exact absurd hout (by simp)
        | Comment =>
          simp only [] at h
          cases hpc : parseComment sT with
          | error e =>
            rw [hpc] at h
            simp only [wrapResult, Option.some.injEq, Prod.mk.injEq] at h
            rw [← h.1] at hout
            exact absurd hout (by simp)
          | ok p =>
            obtain ⟨t2, s3⟩ := p
            rw [hpc] at h
            simp only [wrapResult, Option.some.injEq, Prod.mk.injEq] at h
            rw [← h.1] at hout
            simp only [Option.some.injEq, Except.ok.injEq] at hout
            subst hout
            obtain ⟨body, span, hsh, hnodd, hnend⟩ :=
              parseCommentImpl_ok_shape (parseComment_ok hpc)
            subst hsh
            refine ⟨?_, fun _ h2 => by simp at h2⟩
            intro body2 span2 h2
            simp only [Token.Comment.injEq] at h2
            obtain ⟨hb, -⟩ := h2
            subst hb
            exact ⟨hnodd, hnend⟩
        | PI =>
          simp only [] at h
          cases hpc : parsePi sT with
          | error e =>
            rw [hpc] at h
            simp only [wrapResult, Option.some.injEq, Prod.mk.injEq] at h
            rw [← h.1] at hout
            exact absurd hout (by simp)
          | ok p =>
            obtain ⟨t2, s3⟩ := p
            rw [hpc] at h
            simp only [wrapResult, Option.some.injEq, Prod.mk.injEq] at h
            rw [← h.1] at hout
            simp only [Option.some.injEq, Except.ok.injEq] at hout
            subst hout
            obtain ⟨a, b, c, hsh⟩ := parsePiImpl_ok_shape (parsePi_ok hpc)
            subst hsh
            exact ⟨fun _ _ h2 => by simp at h2, fun _ h2 => by simp at h2⟩
        | DoctypeDecl =>
          simp only [Option.some.injEq, Prod.mk.injEq] at h
          rw [← h.1] at hout
          exact absurd hout (by simp)
        | ElementDecl =>
          simp only [] at h
          cases hcd : consumeDecl sT with
          | error e =>
            rw [hcd] at h
            simp only [Option.some.injEq, Prod.mk.injEq] at h
            rw [← h.1] at hout
            exact absurd hout (by simp)
          | ok sD =>
            rw [hcd] at h
            simp only [] at h
            exact ih sD State.Dtd out s2 tok h hout
        | AttlistDecl =>
          simp only [] at h
          cases hcd : consumeDecl sT with
          | error e =>
            rw [hcd] at h
            simp only [Option.some.injEq, Prod.mk.injEq] at h
            rw [← h.1] at hout
            exact absurd hout (by simp)
          | ok sD =>
            rw [hcd] at h
            simp only [] at h
            exact ih sD State.Dtd out s2 tok h hout
        | EntityDecl =>
          simp only [] at h
          cases hpc : parseEntityDecl sT with
          | error e =>
            rw [hpc] at h
            simp only [wrapResult, Option.some.injEq, Prod.mk.injEq] at h
            rw [← h.1] at hout
            exact absurd hout (by simp)
          | ok p =>
            obtain ⟨t2, s3⟩ := p
            rw [hpc] at h
            simp only [wrapResult, Option.some.injEq, Prod.mk.injEq] at h
            rw [← h.1] at hout
            simp only [Option.some.injEq, Except.ok.injEq] at hout
            subst hout
            obtain ⟨a, b, c, hsh⟩ := parseEntityDeclImpl_ok_shape (parseEntityDecl_ok hpc)
            subst hsh
            exact ⟨fun _ _ h2 => by simp at h2, fun _ h2 => by simp at h2⟩
        | NotationDecl =>
          simp only [] at h
          cases hcd : consumeDecl sT with
          | error e =>
            rw [hcd] at h
            simp only [Option.some.injEq, Prod.mk.injEq] at h
            rw [← h.1] at hout
            exact absurd hout (by simp)
          | ok sD =>
            rw [hcd] at h
            simp only [] at h
            exact ih sD State.Dtd out s2 tok h hout
        | DoctypeEnd =>
          simp only [Option.some.injEq, Prod.mk.injEq] at h
          rw [← h.1] at hout
          simp only [Option.some.injEq, Except.ok.injEq] at hout
          subst hout
          exact ⟨fun _ _ h2 => by simp at h2, fun _ h2 => by simp at h2⟩
        | ElementStart =>
          simp only [Option.some.injEq, Prod.mk.injEq] at h
          rw [← h.1] at hout
          exact absurd hout (by simp)
        | ElementClose =>
          simp only [Option.some.injEq, Prod.mk.injEq] at h
          rw [← h.1] at hout
          exact absurd hout (by simp)
        | Attribute =>
          simp only [Option.some.injEq, Prod.mk.injEq] at h
          rw [← h.1] at hout
          exact absurd hout (by simp)
        | CDSect =>
          simp only [Option.some.injEq, Prod.mk.injEq] at h
          rw [← h.1] at hout
          exact absurd hout (by simp)
        | Whitespace =>
          simp only [] at h
          exact ih sT.skipSpaces State.Dtd out s2 tok h hout
        | CharData =>
          simp only [Option.some.injEq, Prod.mk.injEq] at h
          rw [← h.1] at hout
          exact absurd hout (by simp)
        | Unknown =>
          simp only [Option.some.injEq, Prod.mk.injEq] at h
          rw [← h.1] at hout
          exact absurd hout (by simp)
    | AfterDtd =>
      simp only [] at h
      cases htt : parseTokenType sB State.AfterDtd with
      | error e =>
        rw [htt] at h
        simp only [Option.some.injEq, Prod.mk.injEq] at h
        rw [← h.1] at hout
        exact absurd hout (by simp)
      | ok p =>
        obtain ⟨tt, sT⟩ := p
        rw [htt] at h
        simp only [] at h
        cases tt with
        | XMLDecl =>
          simp only [Option.some.injEq, Prod.mk.injEq] at h
          rw [← h.1] at hout
          exact absurd hout (by simp)
        | Comment =>
          simp only [] at h
          cases hpc : parseComment sT with
          | error e =>
            rw [hpc] at h
            simp only [wrapResult, Option.some.injEq, Prod.mk.injEq] at h
            rw [← h.1] at hout
            exact absurd hout (by simp)
          | ok p =>
            obtain ⟨t2, s3⟩ := p
            rw [hpc] at h
            simp only [wrapResult, Option.some.injEq, Prod.mk.injEq] at h
            rw [← h.1] at hout
            simp only [Option.some.injEq, Except.ok.injEq] at hout
            subst hout
            obtain ⟨body, span, hsh, hnodd, hnend⟩ :=
              parseCommentImpl_ok_shape (parseComment_ok hpc)
            subst hsh
            refine ⟨?_, fun _ h2 => by simp at h2⟩
            intro body2 span2 h2
            simp only [Token.Comment.injEq] at h2
            obtain ⟨hb, -⟩ := h2
            subst hb
            exact ⟨hnodd, hnend⟩
        | PI =>
          simp only [] at h
          cases hpc : parsePi sT with
          | error e =>
            rw [hpc] at h
            simp only [wrapResult, Option.some.injEq, Prod.mk.injEq] at h
            rw [← h.1] at hout
            exact absurd hout (by simp)
          | ok p =>
            obtain ⟨t2, s3⟩ := p
            rw [hpc] at h
            simp only [wrapResult, Option.some.injEq, Prod.mk.injEq] at h
            rw [← h.1] at hout
            simp only [Option.some.injEq, Except.ok.injEq] at hout
            subst hout
            obtain ⟨a, b, c, hsh⟩ := parsePiImpl_ok_shape (parsePi_ok hpc)
            subst hsh
            exact ⟨fun _ _ h2 => by simp at h2, fun _ h2 => by simp at h2⟩
        | DoctypeDecl =>
          simp only [Option.some.injEq, Prod.mk.injEq] at h
          rw [← h.1] at hout
          exact absurd hout (by simp)
        | ElementDecl =>
          simp only [Option.some.injEq, Prod.mk.injEq] at h
          rw [← h.1] at hout
          exact absurd hout (by simp)
        | AttlistDecl =>
          simp only [Option.some.injEq, Prod.mk.injEq] at h
          rw [← h.1] at hout
          exact absurd hout (by simp)
        | EntityDecl =>
          simp only [Option.some.injEq, Prod.mk.injEq] at h
          rw [← h.1] at hout
          exact absurd hout (by simp)
        | NotationDecl =>
          simp only [Option.some.injEq, Prod.mk.injEq] at h
          rw [← h.1] at hout
          exact absurd hout (by simp)
        | DoctypeEnd =>
          simp only [Option.some.injEq, Prod.mk.injEq] at h
          rw [← h.1] at hout
          exact absurd hout (by simp)
        | ElementStart =>
          simp only [] at h
          cases hpc : parseElementStart sT with
          | error e =>
            rw [hpc] at h
            simp only [wrapResult, Option.some.injEq, Prod.mk.injEq] at h
            rw [← h.1] at hout
            exact absurd hout (by simp)
          | ok p =>
            obtain ⟨t2, s3⟩ := p
            rw [hpc] at h
            simp only [wrapResult, Option.some.injEq, Prod.mk.injEq] at h
            rw [← h.1] at hout
            simp only [Option.some.injEq, Except.ok.injEq] at hout
            subst hout
            obtain ⟨a, b, c, hsh⟩ := parseElementStartImpl_ok_shape (parseElementStart_ok hpc)
            subst hsh
            exact ⟨fun _ _ h2 => by simp at h2, fun _ h2 => by simp at h2⟩
        | ElementClose =>
          simp only [Option.some.injEq, Prod.mk.injEq] at h
          rw [← h.1] at hout
          exact absurd hout (by simp)
        | Attribute =>
          simp only [Option.some.injEq, Prod.mk.injEq] at h
          rw [← h.1] at hout
          exact absurd hout (by simp)
        | CDSect =>
          simp only [Option.some.injEq, Prod.mk.injEq] at h
          rw [← h.1] at hout
          exact absurd hout (by simp)
        | Whitespace =>
          simp only [] at h
          exact ih sT.skipSpaces State.AfterDtd out s2 tok h hout
        | CharData =>
          simp only [Option.some.injEq, Prod.mk.injEq] at h
          rw [← h.1] at hout
          exact absurd hout (by simp)
        | Unknown =>
          simp only [Option.some.injEq, Prod.mk.injEq] at h
          rw [← h.1] at hout
          exact absurd hout (by simp)
    | Elements =>
      simp only [] at h
      cases htt : parseTokenType sB State.Elements with
      | error e =>
        rw [htt] at h
        simp only [Option.some.injEq, Prod.mk.injEq] at h
        rw [← h.1] at hout
        exact absurd hout (by simp)
      | ok p =>
        obtain ⟨tt, sT⟩ := p
        rw [htt] at h
        simp only [] at h
        cases tt with
        | XMLDecl =>
          simp only [Option.some.injEq, Prod.mk.injEq] at h
          rw [← h.1] at hout
          exact absurd hout (by simp)
        | Comment =>
          simp only [] at h
          cases hpc : parseComment sT with
          | error e =>
            rw [hpc] at h
            simp only [wrapResult, Option.some.injEq, Prod.mk.injEq] at h
            rw [← h.1] at hout
            exact absurd hout (by simp)
          | ok p =>
            obtain ⟨t2, s3⟩ := p
            rw [hpc] at h
            simp only [wrapResult, Option.some.injEq, Prod.mk.injEq] at h
            rw [← h.1] at hout
            simp only [Option.some.injEq, Except.ok.injEq] at hout
            subst hout
            obtain ⟨body, span, hsh, hnodd, hnend⟩ :=
              parseCommentImpl_ok_shape (parseComment_ok hpc)
            subst hsh
            refine ⟨?_, fun _ h2 => by simp at h2⟩
            intro body2 span2 h2
            simp only [Token.Comment.injEq] at h2
            obtain ⟨hb, -⟩ := h2
            subst hb
            exact ⟨hnodd, hnend⟩
        | PI =>
          simp only [] at h
          cases hpc : parsePi sT with
          | error e =>
            rw [hpc] at h
            simp only [wrapResult, Option.some.injEq, Prod.mk.injEq] at h
            rw [← h.1] at hout
            exact absurd hout (by simp)
          | ok p =>
            obtain ⟨t2, s3⟩ := p
            rw [hpc] at h
            simp only [wrapResult, Option.some.injEq, Prod.mk.injEq] at h
            rw [← h.1] at hout
            simp only [Option.some.injEq, Except.ok.injEq] at hout
            subst hout
            obtain ⟨a, b, c, hsh⟩ := parsePiImpl_ok_shape (parsePi_ok hpc)
            subst hsh
            exact ⟨fun _ _ h2 => by simp at h2, fun _ h2 => by simp at h2⟩
        | DoctypeDecl =>
          simp only [Option.some.injEq, Prod.mk.injEq] at h
          rw [← h.1] at hout
          exact absurd hout (by simp)
        | ElementDecl =>
          simp only [Option.some.injEq, Prod.mk.injEq] at h
          rw [← h.1] at hout
          exact absurd hout (by simp)
        | AttlistDecl =>
          simp only [Option.some.injEq, Prod.mk.injEq] at h
          rw [← h.1] at hout
          exact absurd hout (by simp)
        | EntityDecl =>
          simp only [Option.some.injEq, Prod.mk.injEq] at h
          rw [← h.1] at hout
          exact absurd hout (by simp)
        | NotationDecl =>
          simp only [Option.some.injEq, Prod.mk.injEq] at h
          rw [← h.1] at hout
          exact absurd hout (by simp)
        | DoctypeEnd =>
          simp only [Option.some.injEq, Prod.mk.injEq] at h
          rw [← h.1] at hout
          exact absurd hout (by simp)
        | ElementStart =>
          simp only [] at h
          cases hpc : parseElementStart sT with
          | error e =>
            rw [hpc] at h
            simp only [wrapResult, Option.some.injEq, Prod.mk.injEq] at h
            rw [← h.1] at hout
            exact absurd hout (by simp)
          | ok p =>
            obtain ⟨t2, s3⟩ := p
            rw [hpc] at h
            simp only [wrapResult, Option.some.injEq, Prod.mk.injEq] at h
            rw [← h.1] at hout
            simp only [Option.some.injEq, Except.ok.injEq] at hout
            subst hout
            obtain ⟨a, b, c, hsh⟩ := parseElementStartImpl_ok_shape (parseElementStart_ok hpc)
            subst hsh
            exact ⟨fun _ _ h2 => by simp at h2, fun _ h2 => by simp at h2⟩
        | ElementClose =>
          simp only [] at h
          cases hpc : parseCloseElement sT with
          | error e =>
            rw [hpc] at h
            simp only [wrapResult, Option.some.injEq, Prod.mk.injEq] at h
            rw [← h.1] at hout
            exact absurd hout (by simp)
          | ok p =>
            obtain ⟨t2, s3⟩ := p
            rw [hpc] at h
            simp only [wrapResult, Option.some.injEq, Prod.mk.injEq] at h
            rw [← h.1] at hout
            simp only [Option.some.injEq, Except.ok.injEq] at hout
            subst hout
            obtain ⟨a, b, hsh⟩ := parseCloseElementImpl_ok_shape (parseCloseElement_ok hpc)
            subst hsh
            exact ⟨fun _ _ h2 => by simp at h2, fun _ h2 => by simp at h2⟩
        | Attribute =>
          simp only [Option.some.injEq, Prod.mk.injEq] at h
          rw [← h.1] at hout
          exact absurd hout (by simp)
        | CDSect =>
          simp only [] at h
          cases hpc : parseCdata sT with
          | error e =>
            rw [hpc] at h
            simp only [wrapResult, Option.some.injEq, Prod.mk.injEq] at h
            rw [← h.1] at hout
            exact absurd hout (by simp)
          | ok p =>
            obtain ⟨t2, s3⟩ := p
            rw [hpc] at h
            simp only [wrapResult, Option.some.injEq, Prod.mk.injEq] at h
            rw [← h.1] at hout
            simp only [Option.some.injEq, Except.ok.injEq] at hout
            subst hout
            obtain ⟨a, b, hsh⟩ := parseCdataImpl_ok_shape (parseCdata_ok hpc)
            subst hsh
            exact ⟨fun _ _ h2 => by simp at h2, fun _ h2 => by simp at h2⟩
        | Whitespace =>
          simp only [Option.some.injEq, Prod.mk.injEq] at h
          rw [← h.1] at hout
          exact absurd hout (by simp)
        | CharData =>
          simp only [] at h
          cases hpc : parseText sT with
          | error e =>
            rw [hpc] at h
            simp only [wrapResult, Option.some.injEq, Prod.mk.injEq] at h
            rw [← h.1] at hout
            exact absurd hout (by simp)
          | ok p =>
            obtain ⟨t2, s3⟩ := p
            rw [hpc] at h
            simp only [wrapResult, Option.some.injEq, Prod.mk.injEq] at h
            rw [← h.1] at hout
            simp only [Option.some.injEq, Except.ok.injEq] at hout
            subst hout
            obtain ⟨body, hsh, hnocd⟩ := parseTextImpl_ok_shape (parseText_ok hpc)
            subst hsh
            refine ⟨fun _ _ h2 => by simp at h2, ?_⟩
            intro body2 h2
            simp only [Token.Text.injEq] at h2
            subst h2
            exact hnocd
        | Unknown =>
          simp only [Option.some.injEq, Prod.mk.injEq] at h
          rw [← h.1] at hout
          exact absurd hout (by simp)
    | Attributes =>
      simp only [] at h
      cases hpa : parseAttribute sB with
      | ok p =>
        obtain ⟨t2, s3⟩ := p
        rw [hpa] at h
        simp only [Option.some.injEq, Prod.mk.injEq] at h
        rw [← h.1] at hout
        simp only [Option.some.injEq, Except.ok.injEq] at hout
        subst hout
        rcases parseAttribute_ok_shape hpa with ⟨a, b, c, d, hsh⟩ | ⟨a, b, hsh⟩ <;>
          (subst hsh
           exact ⟨fun _ _ h2 => by simp at h2, fun _ h2 => by simp at h2⟩)
      | error e =>
        rw [hpa] at h
        simp only [Option.some.injEq, Prod.mk.injEq] at h
        rw [← h.1] at hout
        exact absurd hout (by simp)
    | AfterElements =>
      simp only [] at h
      cases htt : parseTokenType sB State.AfterElements with
      | error e =>
        rw [htt] at h
        simp only [Option.some.injEq, Prod.mk.injEq] at h
        rw [← h.1] at hout
        exact absurd hout (by simp)
      | ok p =>
        obtain ⟨tt, sT⟩ := p
        rw [htt] at h
        simp only [] at h
        cases tt with
        | XMLDecl =>
          simp only [Option.some.injEq, Prod.mk.injEq] at h
          rw [← h.1] at hout
          exact absurd hout (by simp)
        | Comment =>
          simp only [] at h
          cases hpc : parseComment sT with
          | error e =>
            rw [hpc] at h
            simp only [wrapResult, Option.some.injEq, Prod.mk.injEq] at h
            rw [← h.1] at hout
            exact absurd hout (by simp)
          | ok p =>
            obtain ⟨t2, s3⟩ := p
            rw [hpc] at h
            simp only [wrapResult, Option.some.injEq, Prod.mk.injEq] at h
            rw [← h.1] at hout
            simp only [Option.some.injEq, Except.ok.injEq] at hout
            subst hout
            obtain ⟨body, span, hsh, hnodd, hnend⟩ :=
              parseCommentImpl_ok_shape (parseComment_ok hpc)
            subst hsh
            refine ⟨?_, fun _ h2 => by simp at h2⟩
            intro body2 span2 h2
            simp only [Token.Comment.injEq] at h2
            obtain ⟨hb, -⟩ := h2
            subst hb
            exact ⟨hnodd, hnend⟩
        | PI =>
          simp only [] at h
          cases hpc : parsePi sT with
          | error e =>
            rw [hpc] at h
            simp only [wrapResult, Option.some.injEq, Prod.mk.injEq] at h
            rw [← h.1] at hout
            exact absurd hout (by simp)
          | ok p =>
            obtain ⟨t2, s3⟩ := p
            rw [hpc] at h
            simp only [wrapResult, Option.some.injEq, Prod.mk.injEq] at h
            rw [← h.1] at hout
            simp only [Option.some.injEq, Except.ok.injEq] at hout
            subst hout
            obtain ⟨a, b, c, hsh⟩ := parsePiImpl_ok_shape (parsePi_ok hpc)
            subst hsh
            exact ⟨fun _ _ h2 => by simp at h2, fun _ h2 => by simp at h2⟩
        | DoctypeDecl =>
          simp only [Option.some.injEq, Prod.mk.injEq] at h
          rw [← h.1] at hout
          exact absurd hout (by simp)
        | ElementDecl =>
          simp only [Option.some.injEq, Prod.mk.injEq] at h
          rw [← h.1] at hout
          exact absurd hout (by simp)
        | AttlistDecl =>
          simp only [Option.some.injEq, Prod.mk.injEq] at h
          rw [← h.1] at hout
          exact absurd hout (by simp)
        | EntityDecl =>
          simp only [Option.some.injEq, Prod.mk.injEq] at h
          rw [← h.1] at hout
          exact absurd hout (by simp)
        | NotationDecl =>
          simp only [Option.some.injEq, Prod.mk.injEq] at h
          rw [← h.1] at hout
          exact absurd hout (by simp)
        | DoctypeEnd =>
          simp only [Option.some.injEq, Prod.mk.injEq] at h
          rw [← h.1] at hout
          exact absurd hout (by simp)
        | ElementStart =>
          simp only [Option.some.injEq, Prod.mk.injEq] at h
          rw [← h.1] at hout
          exact absurd hout (by simp)
        | ElementClose =>
          simp only [Option.some.injEq, Prod.mk.injEq] at h
          rw [← h.1] at hout
          exact absurd hout (by simp)
        | Attribute =>
          simp only [Option.some.injEq, Prod.mk.injEq] at h
          rw [← h.1] at hout
          exact absurd hout (by simp)
        | CDSect =>
          simp only [Option.some.injEq, Prod.mk.injEq] at h
          rw [← h.1] at hout
          exact absurd hout (by simp)
        | Whitespace =>
          simp only [] at h
          exact ih sT.skipSpaces State.AfterElements out s2 tok h hout
        | CharData =>
          simp only [Option.some.injEq, Prod.mk.injEq] at h
          rw [← h.1] at hout
          exact absurd hout (by simp)
        | Unknown =>
          simp only [Option.some.injEq, Prod.mk.injEq] at h
          rw [← h.1] at hout
          exact absurd hout (by simp)
    | End =>
      simp only [Option.some.injEq, Prod.mk.injEq] at h
      rw [← h.1] at hout
      exact absurd hout (by simp)

/-- Lift the token invariants through `Tokenizer.next`. -/
theorem pull_ok_shape {t : Tokenizer} {tok : Token}
    (h : t.next.1 = some (Except.ok tok)) :
    (∀ body span, tok = Token.Comment body span →
      containsSub body "--".toList = false ∧ body.getLast? ≠ some '-') ∧
    (∀ body, tok = Token.Text body → containsSub body "]]>".toList = false) := by
  by_cases hguard : (t.stream.atEnd || t.state == State.End) = true
  · rw [Tokenizer.next, if_pos hguard] at h
    exact absurd h (by simp)
  · rw [Tokenizer.next, if_neg hguard] at h
    simp only [] at h
    cases hr : (parseNextImpl t.stream t.state).1 with
    | none =>
      rw [hr] at h
      simp at h
    | some exc =>
      cases exc with
      | error e =>
        rw [hr] at h
        simp at h
      | ok tok2 =>
        rw [hr] at h
        simp only [Option.some.injEq, Except.ok.injEq] at h
        subst h
        rw [parseNextImpl] at hr
        cases hgo : parseNextGo (t.stream.rest.length + 1) t.stream t.state with
        | none =>
          rw [hgo] at hr
          simp at hr
        | some p =>
          obtain ⟨out, s2⟩ := p
          rw [hgo] at hr
          simp only [Option.getD_some] at hr
          exact parseNextGo_token_shape (t.stream.rest.length + 1) t.stream t.state
            out s2 tok2 hgo hr

/-- The `skip_chars` with the text predicate consumes an XML-valid `<`-free
prefix wholesale and stops at the `<`. -/
theorem skipCharsAux_text (b : List Char) : ∀ (pfx rest : List Char),
    (∀ x ∈ b, isXmlChar x = true) → '<' ∉ b →
    skipCharsAux (fun _ c => c != '<') pfx (b ++ '<' :: rest) =
      .ok (pfx ++ b, '<' :: rest) := by
  induction b with
  | nil =>
    intro pfx rest _ _
    rw [List.nil_append, skipCharsAux]
    rw [if_neg (by decide), if_neg (by decide)]
    simp
  | cons x b ih =>
    intro pfx rest hxml hne
    rw [List.cons_append, skipCharsAux]
    have hx : isXmlChar x = true := hxml x (List.mem_cons_self x b)
    have hxne : (x != '<') = true := by
      simp only [bne_iff_ne, ne_eq]
      intro hc
      exact hne (hc ▸ List.mem_cons_self x b)
    rw [if_neg (by simp [hx]), if_pos (by simp [hxne])]
    rw [ih (pfx ++ [x]) rest (fun y hy => hxml y (List.mem_cons_of_mem x hy))
      (fun hc => hne (List.mem_cons_of_mem x hc))]
    simp

/-- The `consume_chars` with the text predicate on `body ++ '<' :: rest`. -/
theorem consumeChars_text {s : Stream} {body rest2 : List Char}
    (hrest : s.rest = body ++ '<' :: rest2)
    (hxml : ∀ x ∈ body, isXmlChar x = true) (hne : '<' ∉ body) :
    s.consumeChars (fun _ c => c != '<') =
      .ok (body, ⟨s.prev ++ body, '<' :: rest2⟩) := by
  rw [Stream.consumeChars, Stream.skipChars, hrest,
    skipCharsAux_text body s.prev rest2 hxml hne]
  simp

/-- C3 (amended): every `Text` token the tokenizer emits has no `]]>` in
its body; and character data that is XML-valid, `<`-free and contains
`]]>` makes `parse_text` fail with an `InvalidToken(CharData)` error whose
cause is `InvalidCharacterData`.  (When the character data also holds a
non-XML char, the `NonXmlChar` error preempts this, see the
counterexample.) -/
theorem C3_text_invariant (text : List Char) (n : Nat) (body : List Char) :
    ((Tokenizer.fromChars text).pullAt n = some (Except.ok (Token.Text body)) →
      containsSub body "]]>".toList = false) ∧
    (∀ (s : Stream) (rest2 : List Char),
      s.rest = body ++ '<' :: rest2 →
      (∀ x ∈ body, isXmlChar x = true) →
      '<' ∉ body →
      containsSub body "]]>".toList = true →
      parseText s = .error (Error.InvalidToken TokenType.CharData s.genTextPos
        (some StreamError.invalidCharacterData))) := by
  constructor
  · intro h
    exact (pull_ok_shape h).2 body rfl
  · intro s rest2 hrest hxml hne hcd
    have himpl : parseTextImpl s = .error StreamError.invalidCharacterData := by
      rw [parseTextImpl]
      simp only [Bind.bind, Except.bind, consumeChars_text hrest hxml hne]
      rw [if_pos ⟨contains_gt_of_containsSub hcd, hcd⟩]
      simp [throw, throwThe, MonadExceptOf.throw]
    rw [parseText, himpl]

theorem C3_text_invariant_witness :
    (Tokenizer.fromChars "<a>b</a>".toList).pullAt 2 =
      some (Except.ok (Token.Text ['b'])) ∧
    containsSub ['b'] "]]>".toList = false ∧
    (Stream.mk "<a>".toList "x]]><".toList).rest = "x]]>".toList ++ '<' :: [] ∧
    parseText (Stream.mk "<a>".toList "x]]><".toList) =
      .error (Error.InvalidToken TokenType.CharData
        (Stream.mk "<a>".toList "x]]><".toList).genTextPos
        (some StreamError.invalidCharacterData)) :=
  ⟨rfl,
   (C3_text_invariant "<a>b</a>".toList 2 ['b']).1 rfl,
   by decide,
   (C3_text_invariant [] 0 "x]]>".toList).2 (Stream.mk "<a>".toList "x]]><".toList) []
     (by decide) (by decide) (by decide) (by decide)⟩

/-- C3's original wording is refuted: character data containing `]]>` can
instead fail with a `NonXmlChar` cause when a non-XML char precedes the
`]]>` — the cause is not `InvalidCharacterData`. -/
theorem C3_counterexample :
    containsSub ([Char.ofNat 0] ++ "]]>".toList) "]]>".toList = true ∧
    (Tokenizer.fromChars ("<a>".toList ++ [Char.ofNat 0] ++ "]]></a>".toList)).pullAt 2 =
      some (Except.error (Error.InvalidToken TokenType.CharData ⟨1, 4⟩
        (some (StreamError.nonXmlChar (Char.ofNat 0) ⟨1, 4⟩)))) ∧
    some (StreamError.nonXmlChar (Char.ofNat 0) ⟨1, 4⟩) ≠
      some StreamError.invalidCharacterData :=
  ⟨by decide, rfl, by decide⟩

/-- C4 (amended): every `Comment` token the tokenizer emits has a body
with no `--` and no trailing `-`; and every `parse_comment` failure is the
cause-less `InvalidToken(Comment, pos, None)` — the cause from the inner
parser is discarded, so no `InvalidCommentData` / `InvalidCommentEnd`
cause is ever surfaced. -/
theorem C4_comment_invariant (text : List Char) (n : Nat) (body span : List Char) :
    ((Tokenizer.fromChars text).pullAt n =
        some (Except.ok (Token.Comment body span)) →
      containsSub body "--".toList = false ∧ body.getLast? ≠ some '-') ∧
    (∀ (s : Stream) (e : Error), parseComment s = .error e →
      e = Error.InvalidToken TokenType.Comment (s.genTextPosBack 4) none) := by
  constructor
  · intro h
    exact (pull_ok_shape h).1 body span rfl
  · intro s e h
    rw [parseComment] at h
    split at h
    · exact absurd h (by simp)
    · simp only [Except.error.injEq] at h
      exact h.symm

theorem C4_comment_invariant_witness :
    (Tokenizer.fromChars "<!--ab-->".toList).pullAt 0 =
      some (Except.ok (Token.Comment "ab".toList "<!--ab-->".toList)) ∧
    (containsSub "ab".toList "--".toList = false ∧
      "ab".toList.getLast? ≠ some '-') ∧
    Error.InvalidToken TokenType.Comment
        ((Stream.mk "<!--".toList "ab--cd-->".toList).genTextPosBack 4) none =
      Error.InvalidToken TokenType.Comment
        ((Stream.mk "<!--".toList "ab--cd-->".toList).genTextPosBack 4) none :=
  ⟨rfl,
   (C4_comment_invariant "<!--ab-->".toList 0 "ab".toList "<!--ab-->".toList).1 rfl,
   (C4_comment_invariant [] 0 [] []).2 (Stream.mk "<!--".toList "ab--cd-->".toList)
     (Error.InvalidToken TokenType.Comment
       ((Stream.mk "<!--".toList "ab--cd-->".toList).genTextPosBack 4) none) rfl⟩

/-- C4's original wording is refuted: a comment body with `--` (and with a
trailing `-`) yields an error whose cause is `none` — neither an
`InvalidCommentData` nor an `InvalidCommentEnd` cause is reported. -/
theorem C4_counterexample :
    (Tokenizer.fromChars "<!-- --- -->".toList).pullAt 0 =
      some (Except.error (Error.InvalidToken TokenType.Comment ⟨1, 1⟩ none)) ∧
    (Error.InvalidToken TokenType.Comment ⟨1, 1⟩ none).cause = none ∧
    none ≠ some StreamError.invalidCommentData ∧
    none ≠ some StreamError.invalidCommentEnd :=
  ⟨rfl, rfl, by decide, by decide⟩

/-- C5 (code bug): in a state where an `ElementStart` lead-in is illegal,
the tokenizer emits `UnexpectedToken` — a variant outside the claimed
ten-variant error taxonomy (`UnknownToken` is reserved for unrecognized
lead-ins). -/
theorem C5_unexpected_token :
    (Tokenizer.fromChars "<a/><a/>".toList).pullAt 2 =
      some (Except.error (Error.UnexpectedToken TokenType.ElementStart ⟨1, 5⟩)) ∧
    (∀ pos, Error.UnexpectedToken TokenType.ElementStart ⟨1, 5⟩ ≠
      Error.UnknownToken pos) :=
  ⟨rfl, fun pos => by simp⟩

/-- C6 (code bug): an attribute may directly follow the previous
attribute's closing quote with no intervening space; the pull succeeds
with an `Attribute` token instead of failing with `InvalidSpace`. -/
theorem C6_no_space_required :
    (Tokenizer.fromChars "<c a='v'b='v'/>".toList).pullAt 2 =
      some (Except.ok (Token.Attribute [] ['b'] ['v'] "b='v'".toList)) :=
  rfl

theorem qnameLoop_splitter (r : List Char) : ∀ (consumed : List Char) (sp : Option Nat),
    SplitInv consumed sp →
    SplitInv (qnameLoop consumed sp r).1 (qnameLoop consumed sp r).2.1 := by
  induction r with
  | nil => intro consumed sp h; simpa [qnameLoop] using h
  | cons c rest ih =>
    intro consumed sp h
    by_cases h1 : c == ':'
    · simp only [qnameLoop, if_pos h1]
      refine ih (consumed ++ [c]) (some consumed.length) ?_
      have hc : c = ':' := by simpa using h1
      subst hc
      have ht : (consumed ++ [':']).take consumed.length = consumed :=
        List.take_left consumed [':']
      have hd : (consumed ++ [':']).drop (consumed.length + 1) = [] := by
        rw [List.drop_eq_nil_of_le]
        simp
      exact ⟨by rw [ht, hd], by rw [hd]; simp⟩
    · by_cases h2 : isXmlName c
      · simp only [qnameLoop, if_neg h1, if_pos h2]
        refine ih (consumed ++ [c]) sp ?_
        have hcne : c ≠ ':' := by simpa using h1
        cases sp with
        | none =>
          simp only [SplitInv] at h ⊢
          simp only [List.mem_append, List.mem_singleton]
          rintro (hmem | hmem)
          · exact h hmem
          · exact hcne hmem.symm
        | some k =>
          obtain ⟨hrec, hno⟩ := h
          have hk : k < consumed.length := by
            by_contra hk
            push_neg at hk
            rw [List.take_of_length_le hk, List.drop_eq_nil_of_le (by omega)] at hrec
            have := congrArg List.length hrec
            simp at this
          constructor
          · rw [List.take_append_of_le_length (by omega),
              List.drop_append_of_le_length (by omega)]
            rw [show (':' :: (List.drop (k + 1) consumed ++ [c])) =
                (':' :: List.drop (k + 1) consumed) ++ [c] from rfl,
              ← List.append_assoc, hrec]
          · rw [List.drop_append_of_le_length (by omega)]
            simp only [List.mem_append, List.mem_singleton]
            rintro (hmem | hmem)
            · exact hno hmem
            · exact hcne hmem.symm
      · simp only [qnameLoop, if_neg h1, if_neg h2]
        exact h

/-- C7 (amended): `consume_qname` splits the consumed run at the LAST
colon: colons are permitted inside the prefix, an empty prefix is
permitted, no `NameStartChar` requirement is enforced, and the only error
is `InvalidName` for an empty local part. -/
theorem C7_qname_behavior (s : Stream) :
    (∀ pfx loc s2, s.consumeQname = .ok ((pfx, loc), s2) →
      loc ≠ [] ∧ ':' ∉ loc ∧
      ((pfx = [] ∧ s2.prev = s.prev ++ loc) ∨
        s2.prev = s.prev ++ (pfx ++ ':' :: loc))) ∧
    (∀ e, s.consumeQname = .error e → e = StreamError.invalidName) := by
  have hinv := qnameLoop_splitter s.rest [] none (by simp [SplitInv])
  constructor
  · intro pfx loc s2 h
    simp only [Stream.consumeQname] at h
    split at h
    · rename_i k hk
      rw [hk] at hinv
      simp only [SplitInv] at hinv
      obtain ⟨hrec, hno⟩ := hinv
      split at h
      · exact absurd h (by simp)
      · rename_i hloc
        simp only [Except.ok.injEq, Prod.mk.injEq] at h
        obtain ⟨⟨hpe, hle⟩, hse⟩ := h
        refine ⟨?_, ?_, Or.inr ?_⟩
        · intro hnil
          exact hloc (by rw [hle, hnil]; rfl)
        · rw [← hle]
          exact hno
        · rw [← hse, ← hpe, ← hle, hrec]
    · rename_i hk
      rw [hk] at hinv
      simp only [SplitInv] at hinv
      split at h
      · exact absurd h (by simp)
      · rename_i hloc
        simp only [Except.ok.injEq, Prod.mk.injEq] at h
        obtain ⟨⟨hpe, hle⟩, hse⟩ := h
        refine ⟨?_, ?_, Or.inl ⟨hpe.symm, ?_⟩⟩
        · intro hnil
          exact hloc (by rw [hle, hnil]; rfl)
        · rw [← hle]
          exact hinv
        · rw [← hse, ← hle]
  · intro e h
    simp only [Stream.consumeQname] at h
    split at h <;> split at h <;> simp_all

theorem C7_qname_behavior_witness :
    (Stream.fromChars "a:b ".toList).consumeQname =
      .ok ((['a'], ['b']), ⟨"a:b".toList, [' ']⟩) ∧
    (['b'] ≠ [] ∧ ':' ∉ ['b'] ∧
      ((['a'] = [] ∧ (⟨"a:b".toList, [' ']⟩ : Stream).prev =
          (Stream.fromChars "a:b ".toList).prev ++ ['b']) ∨
        (⟨"a:b".toList, [' ']⟩ : Stream).prev =
          (Stream.fromChars "a:b ".toList).prev ++ (['a'] ++ ':' :: ['b']))) ∧
    StreamError.invalidName = StreamError.invalidName :=
  ⟨rfl,
   (C7_qname_behavior (Stream.fromChars "a:b ".toList)).1 ['a'] ['b']
     ⟨"a:b".toList, [' ']⟩ rfl,
   (C7_qname_behavior (Stream.fromChars "a: ".toList)).2 StreamError.invalidName rfl⟩

/-- C7's original wording is refuted: an empty prefix (`:a`), two colons
(`a:b:c`) and a non-NameStartChar start (`0`) are all accepted by
`consume_qname`. -/
theorem C7_counterexample :
    (Stream.fromChars ":a".toList).consumeQname =
      .ok (([], ['a']), ⟨":a".toList, []⟩) ∧
    (Stream.fromChars "a:b:c ".toList).consumeQname =
      .ok ((['a', ':', 'b'], ['c']), ⟨"a:b:c".toList, [' ']⟩) ∧
    (Stream.fromChars "0 ".toList).consumeQname =
      .ok (([], ['0']), ⟨['0'], [' ']⟩) :=
  ⟨rfl, rfl, rfl⟩

/-- The `calc_curr_row` counts the newline bytes. -/
theorem calcCurrRow_count (bytes : List Nat) :
    calcCurrRow bytes = 1 + bytes.count 0x0A := by
  rw [calcCurrRow]
  suffices h : ∀ a, bytes.foldl (fun row c => if c == 0x0A then row + 1 else row) a =
      a + bytes.count 0x0A from h 1
  induction bytes with
  | nil => intro a; simp
  | cons b rest ih =>
    intro a
    rw [List.foldl_cons, List.count_cons]
    by_cases hb : b = 0x0A
    · subst hb
      simp only [if_pos (by rfl : (0x0A == 0x0A) = true), ih]
      omega
    · rw [if_neg (by simpa using hb), ih]
      simp [hb]

/-- The `calc_curr_col` counts the chars before the previous newline. -/
theorem calcCurrColAux_takeWhile (l : List Char) :
    calcCurrColAux l = 1 + (l.takeWhile (fun c => c != '\n')).length := by
  induction l with
  | nil => rfl
  | cons c rest ih =>
    rw [calcCurrColAux, List.takeWhile_cons]
    by_cases hc : c = '\n'
    · subst hc
      simp
    · rw [if_neg (by simpa using hc), if_pos (by simpa using hc), ih]
      simp only [List.length_cons]
      omega

/-- A char's UTF-8 encoding has exactly `utf8Size` bytes. -/
theorem utf8Bytes_length (c : Char) : (utf8Bytes c).length = c.utf8Size := by
  simp only [utf8Bytes]
  have h3 : c.val.toNat = c.toNat := rfl
  by_cases h1 : c.toNat < 0x80
  · rw [if_pos h1]
    simp [utf8Size_eq_one_of_ascii h1]
  · rw [if_neg h1]
    have hv1 : ¬ (c.val ≤ (0x7F : UInt32)) := by
      show ¬ c.val.toNat ≤ (0x7F : UInt32).toNat
      have he : ((0x7F : UInt32)).toNat = 127 := rfl
      omega
    by_cases h2 : c.toNat < 0x800
    · rw [if_pos h2]
      have hv2 : c.val ≤ (0x7FF : UInt32) := by
        show c.val.toNat ≤ (0x7FF : UInt32).toNat
        have he : ((0x7FF : UInt32)).toNat = 2047 := rfl
        omega
      simp [Char.utf8Size, hv1, hv2]
    · rw [if_neg h2]
      have hv2 : ¬ (c.val ≤ (0x7FF : UInt32)) := by
        show ¬ c.val.toNat ≤ (0x7FF : UInt32).toNat
        have he : ((0x7FF : UInt32)).toNat = 2047 := rfl
        omega
      by_cases h4 : c.toNat < 0x10000
      · rw [if_pos h4]
        have hv3 : c.val ≤ (0xFFFF : UInt32) := by
          show c.val.toNat ≤ (0xFFFF : UInt32).toNat
          have he : ((0xFFFF : UInt32)).toNat = 65535 := rfl
          omega
        simp [Char.utf8Size, hv1, hv2, hv3]
      · rw [if_neg h4]
        have hv3 : ¬ (c.val ≤ (0xFFFF : UInt32)) := by
          show ¬ c.val.toNat ≤ (0xFFFF : UInt32).toNat
          have he : ((0xFFFF : UInt32)).toNat = 65535 := rfl
          omega
        simp [Char.utf8Size, hv1, hv2, hv3]

/-- The `utf8Len` of an appended list. -/
theorem utf8Len_append (a b : List Char) :
    utf8Len (a ++ b) = utf8Len a + utf8Len b := by
  simp [utf8Len]

/-- A prefix never has more bytes than the whole text. -/
theorem utf8Len_take_le (text : List Char) (k : Nat) :
    utf8Len (text.take k) ≤ utf8Len text := by
  conv_rhs => rw [← List.take_append_drop k text]
  rw [utf8Len_append]
  omega

/-- On a char boundary, `takeBytes` recovers the char prefix. -/
theorem takeBytes_boundary : ∀ (text : List Char) (k : Nat),
    takeBytes text (utf8Len (text.take k)) = text.take k := by
  intro text
  induction text with
  | nil => intro k; simp [takeBytes]
  | cons c rest ih =>
    intro k
    cases k with
    | zero =>
      rw [List.take_zero]
      show takeBytes (c :: rest) (utf8Len []) = []
      have hpos := utf8Size_pos c
      rw [takeBytes, if_neg (by simp [utf8Len]; omega)]
    | succ k =>
      rw [List.take_succ_cons]
      have hlen : utf8Len (c :: rest.take k) = c.utf8Size + utf8Len (rest.take k) := by
        simp [utf8Len]
      rw [hlen, takeBytes, if_pos (by omega)]
      have hsub : c.utf8Size + utf8Len (rest.take k) - c.utf8Size =
          utf8Len (rest.take k) := by omega
      rw [hsub, ih k]

/-- On a char boundary, taking bytes from the encoding is encoding the
char prefix. -/
theorem utf8Encode_take_boundary : ∀ (text : List Char) (k : Nat),
    (utf8Encode text).take (utf8Len (text.take k)) = utf8Encode (text.take k) := by
  intro text
  induction text with
  | nil => intro k; simp [utf8Encode]
  | cons c rest ih =>
    intro k
    cases k with
    | zero => simp [utf8Len, utf8Encode]
    | succ k =>
      rw [List.take_succ_cons]
      have hlen : utf8Len (c :: rest.take k) = c.utf8Size + utf8Len (rest.take k) := by
        simp [utf8Len]
      have henc : utf8Encode (c :: rest) = utf8Bytes c ++ utf8Encode rest := by
        simp [utf8Encode]
      have henc2 : utf8Encode (c :: rest.take k) =
          utf8Bytes c ++ utf8Encode (rest.take k) := by
        simp [utf8Encode]
      rw [hlen, henc, henc2, List.take_append_eq_append_take,
        List.take_of_length_le (by rw [utf8Bytes_length]; omega),
        utf8Bytes_length]
      congr 1
      have hsub : c.utf8Size + utf8Len (rest.take k) - c.utf8Size =
          utf8Len (rest.take k) := by omega
      rw [hsub, ih k]

/-- C9: `gen_text_pos_from` computes the 1-based row as one plus the count
of newline bytes in `text[..pos]` and the 1-based column as one plus the
number of code points between `pos` and the last preceding newline (or the
start); a position past the end is clamped to the end. -/
theorem C9_gen_text_pos (text : List Char) (pos : Nat)
    (h : (∃ k, utf8Len (text.take k) = pos) ∨ utf8Len text ≤ pos) :
    genTextPosFrom text pos =
      ⟨1 + ((utf8Encode text).take (min pos (utf8Len text))).count 0x0A,
        1 + ((takeBytes text (min pos (utf8Len text))).reverse.takeWhile
          (fun c => c != '\n')).length⟩ ∧
    (utf8Len text ≤ pos → genTextPosFrom text pos = genTextPosFrom text (utf8Len text)) := by
  obtain ⟨k, hk⟩ : ∃ k, utf8Len (text.take k) = min pos (utf8Len text) := by
    rcases h with ⟨k, hk⟩ | hge
    · exact ⟨k, by rw [hk, min_eq_left (hk ▸ utf8Len_take_le text k)]⟩
    · exact ⟨text.length, by rw [List.take_length, min_eq_right hge]⟩
  constructor
  · rw [genTextPosFrom, ← hk, takeBytes_boundary, utf8Encode_take_boundary,
      textPosOfConsumed, calcCurrRow_count, calcCurrCol, calcCurrColAux_takeWhile]
  · intro hge
    rw [genTextPosFrom, genTextPosFrom, min_eq_right hge, Nat.min_self]

theorem C9_gen_text_pos_witness :
    (∃ k, utf8Len ("ab\ncd".toList.take k) = 4) ∧
    (genTextPosFrom "ab\ncd".toList 4 =
        ⟨1 + ((utf8Encode "ab\ncd".toList).take
            (min 4 (utf8Len "ab\ncd".toList))).count 0x0A,
          1 + ((takeBytes "ab\ncd".toList
              (min 4 (utf8Len "ab\ncd".toList))).reverse.takeWhile
            (fun c => c != '\n')).length⟩ ∧
      (utf8Len "ab\ncd".toList ≤ 4 →
        genTextPosFrom "ab\ncd".toList 4 =
          genTextPosFrom "ab\ncd".toList (utf8Len "ab\ncd".toList))) ∧
    genTextPosFrom "ab\ncd".toList 4 = ⟨2, 2⟩ ∧
    genTextPosFrom "ab\ncd".toList 999 = ⟨2, 3⟩ :=
  ⟨⟨4, by decide⟩,
   C9_gen_text_pos "ab\ncd".toList 4 (Or.inl ⟨4, by decide⟩),
   by decide, by decide⟩

/-- The `advance 0` does not move. -/
theorem advanceChars_zero : ∀ (r p : List Char), advanceChars 0 p r = (p, r) := by
  intro r p
  cases r with
  | nil => rfl
  | cons c rest =>
    rw [advanceChars, if_neg]
    have := utf8Size_pos c
    omega

/-- Advancing by the head char's byte size moves exactly that char. -/
theorem advance_head {s : Stream} {c : Char} {r : List Char}
    (hr : s.rest = c :: r) :
    s.advance c.utf8Size = ⟨s.prev ++ [c], r⟩ := by
  rw [Stream.advance]
  simp only [hr]
  rw [advanceChars, if_pos (le_refl _), Nat.sub_self, advanceChars_zero]

/-- Advancing one byte over an ASCII char moves exactly that char. -/
theorem advance_one_ascii {s : Stream} {c : Char} {r : List Char}
    (hr : s.rest = c :: r) (hc : c.toNat < 0x80) :
    s.advance 1 = ⟨s.prev ++ [c], r⟩ := by
  have hsz := utf8Size_eq_one_of_ascii hc
  rw [← hsz]
  exact advance_head hr

/-- The char loop consumes a passing block wholesale and stops. -/
theorem skipCharsWhileAux_all (f : Char → Bool) (b : List Char) :
    ∀ (p : List Char) (c : Char) (rest : List Char),
    (∀ x ∈ b, f x = true) → f c = false →
    skipCharsWhileAux f p (b ++ c :: rest) = (p ++ b, c :: rest) := by
  induction b with
  | nil =>
    intro p c rest _ hc
    rw [List.nil_append, skipCharsWhileAux, if_neg (by simp [hc])]
    simp
  | cons x b ih =>
    intro p c rest hb hc
    rw [List.cons_append, skipCharsWhileAux,
      if_pos (hb x (List.mem_cons_self x b)),
      ih (p ++ [x]) c rest (fun y hy => hb y (List.mem_cons_of_mem x hy)) hc]
    simp

/-- The byte loop consumes a passing block wholesale and stops. -/
theorem skipBytesAux_all (f : Nat → Bool) (b : List Char) :
    ∀ (p : List Char) (c : Char) (rest : List Char),
    (∀ x ∈ b, (utf8Bytes x).all f = true) → (utf8Bytes c).all f = false →
    skipBytesAux f p (b ++ c :: rest) = (p ++ b, c :: rest) := by
  induction b with
  | nil =>
    intro p c rest _ hc
    rw [List.nil_append, skipBytesAux, if_neg (by simp [hc])]
    simp
  | cons x b ih =>
    intro p c rest hb hc
    rw [List.cons_append, skipBytesAux,
      if_pos (hb x (List.mem_cons_self x b)),
      ih (p ++ [x]) c rest (fun y hy => hb y (List.mem_cons_of_mem x hy)) hc]
    simp

/-- The `consume_name` on a well-formed name followed by a non-name char. -/
theorem consumeName_concrete {s : Stream} {c stop : Char} {cs tail : List Char}
    (hrest : s.rest = c :: (cs ++ stop :: tail))
    (hstart : isXmlNameStart c = true)
    (hcs : ∀ x ∈ cs, isXmlName x = true)
    (hstop : isXmlName stop = false) :
    s.consumeName = .ok (c :: cs, ⟨s.prev ++ c :: cs, stop :: tail⟩) := by
  have hskip : s.skipName = .ok (⟨s.prev ++ c :: cs, stop :: tail⟩ : Stream) := by
    rw [Stream.skipName, hrest]
    simp only []
    rw [if_pos hstart, advance_head hrest]
    rw [Stream.skipCharsWhile]
    simp only []
    rw [skipCharsWhileAux_all isXmlName cs (s.prev ++ [c]) stop tail hcs hstop]
    simp
  rw [Stream.consumeName, hskip]
  simp only []
  rw [if_neg (by simp)]
  congr 1
  simp

/-- The `consume_byte` at a matching ASCII head. -/
theorem consumeByte_concrete {s : Stream} {c : Char} {r : List Char} {b : Nat}
    (hr : s.rest = c :: r) (hfb : utf8FirstByte c = b) (hb : b < 0x80) :
    s.consumeByte b = .ok ⟨s.prev ++ [c], r⟩ := by
  have hcb : s.currByte = .ok b := by
    rw [Stream.currByte, hr]
    simp only []
    rw [hfb]
  have hascii : c.toNat < 0x80 := by
    by_contra hge
    push_neg at hge
    have := utf8FirstByte_ge hge
    omega
  rw [Stream.consumeByte, hcb]
  simp only []
  rw [if_neg (by simp), advance_one_ascii hr hascii]

/-- The `from_str_radix` on a nonempty digit run below `2^32`. -/
theorem parseRadix_ok (base : Nat) (ds : List Char) (hne : ds ≠ [])
    (hlt : ds.foldl (fun acc c => acc * base + digitVal c) 0 < 2 ^ 32) :
    parseRadix base ds digitVal =
      .ok (ds.foldl (fun acc c => acc * base + digitVal c) 0) := by
  rw [parseRadix, if_neg (by simpa using hne)]
  simp only []
  rw [if_pos hlt]

/-- A name-start char is never the `#` that introduces a numeric
reference. -/
theorem nameStart_fb_ne_hash {c : Char} (h : isXmlNameStart c = true) :
    (utf8FirstByte c == 0x23) = false := by
  by_cases hc : c.toNat < 0x80
  · rw [utf8FirstByte_ascii hc]
    simp only [beq_eq_false_iff_ne, ne_eq]
    intro heq
    rw [isXmlNameStart] at h
    simp only [heq] at h
    exact absurd h (by decide)
  · push_neg at hc
    have := utf8FirstByte_ge hc
    simp only [beq_eq_false_iff_ne]
    omega

/-- A decimal digit char is ASCII and passes the byte-class check. -/
theorem digit_bytes_all {x : Char} (h : isXmlDigitByte x.toNat = true) :
    (utf8Bytes x).all isXmlDigitByte = true := by
  have hx : x.toNat < 0x80 := by
    simp only [isXmlDigitByte, Bool.and_eq_true, decide_eq_true_eq] at h
    omega
  rw [utf8Bytes]
  simp only [if_pos hx, List.all_cons, List.all_nil, Bool.and_true]
  exact h

/-- A hex digit char is ASCII and passes the byte-class check. -/
theorem hexDigit_bytes_all {x : Char} (h : isXmlHexDigitByte x.toNat = true) :
    (utf8Bytes x).all isXmlHexDigitByte = true := by
  have hx : x.toNat < 0x80 := by
    simp only [isXmlHexDigitByte, Bool.and_eq_true, Bool.or_eq_true,
      decide_eq_true_eq] at h
    omega
  rw [utf8Bytes]
  simp only [if_pos hx, List.all_cons, List.all_nil, Bool.and_true]
  exact h

/-- The `_consume_reference` on a well-formed `&Name;`: the five predefined
entities decode to their char, everything else to `Entity(name)`. -/
theorem consumeReferenceImpl_name {s : Stream} {c : Char} {cs tail : List Char}
    (hrest : s.rest = '&' :: c :: (cs ++ ';' :: tail))
    (hstart : isXmlNameStart c = true)
    (hcs : ∀ x ∈ cs, isXmlName x = true) :
    s.consumeReferenceImpl = .ok
      (if c :: cs = "quot".toList then Reference.charRef '"'
       else if c :: cs = "amp".toList then Reference.charRef '&'
       else if c :: cs = "apos".toList then Reference.charRef (Char.ofNat 0x27)
       else if c :: cs = "lt".toList then Reference.charRef '<'
       else if c :: cs = "gt".toList then Reference.charRef '>'
       else Reference.entityRef (c :: cs),
       ⟨s.prev ++ '&' :: c :: cs ++ [';'], tail⟩) := by
  have hcb0 : s.currByte = .ok 0x26 := by
    rw [Stream.currByte, hrest]
    rfl
  have hs1 : s.advance 1 = (⟨s.prev ++ ['&'], c :: (cs ++ ';' :: tail)⟩ : Stream) :=
    advance_one_ascii hrest (by decide)
  have hcn2 : (⟨s.prev ++ ['&'], c :: (cs ++ ';' :: tail)⟩ : Stream).consumeName =
      .ok (c :: cs, ⟨(s.prev ++ ['&']) ++ c :: cs, ';' :: tail⟩) :=
    consumeName_concrete rfl hstart hcs (by decide)
  have hcend2 : (⟨(s.prev ++ ['&']) ++ c :: cs, ';' :: tail⟩ : Stream).consumeByte 0x3B =
      .ok ⟨((s.prev ++ ['&']) ++ c :: cs) ++ [';'], tail⟩ :=
    consumeByte_concrete rfl rfl (by decide)
  have hcb1 : (⟨s.prev ++ ['&'], c :: (cs ++ ';' :: tail)⟩ : Stream).currByte =
      .ok (utf8FirstByte c) := rfl
  rw [Stream.consumeReferenceImpl]
  simp only [Bind.bind, Except.bind]
  rw [hcb0]
  simp only []
  rw [if_neg (by decide), hs1, hcb1]
  simp only []
  rw [nameStart_fb_ne_hash hstart, if_neg (by simp), hcn2]
  simp only []
  rw [hcend2]
  simp only [pure, Except.pure, Except.ok.injEq, Prod.mk.injEq]
  refine ⟨trivial, ?_⟩
  simp

/-- The `consume_bytes(f)` consumes a passing block and stops. -/
theorem consumeBytes_concrete {s : Stream} {b : List Char} {c : Char}
    {rest : List Char} {f : Nat → Bool}
    (hrest : s.rest = b ++ c :: rest)
    (hb : ∀ x ∈ b, (utf8Bytes x).all f = true)
    (hc : (utf8Bytes c).all f = false) :
    s.consumeBytes f = (b, ⟨s.prev ++ b, c :: rest⟩) := by
  rw [Stream.consumeBytes, Stream.skipBytes]
  simp only [hrest]
  rw [skipBytesAux_all f b s.prev c rest hb hc]
  simp

/-- A decimal digit's lead byte is not `x`. -/
theorem digit_fb_ne_x {d : Char} (h : isXmlDigitByte d.toNat = true) :
    (utf8FirstByte d == 0x78) = false := by
  simp only [isXmlDigitByte, Bool.and_eq_true, decide_eq_true_eq] at h
  rw [utf8FirstByte_ascii (by omega)]
  simp only [beq_eq_false_iff_ne]
  omega

/-- The `_consume_reference` on a well-formed decimal `&#d+;`. -/
theorem consumeReferenceImpl_dec {s : Stream} {ds tail : List Char}
    (hrest : s.rest = '&' :: '#' :: (ds ++ ';' :: tail))
    (hne : ds ≠ [])
    (hds : ∀ x ∈ ds, isXmlDigitByte x.toNat = true)
    (hlt : ds.foldl (fun acc c => acc * 10 + digitVal c) 0 < 2 ^ 32) :
    s.consumeReferenceImpl =
      (if isXmlChar (charOrReplacement
          (ds.foldl (fun acc c => acc * 10 + digitVal c) 0)) then
        .ok (Reference.charRef (charOrReplacement
          (ds.foldl (fun acc c => acc * 10 + digitVal c) 0)),
          ⟨s.prev ++ '&' :: '#' :: ds ++ [';'], tail⟩)
      else .error StreamError.invalidReference) := by
  obtain ⟨d0, ds', rfl⟩ : ∃ d0 ds', ds = d0 :: ds' := by
    cases ds with
    | nil => exact absurd rfl hne
    | cons d0 ds' => exact ⟨d0, ds', rfl⟩
  have hcb0 : s.currByte = .ok 0x26 := by
    rw [Stream.currByte, hrest]
    rfl
  have hs1 : s.advance 1 =
      (⟨s.prev ++ ['&'], '#' :: ((d0 :: ds') ++ ';' :: tail)⟩ : Stream) :=
    advance_one_ascii hrest (by decide)
  have hcb1 : (⟨s.prev ++ ['&'], '#' :: ((d0 :: ds') ++ ';' :: tail)⟩ : Stream).currByte =
      .ok 0x23 := rfl
  have hs2 : (⟨s.prev ++ ['&'], '#' :: ((d0 :: ds') ++ ';' :: tail)⟩ : Stream).advance 1 =
      (⟨(s.prev ++ ['&']) ++ ['#'], (d0 :: ds') ++ ';' :: tail⟩ : Stream) :=
    advance_one_ascii rfl (by decide)
  have hcb2 : (⟨(s.prev ++ ['&']) ++ ['#'], (d0 :: ds') ++ ';' :: tail⟩ : Stream).currByte =
      .ok (utf8FirstByte d0) := rfl
  have hcons : (⟨(s.prev ++ ['&']) ++ ['#'], (d0 :: ds') ++ ';' :: tail⟩ : Stream).consumeBytes
      isXmlDigitByte =
      (d0 :: ds', ⟨((s.prev ++ ['&']) ++ ['#']) ++ d0 :: ds', ';' :: tail⟩) :=
    consumeBytes_concrete rfl (fun x hx => digit_bytes_all (hds x hx)) (by decide)
  have hrad := parseRadix_ok 10 (d0 :: ds') hne hlt
  have hcend : (⟨((s.prev ++ ['&']) ++ ['#']) ++ d0 :: ds', ';' :: tail⟩ : Stream).consumeByte
      0x3B = .ok ⟨(((s.prev ++ ['&']) ++ ['#']) ++ d0 :: ds') ++ [';'], tail⟩ :=
    consumeByte_concrete rfl rfl (by decide)
  rw [Stream.consumeReferenceImpl]
  simp only [Bind.bind, Except.bind]
  rw [hcb0]
  simp only []
  rw [if_neg (by decide), hs1, hcb1]
  simp only []
  rw [if_pos (by decide), hs2, hcb2]
  simp only []
  rw [digit_fb_ne_x (hds d0 (List.mem_cons_self d0 ds')), if_neg (by simp), hcons]
  simp only []
  rw [hrad]
  simp only [Except.map]
  by_cases hx : isXmlChar (charOrReplacement
      ((d0 :: ds').foldl (fun acc c => acc * 10 + digitVal c) 0)) = true
  · rw [if_neg (fun hcon => hcon hx), if_pos hx, hcend]
    simp only [pure, Except.pure, Except.ok.injEq, Prod.mk.injEq]
    refine ⟨trivial, ?_⟩
    simp
  · rw [if_pos hx, if_neg hx]
    simp [throw, throwThe, MonadExceptOf.throw]

/-- The `_consume_reference` on a well-formed hex `&#xh+;`. -/
theorem consumeReferenceImpl_hex {s : Stream} {hs tail : List Char}
    (hrest : s.rest = '&' :: '#' :: 'x' :: (hs ++ ';' :: tail))
    (hne : hs ≠ [])
    (hds : ∀ x ∈ hs, isXmlHexDigitByte x.toNat = true)
    (hlt : hs.foldl (fun acc c => acc * 16 + digitVal c) 0 < 2 ^ 32) :
    s.consumeReferenceImpl =
      (if isXmlChar (charOrReplacement
          (hs.foldl (fun acc c => acc * 16 + digitVal c) 0)) then
        .ok (Reference.charRef (charOrReplacement
          (hs.foldl (fun acc c => acc * 16 + digitVal c) 0)),
          ⟨s.prev ++ '&' :: '#' :: 'x' :: hs ++ [';'], tail⟩)
      else .error StreamError.invalidReference) := by
  have hcb0 : s.currByte = .ok 0x26 := by
    rw [Stream.currByte, hrest]
    rfl
  have hs1 : s.advance 1 =
      (⟨s.prev ++ ['&'], '#' :: 'x' :: (hs ++ ';' :: tail)⟩ : Stream) :=
    advance_one_ascii hrest (by decide)
  have hcb1 : (⟨s.prev ++ ['&'], '#' :: 'x' :: (hs ++ ';' :: tail)⟩ : Stream).currByte =
      .ok 0x23 := rfl
  have hs2 : (⟨s.prev ++ ['&'], '#' :: 'x' :: (hs ++ ';' :: tail)⟩ : Stream).advance 1 =
      (⟨(s.prev ++ ['&']) ++ ['#'], 'x' :: (hs ++ ';' :: tail)⟩ : Stream) :=
    advance_one_ascii rfl (by decide)
  have hcb2 : (⟨(s.prev ++ ['&']) ++ ['#'], 'x' :: (hs ++ ';' :: tail)⟩ : Stream).currByte =
      .ok 0x78 := rfl
  have hs3 : (⟨(s.prev ++ ['&']) ++ ['#'], 'x' :: (hs ++ ';' :: tail)⟩ : Stream).advance 1 =
      (⟨((s.prev ++ ['&']) ++ ['#']) ++ ['x'], hs ++ ';' :: tail⟩ : Stream) :=
    advance_one_ascii rfl (by decide)
  have hcons : (⟨((s.prev ++ ['&']) ++ ['#']) ++ ['x'], hs ++ ';' :: tail⟩ : Stream).consumeBytes
      isXmlHexDigitByte =
      (hs, ⟨(((s.prev ++ ['&']) ++ ['#']) ++ ['x']) ++ hs, ';' :: tail⟩) :=
    consumeBytes_concrete rfl (fun x hx => hexDigit_bytes_all (hds x hx)) (by decide)
  have hrad := parseRadix_ok 16 hs hne hlt
  have hcend : (⟨(((s.prev ++ ['&']) ++ ['#']) ++ ['x']) ++ hs, ';' :: tail⟩ : Stream).consumeByte
      0x3B = .ok ⟨((((s.prev ++ ['&']) ++ ['#']) ++ ['x']) ++ hs) ++ [';'], tail⟩ :=
    consumeByte_concrete rfl rfl (by decide)
  rw [Stream.consumeReferenceImpl]
  simp only [Bind.bind, Except.bind]
  rw [hcb0]
  simp only []
  rw [if_neg (by decide), hs1, hcb1]
  simp only []
  rw [if_pos (by decide), hs2, hcb2]
  simp only []
  rw [if_pos (by decide), hs3, hcons]
  simp only []
  rw [hrad]
  simp only [Except.map]
  by_cases hx : isXmlChar (charOrReplacement
      (hs.foldl (fun acc c => acc * 16 + digitVal c) 0)) = true
  · rw [if_neg (fun hcon => hcon hx), if_pos hx, hcend]
    simp only [pure, Except.pure, Except.ok.injEq, Prod.mk.injEq]
    refine ⟨trivial, ?_⟩
    simp
  · rw [if_pos hx, if_neg hx]
    simp [throw, throwThe, MonadExceptOf.throw]

/-- The `consume_reference` wrapper forwards successes. -/
theorem consumeReference_ok_of_impl {s : Stream} {r : Reference × Stream}
    (h : s.consumeReferenceImpl = .ok r) : s.consumeReference = .ok r := by
  rw [Stream.consumeReference, h]

/-- The `consume_reference` wrapper collapses failures to
`InvalidReference`. -/
theorem consumeReference_err_of_impl {s : Stream} {e : StreamError}
    (h : s.consumeReferenceImpl = .error e) :
    s.consumeReference = .error .invalidReference := by
  rw [Stream.consumeReference, h]

/-- C8: `consume_reference` decodes `&Name;` to an entity reference except
for the five predefined entities, which decode to their character; numeric
`&#d+;` / `&#xh+;` decode to a character, with non-scalar-value code
points mapped to U+FFFD, and a decoded char outside the XML `Char`
production rejected with `InvalidReference`. -/
theorem C8_references (s : Stream) (c : Char) (cs ds hs tail : List Char) :
    (s.rest = '&' :: c :: (cs ++ ';' :: tail) →
      isXmlNameStart c = true →
      (∀ x ∈ cs, isXmlName x = true) →
      c :: cs ≠ "quot".toList → c :: cs ≠ "amp".toList → c :: cs ≠ "apos".toList →
      c :: cs ≠ "lt".toList → c :: cs ≠ "gt".toList →
      s.consumeReference = .ok (Reference.entityRef (c :: cs),
        ⟨s.prev ++ '&' :: c :: cs ++ [';'], tail⟩)) ∧
    (s.rest = "&amp;".toList ++ tail →
      s.consumeReference = .ok (Reference.charRef '&',
        ⟨s.prev ++ "&amp;".toList, tail⟩)) ∧
    (s.rest = "&lt;".toList ++ tail →
      s.consumeReference = .ok (Reference.charRef '<',
        ⟨s.prev ++ "&lt;".toList, tail⟩)) ∧
    (s.rest = "&gt;".toList ++ tail →
      s.consumeReference = .ok (Reference.charRef '>',
        ⟨s.prev ++ "&gt;".toList, tail⟩)) ∧
    (s.rest = "&apos;".toList ++ tail →
      s.consumeReference = .ok (Reference.charRef (Char.ofNat 0x27),
        ⟨s.prev ++ "&apos;".toList, tail⟩)) ∧
    (s.rest = "&quot;".toList ++ tail →
      s.consumeReference = .ok (Reference.charRef '"',
        ⟨s.prev ++ "&quot;".toList, tail⟩)) ∧
    (s.rest = '&' :: '#' :: (ds ++ ';' :: tail) → ds ≠ [] →
      (∀ x ∈ ds, isXmlDigitByte x.toNat = true) →
      ds.foldl (fun acc ch => acc * 10 + digitVal ch) 0 < 2 ^ 32 →
      s.consumeReference =
        (if isXmlChar (charOrReplacement
            (ds.foldl (fun acc ch => acc * 10 + digitVal ch) 0)) then
          .ok (Reference.charRef (charOrReplacement
            (ds.foldl (fun acc ch => acc * 10 + digitVal ch) 0)),
            ⟨s.prev ++ '&' :: '#' :: ds ++ [';'], tail⟩)
        else .error StreamError.invalidReference)) ∧
    (s.rest = '&' :: '#' :: 'x' :: (hs ++ ';' :: tail) → hs ≠ [] →
      (∀ x ∈ hs, isXmlHexDigitByte x.toNat = true) →
      hs.foldl (fun acc ch => acc * 16 + digitVal ch) 0 < 2 ^ 32 →
      s.consumeReference =
        (if isXmlChar (charOrReplacement
            (hs.foldl (fun acc ch => acc * 16 + digitVal ch) 0)) then
          .ok (Reference.charRef (charOrReplacement
            (hs.foldl (fun acc ch => acc * 16 + digitVal ch) 0)),
            ⟨s.prev ++ '&' :: '#' :: 'x' :: hs ++ [';'], tail⟩)
        else .error StreamError.invalidReference)) ∧
    (∀ n : Nat, (0xD800 ≤ n ∧ n < 0xE000) ∨ 0x110000 ≤ n →
      charOrReplacement n = Char.ofNat 0xFFFD) := by
  refine ⟨?_, ?_, ?_, ?_, ?_, ?_, ?_, ?_, ?_⟩
  · intro hrest hstart hcs h1 h2 h3 h4 h5
    have h := consumeReferenceImpl_name hrest hstart hcs
    rw [if_neg h1, if_neg h2, if_neg h3, if_neg h4, if_neg h5] at h
    exact consumeReference_ok_of_impl h
  · intro hrest
    have h := consumeReferenceImpl_name
      (show s.rest = '&' :: 'a' :: ("mp".toList ++ ';' :: tail) from hrest)
      (by decide) (by decide)
    rw [if_neg (by decide), if_pos (by decide)] at h
    refine consumeReference_ok_of_impl (h.trans ?_)
    simp
  · intro hrest
    have h := consumeReferenceImpl_name
      (show s.rest = '&' :: 'l' :: ("t".toList ++ ';' :: tail) from hrest)
      (by decide) (by decide)
    rw [if_neg (by decide), if_neg (by decide), if_neg (by decide),
      if_pos (by decide)] at h
    refine consumeReference_ok_of_impl (h.trans ?_)
    simp
  · intro hrest
    have h := consumeReferenceImpl_name
      (show s.rest = '&' :: 'g' :: ("t".toList ++ ';' :: tail) from hrest)
      (by decide) (by decide)
    rw [if_neg (by decide), if_neg (by decide), if_neg (by decide),
      if_neg (by decide), if_pos (by decide)] at h
    refine consumeReference_ok_of_impl (h.trans ?_)
    simp
  · intro hrest
    have h := consumeReferenceImpl_name
      (show s.rest = '&' :: 'a' :: ("pos".toList ++ ';' :: tail) from hrest)
      (by decide) (by decide)
    rw [if_neg (by decide), if_neg (by decide), if_pos (by decide)] at h
    refine consumeReference_ok_of_impl (h.trans ?_)
    simp
  · intro hrest
    have h := consumeReferenceImpl_name
      (show s.rest = '&' :: 'q' :: ("uot".toList ++ ';' :: tail) from hrest)
      (by decide) (by decide)
    rw [if_pos (by decide)] at h
    refine consumeReference_ok_of_impl (h.trans ?_)
    simp
  · intro hrest hne hds hlt
    have h := consumeReferenceImpl_dec hrest hne hds hlt
    by_cases hx : isXmlChar (charOrReplacement
        (ds.foldl (fun acc ch => acc * 10 + digitVal ch) 0)) = true
    · rw [if_pos hx] at h ⊢
      exact consumeReference_ok_of_impl h
    · rw [if_neg hx] at h ⊢
      exact consumeReference_err_of_impl h
  · intro hrest hne hds hlt
    have h := consumeReferenceImpl_hex hrest hne hds hlt
    by_cases hx : isXmlChar (charOrReplacement
        (hs.foldl (fun acc ch => acc * 16 + digitVal ch) 0)) = true
    · rw [if_pos hx] at h ⊢
      exact consumeReference_ok_of_impl h
    · rw [if_neg hx] at h ⊢
      exact consumeReference_err_of_impl h
  · intro n hn
    rw [charOrReplacement, if_neg]
    push_neg
    constructor
    · omega
    · intro h8
      omega

theorem C8_references_witness :
    ((Stream.fromChars "&foo;".toList).rest =
        '&' :: 'f' :: ("oo".toList ++ ';' :: []) ∧
      isXmlNameStart 'f' = true ∧
      'f' :: "oo".toList ≠ "amp".toList) ∧
    (Stream.fromChars "&foo;".toList).consumeReference =
      .ok (Reference.entityRef ('f' :: "oo".toList),
        ⟨(Stream.fromChars "&foo;".toList).prev ++ '&' :: 'f' :: "oo".toList ++ [';'],
          []⟩) ∧
    (Stream.fromChars "&amp;".toList).consumeReference =
      .ok (Reference.charRef '&',
        ⟨(Stream.fromChars "&amp;".toList).prev ++ "&amp;".toList, []⟩) ∧
    (("65".toList ≠ ([] : List Char)) ∧
      (∀ x ∈ "65".toList, isXmlDigitByte x.toNat = true) ∧
      "65".toList.foldl (fun acc ch => acc * 10 + digitVal ch) 0 < 2 ^ 32) ∧
    (Stream.fromChars "&#65;".toList).consumeReference =
      (if isXmlChar (charOrReplacement
          ("65".toList.foldl (fun acc ch => acc * 10 + digitVal ch) 0)) then
        .ok (Reference.charRef (charOrReplacement
          ("65".toList.foldl (fun acc ch => acc * 10 + digitVal ch) 0)),
          ⟨(Stream.fromChars "&#65;".toList).prev ++ '&' :: '#' :: "65".toList ++ [';'],
            []⟩)
      else .error StreamError.invalidReference) ∧
    (Stream.fromChars "&#x41;".toList).consumeReference =
      (if isXmlChar (charOrReplacement
          ("41".toList.foldl (fun acc ch => acc * 16 + digitVal ch) 0)) then
        .ok (Reference.charRef (charOrReplacement
          ("41".toList.foldl (fun acc ch => acc * 16 + digitVal ch) 0)),
          ⟨(Stream.fromChars "&#x41;".toList).prev ++
            '&' :: '#' :: 'x' :: "41".toList ++ [';'], []⟩)
      else .error StreamError.invalidReference) ∧
    charOrReplacement 0xD800 = Char.ofNat 0xFFFD :=
  ⟨⟨rfl, by decide, by decide⟩,
   (C8_references (Stream.fromChars "&foo;".toList) 'f' "oo".toList [] [] []).1
     rfl (by decide) (by decide) (by decide) (by decide) (by decide) (by decide)
     (by decide),
   (C8_references (Stream.fromChars "&amp;".toList) 'a' [] [] [] []).2.1 rfl,
   ⟨by decide, by decide, by decide⟩,
   (C8_references (Stream.fromChars "&#65;".toList) 'a' [] "65".toList [] []).2.2.2.2.2.2.1
     rfl (by decide) (by decide) (by decide),
   (C8_references (Stream.fromChars "&#x41;".toList) 'a' [] [] "41".toList []).2.2.2.2.2.2.2.1
     rfl (by decide) (by decide) (by decide),
   (C8_references (Stream.fromChars "".toList) 'a' [] [] [] []).2.2.2.2.2.2.2.2 0xD800
     (Or.inl ⟨by decide, by decide⟩)⟩

end XmlParser
